import Mathlib

/-!
Deep Blue Genome / morph: importer and co-expression neighbour discovery.

A shallow embedding of

* `src/cpp/src/deep_blue_genome/coexpr/main.cpp`
  (`read_yaml`, `load_baits` and the neighbour search of `main`),
* `src/src/deep_blue_genome/common/DataFileImport.cpp`
  (`add_orthologs`, `add_gene_expression_matrix`, `add_clustering`,
  `add_functional_annotations`),
* `src/src/deep_blue_genome/common/OrthologGroup.h` (`add`, `merge`),
* `src/src/deep_blue_genome/util/serialization/vector.h` (`save`, `load`),
* `src/src/morph/util.h` (`infimum`, `contains`) and `src/src/morph/Ranking.cpp`
  (`rank_genes`),

followed by theorems about these definitions.
-/

namespace DeepBlueGenome

/-! ## Basic entities -/

/-- A gene.  The C++ code identifies a gene by the address of its `Gene` object; a gene is
uniquely named within its gene collection, so the pair (collection, name) is that identity. -/
structure Gene where
  collection : Nat
  name : String
deriving DecidableEq, Repr

/-- A C++ `double` as far as comparisons are concerned: `none` is NaN, `some q` a finite value.
Comparison of finite doubles is comparison of the rationals they denote. -/
abbrev Double := Option Rat

/-- The operator `<` on doubles: false as soon as one operand is NaN. -/
def Double.lt (a b : Double) : Bool :=
  match a, b with
  | some x, some y => decide (x < y)
  | _, _ => false

/-- The operator `>` on doubles. -/
def Double.gt (a b : Double) : Bool := Double.lt b a


/-! ## coexpr: the neighbour loop of `main` (main.cpp, lines 156-199) -/

/-- Identity of an `OrthologGroupInfo` object (the address pushed on `neighbours`). -/
abbrev GroupRef := Nat

/-- Row index of a gene expression matrix (`GeneExpressionMatrixRow`). -/
abbrev GeneExpressionMatrixRow := Nat

/-- One `(gene, bait, correlation)` tuple recorded against a group. -/
structure BaitCorrelation where
  group : GroupRef
  gene : Gene
  bait : Gene
  corr : Double
deriving DecidableEq

/-- What the neighbour loop reads of one expression matrix and of the
`GeneCorrelationMatrix` built from it. -/
structure CorrelationInput where
  /-- The flat set `indices`: rows of the baits present in this matrix, in iteration order. -/
  indices : List GeneExpressionMatrixRow
  /-- The `correlations_.size1()`: number of rows of the correlation matrix. -/
  size1 : Nat
  /-- The `correlations_(row, col)`. -/
  correlations : Nat → Nat → Double
  /-- The `correlations.get_column_index(row_index)`. -/
  get_column_index : GeneExpressionMatrixRow → Nat
  /-- The `expression_matrix->get_gene(row)`. -/
  get_gene : GeneExpressionMatrixRow → Gene

/-- The two containers the loop mutates: the tuples stored in the `OrthologGroupInfo`s and the
vector `neighbours`. -/
structure NeighbourState where
  records : List BaitCorrelation
  neighbours : List GroupRef

/-- Modelled from the spec: `OrthologGroupInfo::add_bait_correlation` is declared in
`coexpr/OrthologGroupInfo.h`, which is not part of the sources; per section 4.5 it records a
(gene, bait, correlation) tuple against the group. -/
def add_bait_correlation (group : GroupRef) (gene bait : Gene) (corr : Double)
    (records : List BaitCorrelation) : List BaitCorrelation :=
  records ++ [⟨group, gene, bait, corr⟩]

/-- The test `corr < negative_treshold || corr > positive_treshold` (main.cpp, line 181). -/
def sufficient_correlation (negative_treshold positive_treshold corr : Double) : Bool :=
  Double.lt corr negative_treshold || Double.gt corr positive_treshold

/-- The loop `for (auto&& group : groups->get(gene))` (lines 183-186). -/
def neighbour_groups (gene bait : Gene) (corr : Double) :
    List GroupRef → NeighbourState → NeighbourState
  | [], st => st
  | group :: rest, st =>
    neighbour_groups gene bait corr rest
      ⟨add_bait_correlation group gene bait corr st.records, st.neighbours ++ [group]⟩

/-- Body of the loop over `row` (lines 176-187) for the bait with column `col_index`. -/
def neighbour_row (inp : CorrelationInput) (groups_get : Gene → List GroupRef)
    (negative_treshold positive_treshold : Double) (col_index : Nat) (bait : Gene)
    (row : GeneExpressionMatrixRow) (st : NeighbourState) : NeighbourState :=
  if row ∈ inp.indices then
    st -- Don't make edges between baits
  else
    let corr := inp.correlations row col_index
    if sufficient_correlation negative_treshold positive_treshold corr then
      neighbour_groups (inp.get_gene row) bait corr (groups_get (inp.get_gene row)) st
    else
      st

/-- Body of the loop over the bait rows (lines 172-188); the correlation matrix written to disk
at lines 190-194 does not touch the state. -/
def neighbour_bait (inp : CorrelationInput) (groups_get : Gene → List GroupRef)
    (negative_treshold positive_treshold : Double) (row_index : GeneExpressionMatrixRow)
    (st : NeighbourState) : NeighbourState :=
  let col_index := inp.get_column_index row_index
  let bait := inp.get_gene row_index
  (List.range inp.size1).foldl
    (fun s row => neighbour_row inp groups_get negative_treshold positive_treshold col_index bait row s)
    st

/-- The loop `for (auto row_index : indices)` for one expression matrix (lines 172-195). -/
def neighbour_loop (inp : CorrelationInput) (groups_get : Gene → List GroupRef)
    (negative_treshold positive_treshold : Double) (st : NeighbourState) : NeighbourState :=
  inp.indices.foldl
    (fun s row_index => neighbour_bait inp groups_get negative_treshold positive_treshold row_index s)
    st

/-- The tuple the loop body emits for bait row `b`, row `r` and group `G`. -/
def emitted (inp : CorrelationInput) (b r : Nat) (G : GroupRef) : BaitCorrelation :=
  ⟨G, inp.get_gene r, inp.get_gene b, inp.correlations r (inp.get_column_index b)⟩

/-- A small input for the neighbour loop: one bait row (row 0) and one other row. -/
def thresholdInput (c : Double) : CorrelationInput :=
  ⟨[0], 2, fun _ _ => c, fun _ => 0, fun i => ⟨0, if i = 0 then "bait" else "target"⟩⟩


/-! ## Exceptions and gene lookup -/

/-- The `ErrorType` of a `TypedException`, as far as the importer distinguishes them. -/
inductive ErrorType
  | GENERIC
  | SPLICE_VARIANT_INSTEAD_OF_GENE
deriving DecidableEq, Repr

/-- The messages of the exceptions of the importer, with the values streamed into them. -/
inductive Message
  /-- "Line l (1-based, header included): expected e columns, got g". -/
  | column_count (line : Int) (expected : Nat) (got : Int)
  /-- "All rows in a gene expression matrix must be of splice variants of the same gene
  collection. Conflicting gene: name". -/
  | matrix_gene_collection (name : String)
  /-- "Duplicate gene: name". -/
  | duplicate_gene (name : String)
  /-- "Error while reading path: Incomplete line: v values instead of e". -/
  | incomplete_line (values : Int) (expected : Nat)
  /-- "All genes in a clustering must be of the same gene collection. Conflicting gene:
  name". -/
  | clustering_gene_collection (name : String)
  /-- "Clustering contains some genes more than once: " followed by the names, each followed
  by ", ". -/
  | clustering_duplicates (gene_names : List String)
  /-- Any other text. -/
  | other (text : String)
deriving DecidableEq, Repr

/-- The exceptions that can leave the importer. -/
inductive Exception
  /-- A `NotFoundException`. -/
  | not_found (what : String)
  /-- A `TypedException` with its type and message. -/
  | typed (type : ErrorType) (message : Message)
  /-- A `std::out_of_range` thrown by `vector::at`. -/
  | out_of_range
  /-- A Spirit `expectation_failure` thrown by the operator `>` of a grammar. -/
  | expectation_failure
  /-- An element access `expression_matrix(i, j)` outside the matrix: a ublas `bad_index` when
  the bounds checks are compiled in, undefined behaviour otherwise. -/
  | bad_index (i j : Int)
  /-- A null `gene_collection` pointer is dereferenced. -/
  | null_gene_collection
deriving DecidableEq, Repr

/-- The `ensure(condition, message, ErrorType::GENERIC)` of common/util.h. -/
def ensure (condition : Bool) (message : Message) : Except Exception Unit :=
  if condition then .ok () else .error (.typed .GENERIC message)

/-- Modelled from the spec: `GeneVariant` is declared in headers that are not part of the
sources; per section 3 a named sequence is either a Gene itself or a splice variant that
resolves to a Gene. -/
inductive GeneVariant
  | gene (g : Gene)
  | splice_variant (g : Gene) (variant : String)
deriving DecidableEq, Repr

/-- Modelled from the spec: `GeneVariant::as_gene` (not in the sources) signals the distinct
error `SPLICE_VARIANT_INSTEAD_OF_GENE` when a splice variant is supplied where a Gene is
required (section 3, section 7). -/
def GeneVariant.as_gene : GeneVariant → Except Exception Gene
  | .gene g => .ok g
  | .splice_variant _ variant => .error (.typed .SPLICE_VARIANT_INSTEAD_OF_GENE (.other variant))

/-- Modelled from the spec: `GeneVariant::get_gene` (not in the sources) converts a variant to
the Gene it resolves to (section 3). -/
def GeneVariant.get_gene : GeneVariant → Gene
  | .gene g => g
  | .splice_variant g _ => g

/-- The gene collection of a variant is the one of its gene. -/
def GeneVariant.get_gene_collection (v : GeneVariant) : Nat := v.get_gene.collection

/-! ## Ortholog groups and the repository (OrthologGroup.h, spec sections 3 and 4.2) -/

/-- External identifier of a gene family; `add_orthologs` passes the first field of a line. -/
abbrev GeneFamilyId := String

/-- Identity of an `OrthologGroup` object owned by the database (its address, `database_it`). -/
abbrev GroupHandle := Nat

/-- The data members of `OrthologGroup`: `external_ids`, `genes`, and its identity. The flat set
`genes` is kept as a list without duplicates; its iteration order (by address) is not modelled. -/
structure OrthologGroup where
  handle : GroupHandle
  external_ids : List GeneFamilyId
  genes : List Gene
deriving DecidableEq, Repr

/-- The part of `Database` the ortholog import touches: the list of owned groups, the next
fresh group identity, and for every gene its back-reference `Gene::get_ortholog_group()`
(`none` is the null pointer). -/
structure Database where
  ortholog_groups : List OrthologGroup
  next_handle : GroupHandle
  gene_group : Gene → Option GroupHandle

/-- Modelled from the spec: `Database::erase_families` (not in the sources) removes all
OrthologGroups (section 4.2), after which no gene has an explicit group (section 4.3). -/
def Database.erase_families (db : Database) : Database :=
  { ortholog_groups := [], next_handle := db.next_handle, gene_group := fun _ => none }

/-- Modelled from the spec: `Database::add_ortholog_group` (not in the sources) registers a new
empty OrthologGroup under `id` and fails if `id` is already present (section 4.2). -/
def Database.add_ortholog_group (db : Database) (id : GeneFamilyId) :
    Except Exception (Database × GroupHandle) :=
  if db.ortholog_groups.any (fun G => decide (id ∈ G.external_ids)) then
    .error (.typed .GENERIC (.other id))
  else
    .ok ({ db with
            ortholog_groups := db.ortholog_groups ++ [⟨db.next_handle, [id], []⟩]
            next_handle := db.next_handle + 1 },
         db.next_handle)

/-- Modelled from the spec: `OrthologGroup::add` (declared in OrthologGroup.h, body not in the
sources): "Add orthologous gene. Also sets the inverse link on Gene to this. Silently fails
when adding a sequence already present in list." -/
def Database.add (db : Database) (group : GroupHandle) (gene : Gene) : Database :=
  if db.ortholog_groups.any (fun G => decide (G.handle = group ∧ gene ∈ G.genes)) then
    db
  else
    { db with
      ortholog_groups := db.ortholog_groups.map
        (fun G => if G.handle = group then { G with genes := G.genes ++ [gene] } else G)
      gene_group := fun g => if g = gene then some group else db.gene_group g }

/-- The group `group` after absorbing `other`: genes and external ids of `other` that it does not
hold yet are inserted. -/
def OrthologGroup.absorb (group other : OrthologGroup) : OrthologGroup :=
  { group with
    external_ids := group.external_ids
      ++ other.external_ids.filter (fun i => decide (i ∉ group.external_ids))
    genes := group.genes ++ other.genes.filter (fun g => decide (g ∉ group.genes)) }

/-- Modelled from the spec: `OrthologGroup::merge` (declared in OrthologGroup.h, body not in
the sources): "Merge other group into this one. Note: this removes the other group from
database"; per section 3 the group absorbs the other group's genes and external ids, and the
genes' back-references follow. -/
def Database.merge (db : Database) (group other : GroupHandle) : Database :=
  match db.ortholog_groups.find? (fun G => decide (G.handle = other)) with
  | none => db
  | some G2 =>
    { db with
      ortholog_groups := (db.ortholog_groups.filter (fun G => decide (G.handle ≠ other))).map
        (fun G => if G.handle = group then G.absorb G2 else G)
      gene_group := fun g => if g ∈ G2.genes then some group else db.gene_group g }

/-! ## DataFileImport::add_orthologs (DataFileImport.cpp, lines 72-131) -/

/-- What the importer writes to `cerr`. -/
inductive Warning
  /-- "Encountered line in ortholog file with n < 3 columns". -/
  | short_line (columns : Nat)
  /-- "groups overlap: merging group2 into group". -/
  | groups_overlap (group2 group : GroupHandle)
  /-- "ignoring splice variant in orthologs file: name". -/
  | splice_variant (name : String)
  /-- "ignored n genes of unrecognised gene collections". -/
  | ignored_unknown (count : Nat)
  /-- "Gene of unknown collection name". -/
  | unknown_collection (name : String)
deriving DecidableEq, Repr

/-- The state `on_line` works on: the database, the `uint32_t unknown_genes` and `cerr`. -/
structure OrthologImport where
  database : Database
  unknown_genes : Nat
  cerr : List Warning

/-- The statements inside the two `try` blocks for the field `name` (lines 93-107). -/
def ortholog_field_body (get_gene_variant : String → Except Exception GeneVariant)
    (group : GroupHandle) (name : String) (st : OrthologImport) :
    Except Exception OrthologImport :=
  match get_gene_variant name with
  | .error e => .error e
  | .ok variant =>
    match variant.as_gene with
    | .error e => .error e
    | .ok gene =>
      match st.database.gene_group gene with
      | some group2 =>
        if group2 = group then
          -- Gene appeared more than once in group, ignore it
          .ok st
        else
          .ok { st with
                cerr := st.cerr ++ [Warning.groups_overlap group2 group]
                database := st.database.merge group group2 }
      | none => .ok { st with database := st.database.add group gene }

/-- One iteration of the loop over the fields of a line, with its two `catch` clauses
(lines 109-118): a splice variant is skipped with a warning, any other `TypedException` is
rethrown, a `NotFoundException` increments the 32 bit counter `unknown_genes`. -/
def ortholog_field (get_gene_variant : String → Except Exception GeneVariant)
    (group : GroupHandle) (st : OrthologImport) (name : String) :
    Except Exception OrthologImport :=
  match ortholog_field_body get_gene_variant group name st with
  | .ok st2 => .ok st2
  | .error (.typed type message) =>
    if type ≠ ErrorType.SPLICE_VARIANT_INSTEAD_OF_GENE then
      .error (.typed type message)
    else
      .ok { st with cerr := st.cerr ++ [Warning.splice_variant name] }
  | .error (.not_found _) => .ok { st with unknown_genes := (st.unknown_genes + 1) % 2 ^ 32 }
  | .error e => .error e

/-- The loop `for (int i=1; i < line.size(); i++)` over the gene fields of a line. -/
def ortholog_fields (get_gene_variant : String → Except Exception GeneVariant)
    (group : GroupHandle) : List String → OrthologImport → Except Exception OrthologImport
  | [], st => .ok st
  | name :: rest, st =>
    match ortholog_field get_gene_variant group st name with
    | .ok st2 => ortholog_fields get_gene_variant group rest st2
    | .error e => .error e

/-- The lambda `on_line` (lines 81-120). -/
def on_line (get_gene_variant : String → Except Exception GeneVariant)
    (st : OrthologImport) (line : List String) : Except Exception OrthologImport :=
  if line.length < 3 then
    .ok { st with cerr := st.cerr ++ [Warning.short_line line.length] }
  else
    match line with
    | [] => .ok st
    | id :: names =>
      match st.database.add_ortholog_group id with
      | .error e => .error e
      | .ok (db, group) => ortholog_fields get_gene_variant group names { st with database := db }

/-- The `parse(begin, end, rules.line[on_line] % eol)`: `on_line` is called on every line of
the file in order; an exception leaving it ends the import. The file is given as the sequence
of its lines, each the sequence of its tab separated fields. -/
def ortholog_lines (get_gene_variant : String → Except Exception GeneVariant) :
    List (List String) → OrthologImport → Except Exception OrthologImport
  | [], st => .ok st
  | line :: rest, st =>
    match on_line get_gene_variant st line with
    | .ok st2 => ortholog_lines get_gene_variant rest st2
    | .error e => .error e

/-- The `DataFileImport::add_orthologs`. The test of `unknown_genes` (lines 122-124) stands
before the call of `parse`, as in the source. -/
def add_orthologs (get_gene_variant : String → Except Exception GeneVariant)
    (file : List (List String)) (db : Database) : Except Exception OrthologImport :=
  let unknown_genes := 0
  let cerr : List Warning :=
    if unknown_genes > 0 then [Warning.ignored_unknown unknown_genes] else []
  ortholog_lines get_gene_variant file ⟨db, unknown_genes, cerr⟩

/-- The gene sets of the groups of a database, as a multiset of finite sets: the partition of
the genes into groups, by content. -/
def Database.partition (db : Database) : Multiset (Finset Gene) :=
  (db.ortholog_groups.map (fun G => G.genes.toFinset) : List (Finset Gene))

/-- The genes a line refers to: the names after the first field that resolve to a Gene. -/
def line_genes (get_gene_variant : String → Except Exception GeneVariant)
    (names : List String) : List Gene :=
  names.filterMap (fun name =>
    match get_gene_variant name with
    | .ok (.gene g) => some g
    | _ => none)

/-- A repository that knows the genes geneX, geneY and geneZ of one collection. -/
def xyzGenes (name : String) : Except Exception GeneVariant :=
  if name = "geneX" ∨ name = "geneY" ∨ name = "geneZ" then .ok (.gene ⟨0, name⟩)
  else .error (.not_found name)

/-- A repository without ortholog groups. -/
def emptyDatabase : Database := ⟨[], 0, fun _ => none⟩

/-- The consistency of the groups of a database: group identities are pairwise distinct and
below the next fresh identity, no group holds a gene twice, and the back-reference of a gene
names a group exactly when that group holds the gene. -/
structure Database.Inv (db : Database) : Prop where
  handles_nodup : (db.ortholog_groups.map (fun G => G.handle)).Nodup
  handles_lt : ∀ G ∈ db.ortholog_groups, G.handle < db.next_handle
  genes_nodup : ∀ G ∈ db.ortholog_groups, G.genes.Nodup
  back_ref : ∀ g h, db.gene_group g = some h ↔
    ∃ G ∈ db.ortholog_groups, G.handle = h ∧ g ∈ G.genes

/-- The union of the gene sets of a list of groups. -/
def unionGenes : List OrthologGroup → Finset Gene
  | [] => ∅
  | G :: rest => G.genes.toFinset ∪ unionGenes rest

/-- The effect of one imported line on the partition of the genes: the blocks that share a gene
with the line are united with the genes of the line into one block. -/
def absRow (S : Finset Gene) (P : Multiset (Finset Gene)) : Multiset (Finset Gene) :=
  P.filter (fun B => Disjoint S B) + {S ∪ (P.filter (fun B => ¬ Disjoint S B)).sup}

/-- The groups of `db2` are what remains of `others ++ [cur]` after the genes `gs` were assigned
to the group `cur`: the groups of `others` holding none of `gs` are untouched and in place,
the others were absorbed by `cur`, which also holds `gs`. -/
def Absorbed (others : List OrthologGroup) (cur : OrthologGroup) (gs : List Gene)
    (db2 : Database) : Prop :=
  ∃ cur2 : OrthologGroup,
    db2.ortholog_groups = others.filter (fun G => decide (∀ g ∈ gs, g ∉ G.genes)) ++ [cur2]
    ∧ cur2.handle = cur.handle
    ∧ (∀ x, x ∈ cur2.genes ↔
        x ∈ cur.genes ∨ x ∈ gs ∨ ∃ G ∈ others, (∃ g ∈ gs, g ∈ G.genes) ∧ x ∈ G.genes)
    ∧ (∀ i ∈ cur2.external_ids, i ∈ cur.external_ids ∨ ∃ G ∈ others, i ∈ G.external_ids)

/-- The effect of a line of the ortholog file on the partition: a line with fewer than three
fields is skipped. -/
def abs_line (get_gene_variant : String → Except Exception GeneVariant)
    (P : Multiset (Finset Gene)) (line : List String) : Multiset (Finset Gene) :=
  if line.length < 3 then P else absRow (line_genes get_gene_variant line.tail).toFinset P

/-- The effect of the lines of an ortholog file on the partition. -/
def abs_lines (get_gene_variant : String → Except Exception GeneVariant)
    (lines : List (List String)) (P : Multiset (Finset Gene)) : Multiset (Finset Gene) :=
  lines.foldl (abs_line get_gene_variant) P

/-- The lookup of `name` raises nothing that leaves `on_line`: it succeeds, or raises a
`NotFoundException` or the splice variant error. -/
def field_ok (get_gene_variant : String → Except Exception GeneVariant) (name : String) : Bool :=
  match get_gene_variant name with
  | .ok _ => true
  | .error (.not_found _) => true
  | .error (.typed type _) => decide (type = ErrorType.SPLICE_VARIANT_INSTEAD_OF_GENE)
  | .error _ => false

/-- No gene field of a line that is not skipped raises an error that leaves `on_line`. -/
def line_ok (get_gene_variant : String → Except Exception GeneVariant)
    (line : List String) : Prop :=
  3 ≤ line.length → ∀ name ∈ line.tail, field_ok get_gene_variant name = true

/-- Some group of the database holds the gene. -/
def Database.covers (db : Database) (x : Gene) : Prop :=
  ∃ G ∈ db.ortholog_groups, x ∈ G.genes

/-- The groups of the database after an import, `none` if the import failed. -/
def groups_after (r : Except Exception OrthologImport) : Option (List OrthologGroup) :=
  match r with
  | .ok st => some st.database.ortholog_groups
  | .error _ => none

/-- The back-reference of a gene after an import: `none` if the import failed, `some none` if the
gene has no group. -/
def gene_group_after (r : Except Exception OrthologImport) (g : Gene) :
    Option (Option GroupHandle) :=
  match r with
  | .ok st => some (st.database.gene_group g)
  | .error _ => none

/-! ## DataFileImport::add_gene_expression_matrix (DataFileImport.cpp, lines 133-217) -/

/-- A gene expression matrix file as the two `parse` calls see it. `TabGrammarRules` is not
part of the sources, so the file is given by what the grammar rules deliver: the fields of the
header line, and for every data line read by
`(rules.field[on_new_gene] > rules.separator > (double_[on_gene_value] % rules.separator)) % eol`
its leading field and its values; `header_eol` tells whether a line terminator follows the
header line, and `newlines` is `count(begin, end, '\n')`. Text behind the last data line that
the grammar does not match (such as a final line terminator) is not read and shows up in
`newlines` only. -/
structure MatrixFile where
  header : List String
  header_eol : Bool
  rows : List (String × List Double)
  newlines : Nat

/-- The `int line_count = count(begin, end, '\n') + 1`. -/
def MatrixFile.line_count (file : MatrixFile) : Nat := file.newlines + 1

/-- The `header_items.size()-1`, computed in `size_t` (64 bit). -/
def MatrixFile.columns (file : MatrixFile) : Nat := (file.header.length + 2 ^ 64 - 1) % 2 ^ 64

/-- The members of `GeneExpressionMatrix` the import writes. An element of `expression_matrix`
is `none` until a value is stored in it (`resize` does not initialise). The two maps are kept
as association lists in insertion order. -/
structure GeneExpressionMatrix where
  name : String
  gene_collection : Option Nat
  size1 : Nat
  size2 : Nat
  expression_matrix : Nat → Nat → Option Double
  gene_to_row : List (Gene × Nat)
  row_to_gene : List (Nat × Gene)

/-- The `gene_to_row.find(gene)`. -/
def GeneExpressionMatrix.get_gene_row (gem : GeneExpressionMatrix) (gene : Gene) : Option Nat :=
  (gem.gene_to_row.find? (fun p => decide (p.1 = gene))).map (fun p => p.2)

/-- The `row_to_gene.find(row)`. -/
def GeneExpressionMatrix.get_gene (gem : GeneExpressionMatrix) (row : Nat) : Option Gene :=
  (gem.row_to_gene.find? (fun p => decide (p.1 = row))).map (fun p => p.2)

/-- The variables captured by `on_new_gene` and `on_gene_value`: the matrix, the `int`s `i` and
`j` (which stay far below 2^31), `skip_line`, and `cerr`. -/
structure MatrixImport where
  gem : GeneExpressionMatrix
  i : Int
  j : Int
  skip_line : Bool
  cerr : List Warning

/-- The comparison `j == gem->expression_matrix.size2()-1`: the `int` is converted to
`size_t` and the subtraction wraps, both modulo 2^64. -/
def last_column (j : Int) (size2 : Nat) : Bool :=
  decide (j % 2 ^ 64 = ((size2 : Int) - 1) % 2 ^ 64)

/-- The lambda `on_new_gene` (lines 159-196). -/
def on_new_gene (try_get_gene_variant : String → Option GeneVariant)
    (st : MatrixImport) (name : String) : Except Exception MatrixImport :=
  match ensure (decide (st.i < 0) || last_column st.j st.gem.size2)
      (.column_count (st.i + 2) st.gem.size2 (st.j + 1)) with
  | .error e => .error e
  | .ok _ =>
    match try_get_gene_variant name with
    | none =>
      .ok { st with cerr := st.cerr ++ [Warning.unknown_collection name], skip_line := true }
    | some gene_variant =>
      let gene := gene_variant.get_gene
      let i := st.i + 1
      let gene_collection :=
        match st.gem.gene_collection with
        | none => some gene.collection
        | some c => some c
      match ensure (decide (gene_collection = some gene.collection))
          (.matrix_gene_collection name) with
      | .error e => .error e
      | .ok _ =>
        let created := !(st.gem.gene_to_row.any (fun p => decide (p.1 = gene)))
        match ensure created (.duplicate_gene name) with
        | .error e => .error e
        | .ok _ =>
          .ok { st with
                gem := { st.gem with
                  gene_collection := gene_collection
                  gene_to_row := st.gem.gene_to_row ++ [(gene, i.toNat)]
                  row_to_gene :=
                    st.gem.row_to_gene.filter (fun p => decide (p.1 ≠ i.toNat)) ++ [(i.toNat, gene)] }
                i := i
                j := -1
                skip_line := false }

/-- The lambda `on_gene_value` (lines 198-204). The element access is inside the matrix when
`0 ≤ i < size1` and `0 ≤ j < size2`. -/
def on_gene_value (st : MatrixImport) (value : Double) : Except Exception MatrixImport :=
  if st.skip_line then
    .ok st
  else
    let j := st.j + 1
    if 0 ≤ st.i ∧ st.i < st.gem.size1 ∧ 0 ≤ j ∧ j < st.gem.size2 then
      .ok { st with
            j := j
            gem := { st.gem with
              expression_matrix := fun r c =>
                if r = st.i.toNat ∧ c = j.toNat then some value
                else st.gem.expression_matrix r c } }
    else
      .error (.bad_index st.i j)

/-- The values of one data line: `double_[on_gene_value] % rules.separator`. -/
def matrix_values : List Double → MatrixImport → Except Exception MatrixImport
  | [], st => .ok st
  | value :: rest, st =>
    match on_gene_value st value with
    | .ok st2 => matrix_values rest st2
    | .error e => .error e

/-- One data line: `rules.field[on_new_gene] > rules.separator > (double_[on_gene_value] %
rules.separator)`. After the leading field the operator `>` expects at least one value. -/
def matrix_row (try_get_gene_variant : String → Option GeneVariant)
    (st : MatrixImport) (row : String × List Double) : Except Exception MatrixImport :=
  match on_new_gene try_get_gene_variant st row.1 with
  | .error e => .error e
  | .ok st2 =>
    match row.2 with
    | [] => .error .expectation_failure
    | values => matrix_values values st2

/-- The data lines in file order: `(...) % eol`. -/
def matrix_rows (try_get_gene_variant : String → Option GeneVariant) :
    List (String × List Double) → MatrixImport → Except Exception MatrixImport
  | [], st => .ok st
  | row :: rest, st =>
    match matrix_row try_get_gene_variant st row with
    | .ok st2 => matrix_rows try_get_gene_variant rest st2
    | .error e => .error e

/-- The lambda passed to `read_file` (lines 138-214): the matrix is sized from the line count and
the header, filled line by line, and the last line is checked. The header is read by
`rules.line > eol`, which throws when no line terminator follows it. -/
def read_gene_expression_matrix (try_get_gene_variant : String → Option GeneVariant)
    (name : String) (file : MatrixFile) : Except Exception MatrixImport :=
  if file.header_eol = false then
    .error .expectation_failure
  else
    let gem : GeneExpressionMatrix :=
      { name := name
        gene_collection := none
        size1 := file.line_count - 1
        size2 := file.columns
        expression_matrix := fun _ _ => none
        gene_to_row := []
        row_to_gene := [] }
    match matrix_rows try_get_gene_variant file.rows ⟨gem, -1, -1, false, []⟩ with
    | .error e => .error e
    | .ok st =>
      match ensure (last_column st.j st.gem.size2)
          (.incomplete_line (st.j + 1) st.gem.size2) with
      | .error e => .error e
      | .ok _ => .ok st

/-- The `DataFileImport::add_gene_expression_matrix`: the matrix read from the file is handed
to its gene collection by `gem->get_gene_collection().add_gene_expression_matrix(move(gem))`,
here appended to the list `matrices` of registered matrices. An exception leaves the
registered matrices as they were. -/
def add_gene_expression_matrix (try_get_gene_variant : String → Option GeneVariant)
    (name : String) (file : MatrixFile) (matrices : List GeneExpressionMatrix) :
    Except Exception (List GeneExpressionMatrix) :=
  match read_gene_expression_matrix try_get_gene_variant name file with
  | .error e => .error e
  | .ok st =>
    match st.gem.gene_collection with
    | none => .error .null_gene_collection
    | some _ => .ok (matrices ++ [st.gem])

/-- The data lines whose leading name resolves, each with the gene it resolves to. -/
def resolved_rows (try_get_gene_variant : String → Option GeneVariant)
    (rows : List (String × List Double)) : List (Gene × List Double) :=
  rows.filterMap (fun row => (try_get_gene_variant row.1).map (fun v => (v.get_gene, row.2)))

/-- The data lines `rows` are well shaped for `cols` columns: every line has a value, a line
whose name resolves has exactly `cols` values, the lines resolve to pairwise different genes,
and these genes are of one gene collection. -/
structure WellShaped (try_get_gene_variant : String → Option GeneVariant) (cols : Nat)
    (rows : List (String × List Double)) : Prop where
  values : ∀ row ∈ rows, row.2 ≠ []
  width : ∀ row ∈ resolved_rows try_get_gene_variant rows, row.2.length = cols
  distinct : ((resolved_rows try_get_gene_variant rows).map Prod.fst).Nodup
  collection : ∀ a ∈ resolved_rows try_get_gene_variant rows,
    ∀ b ∈ resolved_rows try_get_gene_variant rows, a.1.collection = b.1.collection

/-- The state of the import after the data lines `pre` have been read without error: row `k` of
the matrix belongs to the `k`-th line whose name resolved and holds its values, and `j` is the
column of the last value stored for the last such line. -/
structure Reached (try_get_gene_variant : String → Option GeneVariant) (size1 cols : Nat)
    (pre : List (String × List Double)) (st : MatrixImport) : Prop where
  size1_eq : st.gem.size1 = size1
  size2_eq : st.gem.size2 = cols
  i_eq : st.i = ((resolved_rows try_get_gene_variant pre).length : Int) - 1
  j_eq : st.j = (((resolved_rows try_get_gene_variant pre).getLast?.map
    (fun row => (row.2.length : Int))).getD 0) - 1
  width_le : ∀ row ∈ resolved_rows try_get_gene_variant pre, row.2.length ≤ cols
  keys : st.gem.gene_to_row.map Prod.fst = (resolved_rows try_get_gene_variant pre).map Prod.fst
  row_keys : ∀ p ∈ st.gem.row_to_gene, p.1 < (resolved_rows try_get_gene_variant pre).length
  get_gene : ∀ k, st.gem.get_gene k
    = ((resolved_rows try_get_gene_variant pre)[k]?).map Prod.fst
  gene_collection : st.gem.gene_collection
    = (resolved_rows try_get_gene_variant pre).head?.map (fun row => row.1.collection)
  cells : ∀ r c, st.gem.expression_matrix r c
    = ((resolved_rows try_get_gene_variant pre)[r]?).bind (fun row => row.2[c]?)

/-- The error of a failed computation. -/
def error_of {α : Type} (r : Except Exception α) : Option Exception :=
  match r with
  | .ok _ => none
  | .error e => some e

/-- The line number a message names, if it names one. -/
def Message.line : Message → Option Int
  | .column_count line _ _ => some line
  | _ => none

/-- A repository that knows the genes geneA, geneB and geneC of one collection and the splice
variant geneA.1 of geneA. -/
def abcGenes (name : String) : Option GeneVariant :=
  if name = "geneA" ∨ name = "geneB" ∨ name = "geneC" then some (.gene ⟨0, name⟩)
  else if name = "geneA.1" then some (.splice_variant ⟨0, "geneA"⟩ name)
  else none

/-- The matrices registered after a call of `add_gene_expression_matrix` on the registered
matrices `matrices`: an exception registers nothing. -/
def registered_after (matrices : List GeneExpressionMatrix)
    (r : Except Exception (List GeneExpressionMatrix)) : List GeneExpressionMatrix :=
  match r with
  | .ok ms => ms
  | .error _ => matrices

/-- The state in which the data lines of `file` are read. -/
def matrix_start (name : String) (file : MatrixFile) : MatrixImport :=
  ⟨{ name := name, gene_collection := none, size1 := file.line_count - 1, size2 := file.columns,
     expression_matrix := fun _ _ => none, gene_to_row := [], row_to_gene := [] },
    -1, -1, false, []⟩

/-- What is seen of a registered matrix: its number of rows, its number of columns, the number
of entries of `gene_to_row`, and the genes of its first `size1` rows. -/
def GeneExpressionMatrix.shape (gem : GeneExpressionMatrix) :
    Nat × Nat × Nat × List (Option Gene) :=
  (gem.size1, gem.size2, gem.gene_to_row.length, (List.range gem.size1).map gem.get_gene)

/-- A well shaped two column file with two data lines that ends with a line terminator. -/
def trailingNewlineFile : MatrixFile :=
  ⟨["id", "s1", "s2"], true, [("geneA", [some 1, some 2]), ("geneB", [some 3, some 4])], 3⟩

/-- A well shaped two column file whose first data line has an unknown name; no line terminator
at the end. -/
def skippedRowFile : MatrixFile :=
  ⟨["id", "s1", "s2"], true,
    [("unknown", [some 9, some 9]), ("geneA", [some 1, some 2]), ("geneB", [some 3, some 4])],
    3⟩

/-- A two column file whose second data line names a splice variant of the gene of the first. -/
def duplicateFile : MatrixFile :=
  ⟨["id", "s1", "s2"], true, [("geneA", [some 1, some 2]), ("geneA.1", [some 3, some 4])], 2⟩

/-- A two column file whose only data line carries three values. -/
def wideRowFile : MatrixFile :=
  ⟨["id", "s1", "s2"], true, [("geneA", [some 1, some 2, some 3])], 1⟩

/-- A two column file whose first data line has one value and whose second data line names a
splice variant of the gene of the first. -/
def shortThenDuplicateFile : MatrixFile :=
  ⟨["id", "s1", "s2"], true, [("geneA", [some 1]), ("geneA.1", [some 3, some 4])], 2⟩

/-- Modelled from the spec: the `Cluster` of deep_blue_genome is declared in a header that is
not part of the sources; per section 3 it is a named set of Gene members with no
duplicates. -/
structure Cluster where
  name : String
  genes : List Gene
deriving DecidableEq, Repr

/-- Modelled from the spec: `Cluster::add` (not in the sources) inserts a gene into the set
of members; a cluster has no duplicates (section 3). -/
def Cluster.add (cluster : Cluster) (gene : Gene) : Cluster :=
  if gene ∈ cluster.genes then cluster else { cluster with genes := cluster.genes ++ [gene] }

/-- The members of `Clustering` the import writes; the expression matrix is referred to by the
value `get_gene_expression_matrix` returned for it. -/
structure Clustering where
  name : String
  gene_collection : Option Nat
  expression_matrix : Option String
  clusters : List Cluster
deriving DecidableEq, Repr

/-- The variables captured by `on_cluster_item`: `clustering->gene_collection`, the map
`clusters` from cluster name to cluster (kept in insertion order), and `cerr`. -/
structure ClusteringImport where
  gene_collection : Option Nat
  clusters : List Cluster
  cerr : List Warning

/-- The lines 258-263: the cluster named `cluster_name` is looked up, created if it is not
there, and the gene is added to it. The list keeps the clusters in the order in which their
names first occur; the order of the `std::unordered_map` of the program is the one of the hash
table and is not modelled. -/
def add_to_cluster (clusters : List Cluster) (cluster_name : String) (gene : Gene) :
    List Cluster :=
  if clusters.any (fun cluster => decide (cluster.name = cluster_name)) then
    clusters.map (fun cluster =>
      if cluster.name = cluster_name then cluster.add gene else cluster)
  else
    clusters ++ [Cluster.add ⟨cluster_name, []⟩ gene]

/-- The lambda `on_cluster_item` (lines 236-264); `line.at(i)` throws `std::out_of_range`. -/
def on_cluster_item (try_get_gene_variant : String → Option GeneVariant)
    (st : ClusteringImport) (line : List String) : Except Exception ClusteringImport :=
  match line.get? 0 with
  | none => .error .out_of_range
  | some name =>
    match try_get_gene_variant name with
    | none => .ok { st with cerr := st.cerr ++ [Warning.unknown_collection name] }
    | some gene_variant =>
      let checked : Except Exception (Option Nat) :=
        match st.gene_collection with
        | none => .ok (some gene_variant.get_gene_collection)
        | some c =>
          match ensure (decide (c = gene_variant.get_gene_collection))
              (.clustering_gene_collection name) with
          | .error e => .error e
          | .ok _ => .ok (some c)
      match checked with
      | .error e => .error e
      | .ok gene_collection =>
        let gene := gene_variant.get_gene
        match line.get? 1 with
        | none => .error .out_of_range
        | some cluster_name =>
          .ok { st with
                gene_collection := gene_collection
                clusters := add_to_cluster st.clusters cluster_name gene }

/-- The `parse(begin, end, rules.line[on_cluster_item] % eol)`. -/
def cluster_items (try_get_gene_variant : String → Option GeneVariant) :
    List (List String) → ClusteringImport → Except Exception ClusteringImport
  | [], st => .ok st
  | line :: rest, st =>
    match on_cluster_item try_get_gene_variant st line with
    | .ok st2 => cluster_items try_get_gene_variant rest st2
    | .error e => .error e

/-- The comparison `genes_lt` (lines 280-282): by name; the operator `<` of `std::string`
compares the character sequences lexicographically. -/
def genes_lt (a b : Gene) : Bool := decide (a.name.toList < b.name.toList)

/-- The comparison `genes_eq` (lines 284-286): by name. -/
def genes_eq (a b : Gene) : Bool := decide (a.name = b.name)

/-- The `sort(all_genes.begin(), all_genes.end(), genes_lt)`: the genes in ascending order of
their names. Genes with the same name are, within one gene collection, the same gene, so the
order `std::sort` gives to equivalent elements does not show. -/
def sort_genes (all_genes : List Gene) : List Gene :=
  all_genes.insertionSort (fun a b => genes_lt b a = false)

/-- The elements `std::unique` keeps behind the element `last` it kept before: an element is
dropped when the predicate holds for the last kept element and it. -/
def unique_keep {α : Type} (eq : α → α → Bool) (last : α) : List α → List α
  | [] => []
  | x :: rest => if eq last x then unique_keep eq last rest else x :: unique_keep eq x rest

/-- The `std::unique(first, last, eq)` of the C++ standard library, as libstdc++ and libc++
implement it: the kept elements are moved to the front, the returned iterator `unique_end`
points behind them, and the elements from `unique_end` on are never assigned (moving a pointer
copies it), so they still hold what the range held there before the call. The result is the
range after the call and the index of `unique_end`. -/
def std_unique {α : Type} (eq : α → α → Bool) (range : List α) : List α × Nat :=
  match range with
  | [] => ([], 0)
  | x :: rest =>
    let kept := x :: unique_keep eq x rest
    (kept ++ range.drop kept.length, kept.length)

/-- The block "Check contents for uniqueness" (lines 278-306). -/
def check_uniqueness (clusters : List Cluster) : Except Exception Unit :=
  let all_genes := clusters.flatMap (fun cluster => cluster.genes)
  let sorted := sort_genes all_genes
  let unique := std_unique genes_eq sorted
  if sorted.length ≠ unique.2 then
    let gene_names := (unique.1.drop unique.2).map (fun gene => gene.name)
    .error (.typed .GENERIC (.clustering_duplicates gene_names))
  else
    .ok ()

/-- The `DataFileImport::add_clustering`. The file is given as the sequence of its lines;
`get_gene_expression_matrix` stands for `GeneCollection::get_gene_expression_matrix`, which is
not part of the sources, and `clusterings` for the clusterings registered so far, to which
`add_clustering` of the gene collection appends. -/
def add_clustering (try_get_gene_variant : String → Option GeneVariant)
    (get_gene_expression_matrix : Nat → String → Except Exception String)
    (name : String) (file : List (List String)) (expression_matrix_name : String)
    (clusterings : List Clustering) : Except Exception (List Clustering) :=
  match cluster_items try_get_gene_variant file ⟨none, [], []⟩ with
  | .error e => .error e
  | .ok st =>
    match check_uniqueness st.clusters with
    | .error e => .error e
    | .ok _ =>
      let linked : Except Exception (Option String) :=
        if expression_matrix_name ≠ "" then
          match st.gene_collection with
          | none => .error .null_gene_collection
          | some c =>
            match get_gene_expression_matrix c expression_matrix_name with
            | .error e => .error e
            | .ok m => .ok (some m)
        else
          .ok none
      match linked with
      | .error e => .error e
      | .ok expression_matrix =>
        match st.gene_collection with
        | none => .error .null_gene_collection
        | some c => .ok (clusterings ++ [⟨name, some c, expression_matrix, st.clusters⟩])

/-- A clustering file in which geneA is in the clusters c1 and c2 and geneB in c1 only. -/
def geneA_twice : List (List String) :=
  [["geneA", "c1"], ["geneA", "c2"], ["geneB", "c1"]]

/-- A clustering file in which each gene is in one cluster. -/
def one_cluster_each : List (List String) :=
  [["geneA", "c1"], ["geneB", "c2"], ["geneC", "c1"], ["geneA", "c1"]]

/-- No expression matrix is registered. -/
def no_matrix (_ : Nat) (name : String) : Except Exception String := .error (.not_found name)

/-- The assignments of a clustering file: for every line with at least two fields whose first
field resolves, the gene it resolves to and the cluster name. -/
def assignments (try_get_gene_variant : String → Option GeneVariant)
    (file : List (List String)) : List (Gene × String) :=
  file.filterMap (fun line =>
    match line with
    | name :: cluster_name :: _ =>
      (try_get_gene_variant name).map (fun v => (v.get_gene, cluster_name))
    | _ => none)

/-- The clusters after the assignments `asg` were added to `clusters` one after the other. -/
def load_clusters (asg : List (Gene × String)) (clusters : List Cluster) : List Cluster :=
  asg.foldl (fun cl p => add_to_cluster cl p.2 p.1) clusters

/-- The clusters hold the assignments `asg`: their names are pairwise different, none holds a
gene twice, and a gene is in the cluster of a name exactly when it is assigned to it. -/
structure ClustersOf (asg : List (Gene × String)) (clusters : List Cluster) : Prop where
  names : (clusters.map (fun cl => cl.name)).Nodup
  genes : ∀ cl ∈ clusters, cl.genes.Nodup
  members : ∀ g cn, (∃ cl ∈ clusters, cl.name = cn ∧ g ∈ cl.genes) ↔ (g, cn) ∈ asg

/-- The clusterings registered after a call of `add_clustering` on the registered clusterings
`clusterings`: an exception registers nothing. -/
def clusterings_after (clusterings : List Clustering)
    (r : Except Exception (List Clustering)) : List Clustering :=
  match r with
  | .ok cs => cs
  | .error _ => clusterings

/-! ## coexpr: the rest of `main` and `load_baits` (main.cpp, lines 102-120 and 156-199) -/

/-- The loop `for (auto expression_matrix : expression_matrices)` (lines 158-196): the neighbour
loop of each matrix in turn, on the same two containers. -/
def neighbour_matrices (inps : List CorrelationInput) (groups_get : Gene → List GroupRef)
    (negative_treshold positive_treshold : Double) (st : NeighbourState) : NeighbourState :=
  inps.foldl (fun s inp => neighbour_loop inp groups_get negative_treshold positive_treshold s) st

/-- The `sort(neighbours.begin(), neighbours.end())` (line 198): pointers in address order. -/
def sort_neighbours (neighbours : List GroupRef) : List GroupRef :=
  neighbours.insertionSort (fun a b => a ≤ b)

/-- Lines 198-199: `sort`, then `neighbours.erase(unique(...), neighbours.end())`, which keeps
the part of the vector before the iterator `unique` returns. -/
def unique_neighbours (neighbours : List GroupRef) : List GroupRef :=
  let sorted := sort_neighbours neighbours
  let unique := std_unique (fun a b => decide (a = b)) sorted
  unique.1.take unique.2

/-- Lines 156-199 of `main`: the tuples recorded against the groups and the vector `neighbours`
handed to the `CytoscapeWriter`. -/
def coexpr_neighbours (inps : List CorrelationInput) (groups_get : Gene → List GroupRef)
    (negative_treshold positive_treshold : Double) : NeighbourState :=
  let st := neighbour_matrices inps groups_get negative_treshold positive_treshold ⟨[], []⟩
  { st with neighbours := unique_neighbours st.neighbours }

/-- The loop of `load_baits` over `baits_.get_genes()` (lines 110-113): each name is looked up
with `database.get_gene`, whose exception ends the function. -/
def lookup_baits (get_gene : String → Except Exception Gene) :
    List String → List Gene → Except Exception (List Gene)
  | [], baits => .ok baits
  | gene_name :: rest, baits =>
    match get_gene gene_name with
    | .error e => .error e
    | .ok gene => lookup_baits get_gene rest (baits ++ [gene])

/-- The `load_baits` of main.cpp (lines 105-120). `gene_names` is what `baits_.get_genes()`
yields for the bait file and `address` is where each `Gene` object lives (the vector holds
`Gene*`, sorted and compared as pointers). The iterator returned by `unique` is dropped and
nothing is erased: the whole vector is returned. -/
def load_baits (get_gene : String → Except Exception Gene) (address : Gene → Nat)
    (gene_names : List String) : Except Exception (List Gene) :=
  match lookup_baits get_gene gene_names [] with
  | .error e => .error e
  | .ok baits =>
    let sorted := baits.insertionSort (fun a b => address a ≤ address b)
    let unique := std_unique (fun a b => decide (address a = address b)) sorted
    .ok unique.1

/-- Genes of the worked example of the neighbour search: `A` is the bait. -/
def exampleGene (row : Nat) : Gene :=
  ⟨0, match row with
      | 0 => "A"
      | 1 => "B"
      | 2 => "C"
      | _ => "D"⟩

/-- One matrix with the rows `A, B, C, D`; the only bait row is row 0 and the correlations
with it are 0.9 for `B`, 0.9 for `C` and 0.1 for `D`. -/
def exampleInput : CorrelationInput :=
  ⟨[0], 4,
    fun row _ =>
      match row with
      | 0 => some 1
      | 1 => some (9 / 10)
      | 2 => some (9 / 10)
      | _ => some (1 / 10),
    fun _ => 0, exampleGene⟩

/-- The ortholog groups of the worked example: group 0 is `{A}`, group 1 is `{B, C}` and
group 2 is `{D}`. -/
def exampleGroups (gene : Gene) : List GroupRef :=
  if gene = exampleGene 0 then [0]
  else if gene = exampleGene 1 ∨ gene = exampleGene 2 then [1]
  else [2]

/-- A database lookup that knows the genes `A` to `D` of the worked example by name. -/
def example_get_gene (name : String) : Except Exception Gene :=
  if name = "A" ∨ name = "B" ∨ name = "C" ∨ name = "D" then .ok ⟨0, name⟩
  else .error (.not_found name)

/-- Where the four genes of the worked example are stored. -/
def example_address (gene : Gene) : Nat :=
  if gene.name = "A" then 0 else if gene.name = "B" then 1 else if gene.name = "C" then 2 else 3

/-! ## Observations on a run of the ortholog import -/

/-- The counter `unknown_genes` when the parse returns, `none` if an exception ended it. -/
def unknown_genes_after (r : Except Exception OrthologImport) : Option Nat :=
  match r with
  | .ok st => some st.unknown_genes
  | .error _ => none

/-- What was written to `cerr` when the parse returns, `none` if an exception ended it. -/
def cerr_after (r : Except Exception OrthologImport) : Option (List Warning) :=
  match r with
  | .ok st => some st.cerr
  | .error _ => none

/-- Two runs end alike: both raise the same exception, or both return with the same database,
the counter of the second being `f` of the counter of the first and the two `cerr` outputs
being related by `C`. -/
def Agree (f : Nat → Nat) (C : List Warning → List Warning → Prop)
    (r r2 : Except Exception OrthologImport) : Prop :=
  match r, r2 with
  | .ok s, .ok s2 =>
    s2.database = s.database ∧ s2.unknown_genes = f s.unknown_genes ∧ C s.cerr s2.cerr
  | .error e, .error e2 => e2 = e
  | _, _ => False

/-- A repository in which `geneX.1` names a splice variant of geneX and the lookup of `broken`
raises a generic error. -/
def xyzVariants (name : String) : Except Exception GeneVariant :=
  if name = "geneX" ∨ name = "geneY" ∨ name = "geneZ" then .ok (.gene ⟨0, name⟩)
  else if name = "geneX.1" then .ok (.splice_variant ⟨0, "geneX"⟩ "geneX.1")
  else if name = "broken" then .error (.typed .GENERIC (.other "broken"))
  else .error (.not_found name)

/-! ## coexpr: `read_yaml` (main.cpp, lines 51-100) -/

/-- The `fabs` of a double; NaN stays NaN. -/
def fabs (x : Double) : Double := x.map (fun q => |q|)

/-- The operator `<=` on doubles: false as soon as one operand is NaN. -/
def Double.le (a b : Double) : Bool :=
  match a, b with
  | some x, some y => decide (x ≤ y)
  | _, _ => false

/-- The value of the double expression `1.0+1e-7`: the sum of the doubles nearest to 1 and to
1e-7, rounded to the nearest double, which is `0x1.000001ad7f29bp+0`. -/
def treshold_bound : Rat := 4503600077730459 / 4503599627370496

/-- What `read_yaml` reads of the job file: the values of the nodes `baits`,
`negative_treshold` and `positive_treshold`, for every entry of `expression_matrices` its path
and the matrix file found there, and the size of the node `orthologs`. -/
structure Job where
  baits : String
  negative_treshold : Double
  positive_treshold : Double
  expression_matrices : List (String × MatrixFile)
  orthologs_size : Nat

/-- The two `ensure` calls on the thresholds (lines 55-59). -/
def check_tresholds (job : Job) : Except Exception Unit :=
  match ensure (Double.le (fabs job.negative_treshold) (some treshold_bound))
      (.other "negative_treshold must be a double between -1 and 1") with
  | .error e => .error e
  | .ok _ =>
    ensure (Double.le (fabs job.positive_treshold) (some treshold_bound))
      (.other "positive_treshold must be a double between -1 and 1")

/-- The loop over the node `expression_matrices` (lines 63-69). `registered` are the matrices
the database holds, `expression_matrices` the vector of the matrices this call added: the
reference returned by `add_gene_expression_matrix` is the matrix it registered. -/
def read_yaml_matrices (try_get_gene_variant : String → Option GeneVariant) :
    List (String × MatrixFile) → List GeneExpressionMatrix → List GeneExpressionMatrix →
      Except Exception (List GeneExpressionMatrix × List GeneExpressionMatrix)
  | [], registered, expression_matrices => .ok (registered, expression_matrices)
  | (matrix_path, file) :: rest, registered, expression_matrices =>
    let matrix_name := matrix_path
    match add_gene_expression_matrix try_get_gene_variant matrix_name file registered with
    | .error e => .error e
    | .ok registered2 =>
      read_yaml_matrices try_get_gene_variant rest registered2
        (expression_matrices ++ registered2.drop registered.length)

/-- Lines 71-78: when the node `orthologs` is not empty the families are erased and read
again. `read_orthologs_yaml` is declared in a header that is not part of the sources and is a
parameter here. -/
def read_yaml_orthologs (read_orthologs_yaml : Database → Except Exception Database)
    (job : Job) (db : Database) : Except Exception Database :=
  if job.orthologs_size > 0 then
    read_orthologs_yaml db.erase_families
  else
    .ok db

/-- Modelled from the spec: `GeneExpressionMatrix::get_genes` is declared in a header that is
not part of the sources; per section 3 the rows of a matrix are keyed by Gene, so the genes of
a matrix are the keys of `gene_to_row`. -/
def GeneExpressionMatrix.get_genes (gem : GeneExpressionMatrix) : List Gene :=
  gem.gene_to_row.map (fun p => p.1)

/-- The inner loop of lines 83-87: every gene of one matrix is put in the set `genes`; a gene
that is in the set already fails the `ensure`. The set is kept in insertion order. -/
def emplace_genes : List Gene → List Gene → Except Exception (List Gene)
  | [], genes => .ok genes
  | gene :: rest, genes =>
    match ensure (decide (gene ∉ genes))
        (.other ("Gene " ++ gene.name ++ " present in multiple matrices")) with
    | .error e => .error e
    | .ok _ => emplace_genes rest (genes ++ [gene])

/-- The outer loop of lines 82-88 over `expression_matrices`. -/
def all_genes : List GeneExpressionMatrix → List Gene → Except Exception (List Gene)
  | [], genes => .ok genes
  | matrix :: rest, genes =>
    match emplace_genes matrix.get_genes genes with
    | .error e => .error e
    | .ok genes2 => all_genes rest genes2

/-- The loop of lines 91-96 over the set `genes`: a gene without ortholog group gets a new
group of its own. `family_id` is the constructor `GeneFamilyId(source, id)`, declared in a
header that is not part of the sources; the `size_t` counter `singleton_id` is streamed in
decimal. The list walks the genes in the order in which they were put in; the order in which
the program walks its `std::unordered_set` is the one of the hash table and is not modelled, so
which gene gets which counter value is not told by this definition. -/
def singleton_groups (family_id : String → String → GeneFamilyId) :
    List Gene → Database → Nat → Except Exception (Database × Nat)
  | [], db, singleton_id => .ok (db, singleton_id)
  | gene :: rest, db, singleton_id =>
    if db.gene_group gene = none then
      match db.add_ortholog_group (family_id "singleton" (toString singleton_id)) with
      | .error e => .error e
      | .ok (db2, group) =>
        singleton_groups family_id rest (db2.add group gene) (singleton_id + 1)
    else
      singleton_groups family_id rest db singleton_id

/-- What `read_yaml` leaves behind: the database with its registered matrices, and the values
of its reference parameters. -/
structure JobInput where
  database : Database
  matrices : List GeneExpressionMatrix
  baits_path : String
  negative_treshold : Double
  positive_treshold : Double
  expression_matrices : List GeneExpressionMatrix

/-- Lines 61-78 of `read_yaml`: the matrices and the ortholog families are read. -/
def read_yaml_imports (try_get_gene_variant : String → Option GeneVariant)
    (read_orthologs_yaml : Database → Except Exception Database)
    (job : Job) (db : Database) (registered : List GeneExpressionMatrix) :
    Except Exception (Database × List GeneExpressionMatrix × List GeneExpressionMatrix) :=
  match read_yaml_matrices try_get_gene_variant job.expression_matrices registered [] with
  | .error e => .error e
  | .ok (registered2, expression_matrices) =>
    match read_yaml_orthologs read_orthologs_yaml job db with
    | .error e => .error e
    | .ok db2 => .ok (db2, registered2, expression_matrices)

/-- Lines 80-96 of `read_yaml`: the set of all genes of the matrices is built and every gene
without group gets a singleton group. -/
def read_yaml_singletons (family_id : String → String → GeneFamilyId)
    (expression_matrices : List GeneExpressionMatrix) (db : Database) :
    Except Exception Database :=
  match all_genes expression_matrices [] with
  | .error e => .error e
  | .ok genes =>
    match singleton_groups family_id genes db 0 with
    | .error e => .error e
    | .ok (db2, _) => .ok db2

/-- Lines 61-99 of `read_yaml`: what follows the two threshold tests. -/
def read_yaml_data (try_get_gene_variant : String → Option GeneVariant)
    (read_orthologs_yaml : Database → Except Exception Database)
    (family_id : String → String → GeneFamilyId)
    (job : Job) (db : Database) (registered : List GeneExpressionMatrix) :
    Except Exception JobInput :=
  match read_yaml_imports try_get_gene_variant read_orthologs_yaml job db registered with
  | .error e => .error e
  | .ok (db2, registered2, expression_matrices) =>
    match read_yaml_singletons family_id expression_matrices db2 with
    | .error e => .error e
    | .ok db3 =>
      .ok ⟨db3, registered2, job.baits, job.negative_treshold, job.positive_treshold,
        expression_matrices⟩

/-- The `read_yaml` of main.cpp, on the parsed job file. -/
def read_yaml (try_get_gene_variant : String → Option GeneVariant)
    (read_orthologs_yaml : Database → Except Exception Database)
    (family_id : String → String → GeneFamilyId)
    (job : Job) (db : Database) (registered : List GeneExpressionMatrix) :
    Except Exception JobInput :=
  match check_tresholds job with
  | .error e => .error e
  | .ok _ =>
    read_yaml_data try_get_gene_variant read_orthologs_yaml family_id job db registered

/-- The singleton groups the loop of lines 91-96 creates for the genes `genes`, none of which
has a group, when the next fresh group identity is `handle` and the counter stands at
`singleton_id`. -/
def singletons_of (family_id : String → String → GeneFamilyId) :
    List Gene → GroupHandle → Nat → List OrthologGroup
  | [], _, _ => []
  | gene :: rest, handle, singleton_id =>
    ⟨handle, [family_id "singleton" (toString singleton_id)], [gene]⟩
      :: singletons_of family_id rest (handle + 1) (singleton_id + 1)

/-- A job without matrices and without ortholog files. -/
def exampleJob (negative_treshold positive_treshold : Double) : Job :=
  ⟨"baits.txt", negative_treshold, positive_treshold, [], 0⟩

/-- A well shaped two column matrix file with the rows geneA and geneB. -/
def twoGeneFile : MatrixFile :=
  ⟨["id", "s1", "s2"], true, [("geneA", [some 1, some 2]), ("geneB", [some 3, some 4])], 2⟩

/-- A job with one expression matrix and no ortholog files. -/
def oneMatrixJob : Job :=
  ⟨"baits.txt", some (-1), some 1, [("matrix.txt", twoGeneFile)], 0⟩

/-- A repository whose only ortholog group `G1` holds geneA. -/
def geneADatabase : Database :=
  ⟨[⟨0, ["G1"], [⟨0, "geneA"⟩]⟩], 1, fun g => if g = ⟨0, "geneA"⟩ then some 0 else none⟩

/-- The `GeneFamilyId(source, id)` written as one string. -/
def example_family_id (source id : String) : GeneFamilyId := source ++ ":" ++ id

/-- A job that names the same matrix file twice. -/
def twoMatrixJob : Job :=
  ⟨"baits.txt", some (-1), some 1, [("a.txt", twoGeneFile), ("b.txt", twoGeneFile)], 0⟩

/-! ## DataFileImport::add_functional_annotations (DataFileImport.cpp, lines 47-70) -/

/-- The `std::isspace` of the classic locale, which `boost::algorithm::trim` tests with:
space, and the characters 9 to 13 (tab, line feed, vertical tab, form feed, carriage
return). -/
def is_space (c : Char) : Bool :=
  decide (c.toNat = 32) || (decide (9 ≤ c.toNat) && decide (c.toNat ≤ 13))

/-- The `boost::algorithm::trim`: the white space at both ends of the text is removed. -/
def trim (text : String) : String :=
  String.mk ((text.toList.dropWhile is_space).reverse.dropWhile is_space).reverse

/-- Modelled from the spec: the member `set_functional_annotation` of `GeneVariant` is declared
in a header that is not part of the sources; per section 6 a record of the functional
annotation file gives the description of the named gene, which this call stores with the
variant. The annotations of all variants are kept as one map. -/
def set_functional_annotation (annotations : GeneVariant → String) (gene_variant : GeneVariant)
    (description : String) : GeneVariant → String :=
  fun v => if v = gene_variant then description else annotations v

/-- The lambda `on_line` of `add_functional_annotations` (lines 52-64). -/
def on_annotation_line (get_gene_variant : String → Except Exception GeneVariant)
    (annotations : GeneVariant → String) (line : List String) :
    Except Exception (GeneVariant → String) :=
  match ensure (line.length == 2)
      (.other ("Expected line with 2 columns, but got " ++ toString line.length ++ " columns")) with
  | .error e => .error e
  | .ok _ =>
    match line.get? 0 with
    | none => .error .out_of_range
    | some name =>
      match get_gene_variant name with
      | .error e => .error e
      | .ok gene_variant =>
        match line.get? 1 with
        | none => .error .out_of_range
        | some field =>
          let description := trim field
          if description ≠ "" then
            .ok ( set_functional_annotation annotations gene_variant description)
          else
            .ok annotations

/-- The `DataFileImport::add_functional_annotations`: `on_line` is called on every line of the
file in order; an exception leaving it ends the call. -/
def add_functional_annotations (get_gene_variant : String → Except Exception GeneVariant) :
    List (List String) → (GeneVariant → String) → Except Exception (GeneVariant → String)
  | [], annotations => .ok annotations
  | line :: rest, annotations =>
    match on_annotation_line get_gene_variant annotations line with
    | .error e => .error e
    | .ok annotations2 => add_functional_annotations get_gene_variant rest annotations2

/-- The description a record gives to the variant `gene_variant`: the trimmed second field of a
record of two fields whose name resolves to that variant, if it is not empty. -/
def record_description (get_gene_variant : String → Except Exception GeneVariant)
    (line : List String) (gene_variant : GeneVariant) : Option String :=
  match line with
  | [name, field] =>
    match get_gene_variant name with
    | .ok named => if named = gene_variant ∧ trim field ≠ "" then some (trim field) else none
    | .error _ => none
  | _ => none

/-- The description that the last record of the file with a description for `gene_variant`
gives to it. -/
def last_description (get_gene_variant : String → Except Exception GeneVariant) :
    List (List String) → GeneVariant → Option String
  | [], _ => none
  | line :: rest, gene_variant =>
    match last_description get_gene_variant rest gene_variant with
    | some description => some description
    | none => record_description get_gene_variant line gene_variant

/-- An annotation file with two records for geneX and a blank description for geneY. -/
def exampleAnnotations : List (List String) :=
  [["geneX", "  kinase "], ["geneY", " "], ["geneX", "ligase"]]

/-! ## Serialization of vectors (util/serialization/vector.h) -/

/-- What `ar << x` appends to an archive: the vector code writes a `count` and items; how an
item of type `T` is laid out is the business of the serialization of `T`. -/
inductive ArchiveEntry (T : Type)
  | count (n : Nat)
  | item (x : T)
deriving DecidableEq, Repr

/-- The loop of `save` over the items (lines 39-40). -/
def save_items {T : Type} : List T → List (ArchiveEntry T) → List (ArchiveEntry T)
  | [], ar => ar
  | x :: rest, ar => save_items rest (ar ++ [ArchiveEntry.item x])

/-- The `save` of vector.h (lines 31-41): the archive after the vector `t` is written to `ar`. -/
def save {T : Type} (ar : List (ArchiveEntry T)) (t : List T) : List (ArchiveEntry T) :=
  let count := t.length
  save_items t (ar ++ [ArchiveEntry.count count])

/-- The loop `while (count-- > 0)` of `load` (lines 53-57): `ar` is what is left to read. The
read of an item fails when the archive holds something else. -/
def load_items {T : Type} : Nat → List (ArchiveEntry T) → List T →
    Option (List (ArchiveEntry T) × List T)
  | 0, ar, t => some (ar, t)
  | count + 1, ar, t =>
    match ar with
    | ArchiveEntry.item x :: rest => load_items count rest (t ++ [x])
    | _ => none

/-- The `load` of vector.h (lines 43-58) into the vector `t`: what is left of the archive, and
the vector. -/
def load {T : Type} (ar : List (ArchiveEntry T)) (t : List T) :
    Option (List (ArchiveEntry T) × List T) :=
  match ar with
  | ArchiveEntry.count count :: rest =>
    -- the `t.clear()`: nothing of what `t` held is kept
    load_items count rest (t.drop t.length)
  | _ => none

/-! ## Example states of the ortholog import -/

/-- The repository after the row `G1 geneX geneY` was read and the group of a second row `G2`
was registered: group 0 holds geneX and geneY, group 1 is still empty. -/
def overlapDatabase : Database :=
  ⟨[⟨0, ["G1"], [⟨0, "geneX"⟩, ⟨0, "geneY"⟩]⟩, ⟨1, ["G2"], []⟩], 2,
    fun g => if g = ⟨0, "geneX"⟩ ∨ g = ⟨0, "geneY"⟩ then some 0 else none⟩

/-- The database when an import returns, the exception when it does not. -/
def database_after (r : Except Exception OrthologImport) : Except Exception Database :=
  match r with
  | .ok st => .ok st.database
  | .error e => .error e

/-- A row without the later occurrences of the name `name`: the gene fields `before`, the first
occurrence, and the fields after it that are not `name`. -/
def without_repeats (before : List String) (name : String) (after : List String) : List String :=
  before ++ name :: after.filter (fun field => decide (field ≠ name))

/-! ## morph: `infimum` (morph/util.h, lines 63-72) -/

/-- The `map_.upper_bound(value)` of a `std::map`, given as the list of its entries in key
order: the position of the first entry whose key is greater than `value`, and the length of
the list (the end iterator) when there is none. -/
def upper_bound {K V : Type} [LinearOrder K] (map_ : List (K × V)) (value : K) : Nat :=
  (map_.takeWhile (fun entry => decide (entry.1 ≤ value))).length

/-- The `infimum` of morph/util.h: the entry before `upper_bound(value)`. The result is `none`
when `assert (it != map_.begin())` fails (without the assertion the iterator would be
decremented before the first entry). -/
def infimum {K V : Type} [LinearOrder K] (map_ : List (K × V)) (value : K) : Option (K × V) :=
  let it := upper_bound map_ value
  if it = 0 then
    none
  else
    map_.get? (it - 1)

/-! ## morph: `Ranking::rank_genes` (morph/Ranking.cpp) -/

/-- The arithmetic of the C++ type `double` as far as `Ranking` uses it. The operations are
parameters, so that nothing is assumed of how they round: `zero` is `result_type(0)`, the start
value of a uBLAS product, `one` is the element of `scalar_vector<double>(n)`, `minus_99` is the
literal `-99.0`, and `of_size` is the conversion of a `size_type` to `double`. -/
structure DoubleArithmetic (D : Type) where
  zero : D
  one : D
  minus_99 : D
  add : D → D → D
  mul : D → D → D
  div : D → D → D
  of_size : Nat → D

/-- The `contains` of morph/util.h: `std::find` reaches the value before the end. -/
def contains {α : Type} [DecidableEq α] (container : List α) (value : α) : Bool :=
  decide (value ∈ container)

/-- What `rank_genes` reads: the member `genes_of_interest`, the gene sets of
`clustering.get_clusters()` (each an `unordered_set`, here in its iteration order), and the
matrix `clustering.get_source().get_gene_correlations()` with its two sizes. -/
structure RankingInput (D : Type) where
  genes_of_interest : List Nat
  clusters : List (List Nat)
  size1 : Nat
  size2 : Nat
  gene_correlations : Nat → Nat → D

/-- One element of the uBLAS product `prod(m, v)`: starting from zero, the products of the
elements of the row with the elements of the vector are added up in index order. -/
def prod_row {D : Type} (A : DoubleArithmetic D) (row v : List D) : D :=
  (row.zip v).foldl (fun t p => A.add t (A.mul p.1 p.2)) A.zero

/-- The statement `noalias(project(rankings, candidates)) = values`: the element of every
candidate is overwritten with the value computed for it. -/
def project_assign {D : Type} (values : Nat → D) :
    List Nat → (Nat → D) → Nat → D
  | [], rankings => rankings
  | candidate :: rest, rankings =>
    project_assign values rest (fun gene => if gene = candidate then values candidate
      else rankings gene)

/-- The body of the loop of `rank_genes` for one cluster (lines 31-67). The result is `none`
when an index of the projection lies outside the correlation matrix or outside `rankings`,
which has `size1` elements (a uBLAS `bad_index`). -/
def rank_cluster {D : Type} (A : DoubleArithmetic D) (inp : RankingInput D)
    (rankings : Nat → D) (cluster_genes : List Nat) : Option (Nat → D) :=
  let interesting_genes := inp.genes_of_interest.filter (fun gene => contains cluster_genes gene)
  if interesting_genes.length = 0 then
    some rankings
  else
    let candidates :=
      cluster_genes.filter (fun gene => !contains inp.genes_of_interest gene)
    if candidates.length = 0 then
      some rankings
    else if candidates.all (fun gene => decide (gene < inp.size1))
        && interesting_genes.all (fun gene => decide (gene < inp.size2)) then
      let goi_count := interesting_genes.length
      some (project_assign
        (fun candidate =>
          A.div
            (prod_row A (interesting_genes.map (fun gene => inp.gene_correlations candidate gene))
              (List.replicate goi_count A.one))
            (A.of_size goi_count))
        candidates rankings)
    else
      none

/-- The loop of `rank_genes` over the clusters (line 30). -/
def rank_clusters {D : Type} (A : DoubleArithmetic D) (inp : RankingInput D) :
    List (List Nat) → (Nat → D) → Option (Nat → D)
  | [], rankings => some rankings
  | cluster :: rest, rankings =>
    match rank_cluster A inp rankings cluster with
    | none => none
    | some rankings2 => rank_clusters A inp rest rankings2

/-- The `Ranking::rank_genes`: after the loop the elements 0, 1 and 2 of `rankings` are
printed, which are read outside the vector when it has fewer than three elements. -/
def rank_genes {D : Type} (A : DoubleArithmetic D) (inp : RankingInput D)
    (rankings : Nat → D) : Option (Nat → D) :=
  match rank_clusters A inp inp.clusters rankings with
  | none => none
  | some rankings2 => if 3 ≤ inp.size1 then some rankings2 else none

/-- The member `rankings` when the constructor `Ranking::Ranking` has called `rank_genes`: it
starts as a vector of `size1` elements -99.0 (`rank_self` does nothing). -/
def Ranking {D : Type} (A : DoubleArithmetic D) (inp : RankingInput D) : Option (Nat → D) :=
  rank_genes A inp (fun _ => A.minus_99)

/-- The arithmetic mean of a list of doubles in the arithmetic `A`: the values are added up
in order, starting from zero, and the sum is divided by their number. -/
def mean {D : Type} (A : DoubleArithmetic D) (values : List D) : D :=
  A.div (values.foldl A.add A.zero) (A.of_size values.length)

/-- Exact arithmetic on the rationals. -/
def exactArithmetic : DoubleArithmetic Rat :=
  ⟨0, 1, -99, fun a b => a + b, fun a b => a * b, fun a b => a / b, fun n => (n : Rat)⟩

/-- Five genes, the clusters `{0, 1, 2}` and `{3, 4}`, the genes of interest 0 and 1, and the
correlation of row `c` with column `g` given as `c + 2 g`. -/
def exampleRanking : RankingInput Rat :=
  ⟨[0, 1], [[0, 1, 2], [3, 4]], 5, 5, fun c g => (c : Rat) + 2 * g⟩

/-! ## Theorems: the neighbour loop -/

theorem neighbour_groups_records (gene bait : Gene) (corr : Double) (gs : List GroupRef)
    (st : NeighbourState) :
    (neighbour_groups gene bait corr gs st).records
      = st.records ++ gs.map (fun G => (⟨G, gene, bait, corr⟩ : BaitCorrelation)) := by
  induction gs generalizing st with
  | nil => simp [neighbour_groups]
  | cons G rest ih => simp [neighbour_groups, ih, add_bait_correlation]

theorem neighbour_groups_neighbours (gene bait : Gene) (corr : Double) (gs : List GroupRef)
    (st : NeighbourState) :
    (neighbour_groups gene bait corr gs st).neighbours = st.neighbours ++ gs := by
  induction gs generalizing st with
  | nil => simp [neighbour_groups]
  | cons G rest ih => simp [neighbour_groups, ih]

theorem mem_neighbour_row_records (inp : CorrelationInput) (groups_get : Gene → List GroupRef)
    (neg pos : Double) (b r : Nat) (st : NeighbourState) (x : BaitCorrelation) :
    x ∈ (neighbour_row inp groups_get neg pos (inp.get_column_index b) (inp.get_gene b) r st).records
      ↔ x ∈ st.records ∨
        (r ∉ inp.indices ∧
          sufficient_correlation neg pos (inp.correlations r (inp.get_column_index b)) = true ∧
          ∃ G ∈ groups_get (inp.get_gene r), x = emitted inp b r G) := by
  unfold neighbour_row
  by_cases hr : r ∈ inp.indices
  · simp [hr]
  · by_cases hs : sufficient_correlation neg pos (inp.correlations r (inp.get_column_index b)) = true
    · simp [hr, hs, neighbour_groups_records, emitted, eq_comm]
    · simp [hr, hs]

theorem mem_foldl_rows_records (inp : CorrelationInput) (groups_get : Gene → List GroupRef)
    (neg pos : Double) (b : Nat) (rows : List Nat) (st : NeighbourState) (x : BaitCorrelation) :
    x ∈ (rows.foldl (fun s row => neighbour_row inp groups_get neg pos (inp.get_column_index b)
          (inp.get_gene b) row s) st).records
      ↔ x ∈ st.records ∨ ∃ r ∈ rows,
        (r ∉ inp.indices ∧
          sufficient_correlation neg pos (inp.correlations r (inp.get_column_index b)) = true ∧
          ∃ G ∈ groups_get (inp.get_gene r), x = emitted inp b r G) := by
  induction rows generalizing st with
  | nil => simp
  | cons r rest ih =>
    rw [List.foldl_cons, ih, mem_neighbour_row_records]
    simp only [List.mem_cons, exists_eq_or_imp, or_assoc]

theorem mem_neighbour_loop_records_aux (inp : CorrelationInput) (groups_get : Gene → List GroupRef)
    (neg pos : Double) (bs : List Nat) (st : NeighbourState) (x : BaitCorrelation) :
    x ∈ (bs.foldl (fun s row_index => neighbour_bait inp groups_get neg pos row_index s) st).records
      ↔ x ∈ st.records ∨ ∃ b ∈ bs, ∃ r, r < inp.size1 ∧ r ∉ inp.indices ∧
          sufficient_correlation neg pos (inp.correlations r (inp.get_column_index b)) = true ∧
          ∃ G ∈ groups_get (inp.get_gene r), x = emitted inp b r G := by
  induction bs generalizing st with
  | nil => simp
  | cons b rest ih =>
    rw [List.foldl_cons, ih]
    unfold neighbour_bait
    rw [mem_foldl_rows_records]
    simp only [List.mem_cons, exists_eq_or_imp, List.mem_range, or_assoc, exists_and_left]


theorem neighbour_groups_paired (gene bait : Gene) (corr : Double) (gs : List GroupRef)
    (st : NeighbourState) (h : st.neighbours = st.records.map (fun x => x.group)) :
    (neighbour_groups gene bait corr gs st).neighbours
      = (neighbour_groups gene bait corr gs st).records.map (fun x => x.group) := by
  rw [neighbour_groups_records, neighbour_groups_neighbours, h]
  simp [List.map_map, Function.comp_def]

theorem neighbour_loop_paired (inp : CorrelationInput) (groups_get : Gene → List GroupRef)
    (neg pos : Double) (st : NeighbourState)
    (h : st.neighbours = st.records.map (fun x => x.group)) :
    (neighbour_loop inp groups_get neg pos st).neighbours
      = (neighbour_loop inp groups_get neg pos st).records.map (fun x => x.group) := by
  unfold neighbour_loop
  generalize inp.indices = bs
  induction bs generalizing st with
  | nil => simpa using h
  | cons b rest ih =>
    rw [List.foldl_cons]
    apply ih
    unfold neighbour_bait
    generalize List.range inp.size1 = rows
    induction rows generalizing st with
    | nil => simpa using h
    | cons r rows ih2 =>
      rw [List.foldl_cons]
      apply ih2
      unfold neighbour_row
      by_cases hr : r ∈ inp.indices
      · simpa [hr] using h
      · by_cases hs : sufficient_correlation neg pos
            (inp.correlations r (inp.get_column_index b)) = true
        · simpa [hr, hs] using neighbour_groups_paired _ _ _ _ _ h
        · simpa [hr, hs] using h

theorem sufficient_correlation_half :
    sufficient_correlation (some (-1/2)) (some (1/2)) (some (-1/2)) = false
    ∧ sufficient_correlation (some (-1/2)) (some (1/2)) (some (1/2)) = false
    ∧ sufficient_correlation (some (-1/2)) (some (1/2)) (some (-51/100)) = true
    ∧ sufficient_correlation (some (-1/2)) (some (1/2)) (some (51/100)) = true := by
  refine ⟨?_, ?_, ?_, ?_⟩ <;> norm_num [sufficient_correlation, Double.lt, Double.gt]

/-- C1. In the neighbour loop of one matrix, started with no records and no neighbours, for a
bait row `b`, a row `r` that is not a bait row, and a group `G` of the gene of `r`: the tuple
(gene of `r`, bait, correlation) is recorded against `G` and `G` is on the neighbour list if
and only if the correlation is below the negative or above the positive threshold, both
strictly. With thresholds -0.5 and 0.5 the correlations -0.5 and 0.5 are not reported,
-0.51 and 0.51 are. Rows and genes of a matrix correspond one to one. -/
theorem coexpr_threshold_strict (inp : CorrelationInput) (groups_get : Gene → List GroupRef)
    (neg pos : Double) (b r : GeneExpressionMatrixRow) (G : GroupRef)
    (hb : b ∈ inp.indices) (hr : r < inp.size1) (hrb : r ∉ inp.indices)
    (hrows : ∀ i ∈ inp.indices, i < inp.size1)
    (hinj : ∀ i j, i < inp.size1 → j < inp.size1 → inp.get_gene i = inp.get_gene j → i = j)
    (hG : G ∈ groups_get (inp.get_gene r)) :
    ((⟨G, inp.get_gene r, inp.get_gene b, inp.correlations r (inp.get_column_index b)⟩
          ∈ (neighbour_loop inp groups_get neg pos ⟨[], []⟩).records
        ∧ G ∈ (neighbour_loop inp groups_get neg pos ⟨[], []⟩).neighbours)
      ↔ (Double.lt (inp.correlations r (inp.get_column_index b)) neg = true
          ∨ Double.gt (inp.correlations r (inp.get_column_index b)) pos = true))
    ∧ (neg = some (-1/2) → pos = some (1/2) →
        (inp.correlations r (inp.get_column_index b) = some (-1/2)
            ∨ inp.correlations r (inp.get_column_index b) = some (1/2) →
          (⟨G, inp.get_gene r, inp.get_gene b, inp.correlations r (inp.get_column_index b)⟩
            : BaitCorrelation) ∉ (neighbour_loop inp groups_get neg pos ⟨[], []⟩).records)
        ∧ (inp.correlations r (inp.get_column_index b) = some (-51/100)
            ∨ inp.correlations r (inp.get_column_index b) = some (51/100) →
          (⟨G, inp.get_gene r, inp.get_gene b, inp.correlations r (inp.get_column_index b)⟩
            : BaitCorrelation) ∈ (neighbour_loop inp groups_get neg pos ⟨[], []⟩).records
          ∧ G ∈ (neighbour_loop inp groups_get neg pos ⟨[], []⟩).neighbours)) := by
  have hrec : ∀ x : BaitCorrelation, x ∈ (neighbour_loop inp groups_get neg pos ⟨[], []⟩).records →
      x.group ∈ (neighbour_loop inp groups_get neg pos ⟨[], []⟩).neighbours := by
    intro x hx
    rw [neighbour_loop_paired inp groups_get neg pos ⟨[], []⟩ rfl]
    exact List.mem_map_of_mem _ hx
  have key : (⟨G, inp.get_gene r, inp.get_gene b, inp.correlations r (inp.get_column_index b)⟩
        : BaitCorrelation) ∈ (neighbour_loop inp groups_get neg pos ⟨[], []⟩).records
      ↔ sufficient_correlation neg pos (inp.correlations r (inp.get_column_index b)) = true := by
    unfold neighbour_loop
    rw [mem_neighbour_loop_records_aux]
    constructor
    · rintro (h | ⟨b2, hb2, r2, hr2, _, hs, G2, _, heq⟩)
      · simp at h
      · simp only [emitted, BaitCorrelation.mk.injEq] at heq
        obtain ⟨_, hg, hbg, hc⟩ := heq
        have e1 : r = r2 := hinj r r2 hr hr2 hg
        have e2 : b = b2 := hinj b b2 (hrows b hb) (hrows b2 hb2) hbg
        subst e1; subst e2
        exact hs
    · intro hs
      exact Or.inr ⟨b, hb, r, hr, hrb, hs, G, hG, rfl⟩
  have suff : sufficient_correlation neg pos (inp.correlations r (inp.get_column_index b)) = true
      ↔ (Double.lt (inp.correlations r (inp.get_column_index b)) neg = true
          ∨ Double.gt (inp.correlations r (inp.get_column_index b)) pos = true) := by
    simp [sufficient_correlation]
  refine ⟨?_, ?_⟩
  · rw [← suff, ← key]
    exact ⟨fun h => h.1, fun h => ⟨h, hrec _ h⟩⟩
  · intro hn hp
    subst hn; subst hp
    refine ⟨?_, ?_⟩
    · intro hc
      rw [key]
      rcases hc with hc | hc <;> rw [hc]
      · rw [sufficient_correlation_half.1]; exact Bool.false_ne_true
      · rw [sufficient_correlation_half.2.1]; exact Bool.false_ne_true
    · intro hc
      have : sufficient_correlation (some (-1/2)) (some (1/2))
          (inp.correlations r (inp.get_column_index b)) = true := by
        rcases hc with hc | hc <;> rw [hc]
        · exact sufficient_correlation_half.2.2.1
        · exact sufficient_correlation_half.2.2.2
      exact ⟨key.2 this, hrec _ (key.2 this)⟩


theorem coexpr_threshold_strict_witness :
    ((0 : Nat) ∈ (thresholdInput (some (51/100))).indices
      ∧ 1 < (thresholdInput (some (51/100))).size1
      ∧ 1 ∉ (thresholdInput (some (51/100))).indices)
    ∧ (⟨7, ⟨0, "target"⟩, ⟨0, "bait"⟩, some (51/100)⟩ : BaitCorrelation)
        ∈ (neighbour_loop (thresholdInput (some (51/100))) (fun _ => [7]) (some (-1/2)) (some (1/2))
            ⟨[], []⟩).records :=
  ⟨⟨by simp [thresholdInput], by simp [thresholdInput], by simp [thresholdInput]⟩,
    ((coexpr_threshold_strict (thresholdInput (some (51/100))) (fun _ => [7]) (some (-1/2))
      (some (1/2)) 0 1 7 (by simp [thresholdInput]) (by simp [thresholdInput])
      (by simp [thresholdInput]) (by simp [thresholdInput])
      (by
        intro i j hi hj
        have hi2 : i < 2 := hi
        have hj2 : j < 2 := hj
        interval_cases i <;> interval_cases j <;> simp [thresholdInput])
      (by simp)).2 rfl rfl).2 (Or.inr rfl) |>.1⟩


/-! ## Theorems: ortholog groups -/

theorem mem_unionGenes (L : List OrthologGroup) (x : Gene) :
    x ∈ unionGenes L ↔ ∃ G ∈ L, x ∈ G.genes := by
  induction L with
  | nil => simp [unionGenes]
  | cons G rest ih => simp [unionGenes, ih]

theorem find_handle_of_nodup (L : List OrthologGroup) (G : OrthologGroup)
    (hnd : (L.map (fun G => G.handle)).Nodup) (hG : G ∈ L) :
    L.find? (fun G2 => decide (G2.handle = G.handle)) = some G := by
  induction L with
  | nil => simp at hG
  | cons A rest ih =>
    rw [List.map_cons, List.nodup_cons] at hnd
    rcases List.mem_cons.1 hG with rfl | hG2
    · simp
    · have hne : A.handle ≠ G.handle := by
        intro e
        exact hnd.1 (e ▸ List.mem_map_of_mem (fun G => G.handle) hG2)
      rw [List.find?_cons_of_neg _ (by simpa using hne)]
      exact ih hnd.2 hG2

theorem Database.Inv.eq_of_handle {db : Database} (hI : db.Inv) {G1 G2 : OrthologGroup}
    (h1 : G1 ∈ db.ortholog_groups) (h2 : G2 ∈ db.ortholog_groups)
    (e : G1.handle = G2.handle) : G1 = G2 :=
  List.inj_on_of_nodup_map hI.handles_nodup h1 h2 e

theorem Database.Inv.eq_of_gene {db : Database} (hI : db.Inv) {G1 G2 : OrthologGroup}
    (h1 : G1 ∈ db.ortholog_groups) (h2 : G2 ∈ db.ortholog_groups) {g : Gene}
    (g1 : g ∈ G1.genes) (g2 : g ∈ G2.genes) : G1 = G2 := by
  have e1 := (hI.back_ref g G1.handle).2 ⟨G1, h1, rfl, g1⟩
  have e2 := (hI.back_ref g G2.handle).2 ⟨G2, h2, rfl, g2⟩
  rw [e1] at e2
  exact hI.eq_of_handle h1 h2 (Option.some.inj e2)

theorem emptyInv (n : Nat) : (Database.mk [] n (fun _ => none)).Inv :=
  ⟨by simp, by simp, by simp, by simp⟩

theorem others_handle_ne {others : List OrthologGroup} {cur : OrthologGroup}
    (hnd : ((others ++ [cur]).map (fun G => G.handle)).Nodup) :
    ∀ G ∈ others, G.handle ≠ cur.handle := by
  intro G hG e
  rw [List.map_append, List.nodup_append] at hnd
  exact hnd.2.2 (List.mem_map_of_mem (fun G => G.handle) hG) (by simp [e])

theorem map_cur_eq {others : List OrthologGroup} {cur : OrthologGroup}
    (hne : ∀ G ∈ others, G.handle ≠ cur.handle) (f : OrthologGroup → OrthologGroup) :
    (others ++ [cur]).map (fun G => if G.handle = cur.handle then f G else G)
      = others ++ [f cur] := by
  rw [List.map_append]
  congr 1
  · conv_rhs => rw [← List.map_id others]
    apply List.map_congr_left
    intro G hG
    simp [hne G hG]
  · simp

theorem add_eq {db : Database} {others : List OrthologGroup} {cur : OrthologGroup} {g : Gene}
    (hI : db.Inv) (hg : db.ortholog_groups = others ++ [cur]) (hn : db.gene_group g = none) :
    db.add cur.handle g =
      { ortholog_groups := others ++ [{ cur with genes := cur.genes ++ [g] }]
        next_handle := db.next_handle
        gene_group := fun x => if x = g then some cur.handle else db.gene_group x } := by
  have hno : ∀ G ∈ db.ortholog_groups, g ∉ G.genes := by
    intro G hG hgG
    have := (hI.back_ref g G.handle).2 ⟨G, hG, rfl, hgG⟩
    rw [hn] at this
    exact Option.noConfusion this
  have hany : db.ortholog_groups.any (fun G => decide (G.handle = cur.handle ∧ g ∈ G.genes))
      = false := by
    rw [List.any_eq_false]
    intro G hG
    simp [hno G hG]
  have hnd := hI.handles_nodup
  rw [hg] at hnd
  unfold Database.add
  rw [hany]
  simp only [Bool.false_eq_true, if_false]
  rw [hg, map_cur_eq (others_handle_ne hnd) (fun G => { G with genes := G.genes ++ [g] })]

theorem add_inv {db : Database} {others : List OrthologGroup} {cur : OrthologGroup} {g : Gene}
    (hI : db.Inv) (hg : db.ortholog_groups = others ++ [cur]) (hn : db.gene_group g = none) :
    (db.add cur.handle g).Inv := by
  have hno : ∀ G ∈ db.ortholog_groups, g ∉ G.genes := by
    intro G hG hgG
    have := (hI.back_ref g G.handle).2 ⟨G, hG, rfl, hgG⟩
    rw [hn] at this
    exact Option.noConfusion this
  have hcur : cur ∈ db.ortholog_groups := by rw [hg]; simp
  have hoth : ∀ G ∈ others, G ∈ db.ortholog_groups := by
    intro G hG; rw [hg]; exact List.mem_append_left _ hG
  have hnd0 := hI.handles_nodup
  rw [hg] at hnd0
  rw [add_eq hI hg hn]
  refine ⟨?_, ?_, ?_, ?_⟩
  · have := hI.handles_nodup
    rw [hg] at this
    simpa using this
  · intro G hG
    rcases List.mem_append.1 hG with h1 | h1
    · exact hI.handles_lt G (hoth G h1)
    · rw [List.mem_singleton] at h1
      subst h1
      exact hI.handles_lt cur hcur
  · intro G hG
    rcases List.mem_append.1 hG with h1 | h1
    · exact hI.genes_nodup G (hoth G h1)
    · rw [List.mem_singleton] at h1
      subst h1
      have := hI.genes_nodup cur hcur
      simp only
      rw [List.nodup_append]
      exact ⟨this, List.nodup_singleton g, by
        intro a ha hb
        rw [List.mem_singleton] at hb
        subst hb
        exact hno cur hcur ha⟩
  · intro x h
    simp only
    by_cases hx : x = g
    · subst hx
      simp only [if_true]
      constructor
      · intro e
        have e2 : cur.handle = h := Option.some.inj e
        exact ⟨_, List.mem_append_right _ (List.mem_singleton_self _), e2, by simp⟩
      · rintro ⟨G, hG, hh, hxG⟩
        rcases List.mem_append.1 hG with h1 | h1
        · exact absurd hxG (hno G (hoth G h1))
        · rw [List.mem_singleton] at h1
          subst h1
          rw [← hh]
    · simp only [if_neg hx]
      rw [hI.back_ref x h, hg]
      constructor
      · rintro ⟨G, hG, hh, hxG⟩
        rcases List.mem_append.1 hG with h1 | h1
        · exact ⟨G, List.mem_append_left _ h1, hh, hxG⟩
        · rw [List.mem_singleton] at h1
          subst h1
          exact ⟨_, List.mem_append_right _ (List.mem_singleton_self _), hh, by simp [hxG]⟩
      · rintro ⟨G, hG, hh, hxG⟩
        rcases List.mem_append.1 hG with h1 | h1
        · exact ⟨G, List.mem_append_left _ h1, hh, hxG⟩
        · rw [List.mem_singleton] at h1
          subst h1
          refine ⟨cur, List.mem_append_right _ (List.mem_singleton_self _), hh, ?_⟩
          simp only [List.mem_append, List.mem_singleton] at hxG
          rcases hxG with h2 | h2
          · exact h2
          · exact absurd h2 hx

theorem merge_eq {db : Database} {others : List OrthologGroup} {cur G2 : OrthologGroup}
    (hI : db.Inv) (hg : db.ortholog_groups = others ++ [cur]) (h2 : G2 ∈ others) :
    db.merge cur.handle G2.handle =
      { ortholog_groups :=
          others.filter (fun G => decide (G.handle ≠ G2.handle)) ++ [cur.absorb G2]
        next_handle := db.next_handle
        gene_group := fun x => if x ∈ G2.genes then some cur.handle else db.gene_group x } := by
  have hnd := hI.handles_nodup
  rw [hg] at hnd
  have hne := others_handle_ne hnd
  have hfind : db.ortholog_groups.find? (fun G => decide (G.handle = G2.handle)) = some G2 :=
    find_handle_of_nodup _ _ hI.handles_nodup (by rw [hg]; exact List.mem_append_left _ h2)
  unfold Database.merge
  rw [hfind]
  simp only
  have hc : decide (cur.handle ≠ G2.handle) = true := by
    simpa using (hne G2 h2).symm
  rw [hg, List.filter_append, List.filter_singleton, hc]
  simp only [cond_true]
  rw [map_cur_eq (fun G hG => hne G (List.mem_of_mem_filter hG)) (fun G => G.absorb G2)]

theorem merge_inv {db : Database} {others : List OrthologGroup} {cur G2 : OrthologGroup}
    (hI : db.Inv) (hg : db.ortholog_groups = others ++ [cur]) (h2 : G2 ∈ others) :
    (db.merge cur.handle G2.handle).Inv := by
  have hcur : cur ∈ db.ortholog_groups := by rw [hg]; simp
  have hoth : ∀ G ∈ others, G ∈ db.ortholog_groups := by
    intro G hG; rw [hg]; exact List.mem_append_left _ hG
  have hnd := hI.handles_nodup
  rw [hg] at hnd
  have hne := others_handle_ne hnd
  rw [merge_eq hI hg h2]
  refine ⟨?_, ?_, ?_, ?_⟩
  · simp only
    rw [List.map_append] at hnd ⊢
    have hs : (List.map (fun G => G.handle)
        (List.filter (fun G => decide (G.handle ≠ G2.handle)) others)).Sublist
        (List.map (fun G => G.handle) others) :=
      List.Sublist.map _ (List.filter_sublist _)
    rw [List.nodup_append] at hnd ⊢
    refine ⟨hnd.1.sublist hs, by simp, ?_⟩
    intro a ha hb
    exact hnd.2.2 (hs.subset ha) (by simpa [OrthologGroup.absorb] using hb)
  · intro G hG
    rcases List.mem_append.1 hG with h1 | h1
    · exact hI.handles_lt G (hoth G (List.mem_of_mem_filter h1))
    · rw [List.mem_singleton] at h1
      subst h1
      exact hI.handles_lt cur hcur
  · intro G hG
    rcases List.mem_append.1 hG with h1 | h1
    · exact hI.genes_nodup G (hoth G (List.mem_of_mem_filter h1))
    · rw [List.mem_singleton] at h1
      subst h1
      simp only [OrthologGroup.absorb]
      rw [List.nodup_append]
      refine ⟨hI.genes_nodup cur hcur, (hI.genes_nodup G2 (hoth G2 h2)).filter _, ?_⟩
      intro a ha hb
      have := (List.mem_filter.1 hb).2
      simp at this
      exact this ha
  · intro x h
    simp only
    by_cases hx : x ∈ G2.genes
    · rw [if_pos hx]
      constructor
      · intro e
        have e2 : cur.handle = h := Option.some.inj e
        refine ⟨_, List.mem_append_right _ (List.mem_singleton_self _), e2, ?_⟩
        simp only [OrthologGroup.absorb, List.mem_append, List.mem_filter]
        by_cases hxc : x ∈ cur.genes
        · exact Or.inl hxc
        · exact Or.inr ⟨hx, by simpa using hxc⟩
      · rintro ⟨G, hG, hh, hxG⟩
        rcases List.mem_append.1 hG with h1 | h1
        · have hG1 := List.mem_of_mem_filter h1
          have hp := (List.mem_filter.1 h1).2
          have : G = G2 := hI.eq_of_gene (hoth G hG1) (hoth G2 h2) hxG hx
          subst this
          simp at hp
        · rw [List.mem_singleton] at h1
          subst h1
          rw [← hh]
          rfl
    · rw [if_neg hx, hI.back_ref x h, hg]
      constructor
      · rintro ⟨G, hG, hh, hxG⟩
        rcases List.mem_append.1 hG with h1 | h1
        · refine ⟨G, List.mem_append_left _ (List.mem_filter.2 ⟨h1, ?_⟩), hh, hxG⟩
          have : G.handle ≠ G2.handle := by
            intro e
            have := hI.eq_of_handle (hoth G h1) (hoth G2 h2) e
            subst this
            exact hx hxG
          simpa using this
        · rw [List.mem_singleton] at h1
          subst h1
          refine ⟨_, List.mem_append_right _ (List.mem_singleton_self _), hh, ?_⟩
          simp only [OrthologGroup.absorb, List.mem_append]
          exact Or.inl hxG
      · rintro ⟨G, hG, hh, hxG⟩
        rcases List.mem_append.1 hG with h1 | h1
        · exact ⟨G, List.mem_append_left _ (List.mem_of_mem_filter h1), hh, hxG⟩
        · rw [List.mem_singleton] at h1
          subst h1
          refine ⟨cur, List.mem_append_right _ (List.mem_singleton_self _), hh, ?_⟩
          simp only [OrthologGroup.absorb, List.mem_append, List.mem_filter] at hxG
          rcases hxG with h3 | h3
          · exact h3
          · exact absurd h3.1 hx

theorem absorbed_nil {db : Database} {others : List OrthologGroup} {cur : OrthologGroup}
    (hg : db.ortholog_groups = others ++ [cur]) : Absorbed others cur [] db := by
  refine ⟨cur, ?_, rfl, ?_, ?_⟩
  · rw [hg]; simp
  · intro x; simp
  · intro i hi; exact Or.inl hi

/-- The gene already lies in the current group. -/
theorem absorbed_same {db : Database} {others : List OrthologGroup} {cur : OrthologGroup}
    {g : Gene} (hI : db.Inv) (hg : db.ortholog_groups = others ++ [cur])
    (hgg : db.gene_group g = some cur.handle) : Absorbed others cur [g] db := by
  have hcur : cur ∈ db.ortholog_groups := by rw [hg]; simp
  have hoth : ∀ G ∈ others, G ∈ db.ortholog_groups := by
    intro G hG; rw [hg]; exact List.mem_append_left _ hG
  have hnd := hI.handles_nodup
  rw [hg] at hnd
  have hne := others_handle_ne hnd
  obtain ⟨G, hG, hh, hgG⟩ := (hI.back_ref g cur.handle).1 hgg
  have hGc : G = cur := hI.eq_of_handle hG hcur hh
  subst hGc
  have hno : ∀ G2 ∈ others, g ∉ G2.genes := by
    intro G2 hG2 hgG2
    have := hI.eq_of_gene (hoth G2 hG2) hcur hgG2 hgG
    exact hne G2 hG2 (by rw [this])
  refine ⟨G, ?_, rfl, ?_, ?_⟩
  · rw [hg]
    congr 1
    symm
    apply List.filter_eq_self.2
    intro G2 hG2
    simpa using hno G2 hG2
  · intro x
    constructor
    · exact fun h => Or.inl h
    · rintro (h | h | ⟨G2, hG2, ⟨g2, hg2, hg2G⟩, _⟩)
      · exact h
      · rw [List.mem_singleton] at h
        rw [h]; exact hgG
      · rw [List.mem_singleton] at hg2
        subst hg2
        exact absurd hg2G (hno G2 hG2)
  · intro i hi; exact Or.inl hi

/-- The gene has no group yet: `add`. -/
theorem absorbed_add {db : Database} {others : List OrthologGroup} {cur : OrthologGroup}
    {g : Gene} (hI : db.Inv) (hg : db.ortholog_groups = others ++ [cur])
    (hn : db.gene_group g = none) : Absorbed others cur [g] (db.add cur.handle g) := by
  have hno : ∀ G ∈ db.ortholog_groups, g ∉ G.genes := by
    intro G hG hgG
    have := (hI.back_ref g G.handle).2 ⟨G, hG, rfl, hgG⟩
    rw [hn] at this
    exact Option.noConfusion this
  have hoth : ∀ G ∈ others, G ∈ db.ortholog_groups := by
    intro G hG; rw [hg]; exact List.mem_append_left _ hG
  rw [add_eq hI hg hn]
  refine ⟨{ cur with genes := cur.genes ++ [g] }, ?_, rfl, ?_, ?_⟩
  · simp only
    congr 1
    symm
    apply List.filter_eq_self.2
    intro G2 hG2
    simpa using hno G2 (hoth G2 hG2)
  · intro x
    simp only [List.mem_append, List.mem_singleton]
    constructor
    · rintro (h | h)
      · exact Or.inl h
      · exact Or.inr (Or.inl h)
    · rintro (h | h | ⟨G2, hG2, ⟨g2, hg2, hg2G⟩, _⟩)
      · exact Or.inl h
      · exact Or.inr h
      · subst hg2
        exact absurd hg2G (hno G2 (hoth G2 hG2))
  · intro i hi; exact Or.inl hi

/-- The gene lies in another group: `merge`. -/
theorem absorbed_merge {db : Database} {others : List OrthologGroup} {cur G2 : OrthologGroup}
    {g : Gene} (hI : db.Inv) (hg : db.ortholog_groups = others ++ [cur])
    (h2 : G2 ∈ others) (hg2 : g ∈ G2.genes) :
    Absorbed others cur [g] (db.merge cur.handle G2.handle) := by
  have hoth : ∀ G ∈ others, G ∈ db.ortholog_groups := by
    intro G hG; rw [hg]; exact List.mem_append_left _ hG
  rw [merge_eq hI hg h2]
  refine ⟨cur.absorb G2, ?_, rfl, ?_, ?_⟩
  · simp only
    congr 1
    apply List.filter_congr
    intro G hG
    have : G.handle ≠ G2.handle ↔ g ∉ G.genes := by
      constructor
      · intro hne hgG
        exact hne (by rw [hI.eq_of_gene (hoth G hG) (hoth G2 h2) hgG hg2])
      · intro hgG e
        have := hI.eq_of_handle (hoth G hG) (hoth G2 h2) e
        subst this
        exact hgG hg2
    simp only [List.mem_singleton, forall_eq]
    exact decide_eq_decide.2 this
  · intro x
    simp only [OrthologGroup.absorb, List.mem_append, List.mem_filter, List.mem_singleton]
    constructor
    · rintro (h | ⟨h, _⟩)
      · exact Or.inl h
      · exact Or.inr (Or.inr ⟨G2, h2, ⟨g, rfl, hg2⟩, h⟩)
    · rintro (h | h | ⟨G3, hG3, ⟨g3, hg3, hg3G⟩, hx⟩)
      · exact Or.inl h
      · subst h
        by_cases hxc : x ∈ cur.genes
        · exact Or.inl hxc
        · exact Or.inr ⟨hg2, by simpa using hxc⟩
      · subst hg3
        have := hI.eq_of_gene (hoth G3 hG3) (hoth G2 h2) hg3G hg2
        subst this
        by_cases hxc : x ∈ cur.genes
        · exact Or.inl hxc
        · exact Or.inr ⟨hx, by simpa using hxc⟩
  · intro i hi
    simp only [OrthologGroup.absorb, List.mem_append, List.mem_filter] at hi
    rcases hi with h | ⟨h, _⟩
    · exact Or.inl h
    · exact Or.inr ⟨G2, h2, h⟩

theorem absorbed_trans {others : List OrthologGroup} {cur cur1 : OrthologGroup}
    {gs1 gs2 : List Gene} {db2 : Database}
    (hh : cur1.handle = cur.handle)
    (hmem : ∀ x, x ∈ cur1.genes ↔
        x ∈ cur.genes ∨ x ∈ gs1 ∨ ∃ G ∈ others, (∃ g ∈ gs1, g ∈ G.genes) ∧ x ∈ G.genes)
    (hids : ∀ i ∈ cur1.external_ids, i ∈ cur.external_ids ∨ ∃ G ∈ others, i ∈ G.external_ids)
    (h2 : Absorbed (others.filter (fun G => decide (∀ g ∈ gs1, g ∉ G.genes))) cur1 gs2 db2) :
    Absorbed others cur (gs1 ++ gs2) db2 := by
  obtain ⟨cur2, hgr, hh2, hmem2, hids2⟩ := h2
  refine ⟨cur2, ?_, hh2.trans hh, ?_, ?_⟩
  · rw [hgr, List.filter_filter]
    congr 1
    apply List.filter_congr
    intro G _
    rw [← Bool.decide_and]
    apply decide_eq_decide.2
    simp only [List.mem_append]
    constructor
    · rintro ⟨h1, h2⟩ g (hg | hg)
      · exact h2 g hg
      · exact h1 g hg
    · intro h
      exact ⟨fun g hg => h g (Or.inr hg), fun g hg => h g (Or.inl hg)⟩
  · intro x
    rw [hmem2, hmem]
    simp only [List.mem_append, List.mem_filter, decide_eq_true_eq]
    constructor
    · rintro ((h | h | ⟨G, hG, ⟨g, hg, hgG⟩, hx⟩) | h | ⟨G, ⟨hG, _⟩, ⟨g, hg, hgG⟩, hx⟩)
      · exact Or.inl h
      · exact Or.inr (Or.inl (Or.inl h))
      · exact Or.inr (Or.inr ⟨G, hG, ⟨g, Or.inl hg, hgG⟩, hx⟩)
      · exact Or.inr (Or.inl (Or.inr h))
      · exact Or.inr (Or.inr ⟨G, hG, ⟨g, Or.inr hg, hgG⟩, hx⟩)
    · rintro (h | (h | h) | ⟨G, hG, ⟨g, hg, hgG⟩, hx⟩)
      · exact Or.inl (Or.inl h)
      · exact Or.inl (Or.inr (Or.inl h))
      · exact Or.inr (Or.inl h)
      · by_cases hall : ∀ g ∈ gs1, g ∉ G.genes
        · rcases hg with hg | hg
          · exact absurd hgG (hall g hg)
          · exact Or.inr (Or.inr ⟨G, ⟨hG, hall⟩, ⟨g, hg, hgG⟩, hx⟩)
        · push_neg at hall
          obtain ⟨g1, hg1, hg1G⟩ := hall
          exact Or.inl (Or.inr (Or.inr ⟨G, hG, ⟨g1, hg1, hg1G⟩, hx⟩))
  · intro i hi
    rcases hids2 i hi with h | ⟨G, hG, h⟩
    · exact hids i h
    · exact Or.inr ⟨G, List.mem_of_mem_filter hG, h⟩

theorem ortholog_field_spec (get : String → Except Exception GeneVariant)
    {st st2 : OrthologImport} {name : String} {others : List OrthologGroup}
    {cur : OrthologGroup} (hI : st.database.Inv)
    (hg : st.database.ortholog_groups = others ++ [cur])
    (h : ortholog_field get cur.handle st name = .ok st2) :
    st2.database.Inv ∧ Absorbed others cur (line_genes get [name]) st2.database
      ∧ st2.database.next_handle = st.database.next_handle := by
  unfold ortholog_field ortholog_field_body at h
  cases hget : get name with
  | error e =>
    have hl : line_genes get [name] = [] := by simp [line_genes, hget]
    rw [hl]
    rw [hget] at h
    cases e with
    | not_found w =>
      simp only [Except.ok.injEq] at h
      subst h
      exact ⟨hI, absorbed_nil hg, rfl⟩
    | typed t m =>
      simp only at h
      split at h
      · exact Except.noConfusion h
      · simp only [Except.ok.injEq] at h
        subst h
        exact ⟨hI, absorbed_nil hg, rfl⟩
    | out_of_range => exact Except.noConfusion h
    | expectation_failure => exact Except.noConfusion h
    | bad_index i j => exact Except.noConfusion h
    | null_gene_collection => exact Except.noConfusion h
  | ok v =>
    rw [hget] at h
    cases v with
    | splice_variant g0 w =>
      have hl : line_genes get [name] = [] := by simp [line_genes, hget]
      rw [hl]
      simp only [GeneVariant.as_gene] at h
      split at h
      · exact Except.noConfusion h
      · simp only [Except.ok.injEq] at h
        subst h
        exact ⟨hI, absorbed_nil hg, rfl⟩
    | gene g =>
      have hl : line_genes get [name] = [g] := by simp [line_genes, hget]
      rw [hl]
      simp only [GeneVariant.as_gene] at h
      cases hgg : st.database.gene_group g with
      | none =>
        rw [hgg] at h
        simp only [Except.ok.injEq] at h
        subst h
        exact ⟨add_inv hI hg hgg, absorbed_add hI hg hgg, by rw [add_eq hI hg hgg]⟩
      | some h2 =>
        rw [hgg] at h
        simp only at h
        by_cases he : h2 = cur.handle
        · rw [if_pos he] at h
          simp only [Except.ok.injEq] at h
          subst h
          exact ⟨hI, absorbed_same hI hg (he ▸ hgg), rfl⟩
        · rw [if_neg he] at h
          simp only [Except.ok.injEq] at h
          subst h
          obtain ⟨G2, hG2, hh2, hgG2⟩ := (hI.back_ref g h2).1 hgg
          have hG2o : G2 ∈ others := by
            rw [hg] at hG2
            rcases List.mem_append.1 hG2 with h1 | h1
            · exact h1
            · rw [List.mem_singleton] at h1
              subst h1
              exact absurd hh2.symm he
          subst hh2
          exact ⟨merge_inv hI hg hG2o, absorbed_merge hI hg hG2o hgG2,
            by rw [merge_eq hI hg hG2o]⟩

theorem line_genes_cons (get : String → Except Exception GeneVariant) (name : String)
    (rest : List String) :
    line_genes get (name :: rest) = line_genes get [name] ++ line_genes get rest := by
  unfold line_genes
  rw [← List.filterMap_append]
  rfl

theorem ortholog_fields_spec (get : String → Except Exception GeneVariant)
    (names : List String) :
    ∀ {st st2 : OrthologImport} {others : List OrthologGroup} {cur : OrthologGroup},
    st.database.Inv → st.database.ortholog_groups = others ++ [cur] →
    ortholog_fields get cur.handle names st = .ok st2 →
    st2.database.Inv ∧ Absorbed others cur (line_genes get names) st2.database
      ∧ st2.database.next_handle = st.database.next_handle := by
  induction names with
  | nil =>
    intro st st2 others cur hI hg h
    simp only [ortholog_fields, Except.ok.injEq] at h
    subst h
    exact ⟨hI, absorbed_nil hg, rfl⟩
  | cons name rest ih =>
    intro st st2 others cur hI hg h
    unfold ortholog_fields at h
    cases hf : ortholog_field get cur.handle st name with
    | error e => rw [hf] at h; exact Except.noConfusion h
    | ok st1 =>
      rw [hf] at h
      simp only at h
      obtain ⟨hI1, ⟨cur1, hg1, hh1, hmem1, hids1⟩, hn1⟩ := ortholog_field_spec get hI hg hf
      rw [← hh1] at h
      obtain ⟨hI2, hA2, hn2⟩ := ih hI1 hg1 h
      rw [line_genes_cons]
      exact ⟨hI2, absorbed_trans hh1 hmem1 hids1 hA2, hn2.trans hn1⟩

theorem add_ortholog_group_spec {db db1 : Database} {id : GeneFamilyId} {h : GroupHandle}
    (hI : db.Inv) (ha : db.add_ortholog_group id = .ok (db1, h)) :
    db1.Inv ∧ db1.ortholog_groups = db.ortholog_groups ++ [⟨h, [id], []⟩]
      ∧ h = db.next_handle ∧ db1.next_handle = db.next_handle + 1
      ∧ db1.gene_group = db.gene_group
      ∧ ∀ G ∈ db.ortholog_groups, id ∉ G.external_ids := by
  unfold Database.add_ortholog_group at ha
  split at ha
  · exact Except.noConfusion ha
  · rename_i hany
    simp only [Except.ok.injEq, Prod.mk.injEq] at ha
    obtain ⟨hdb, hh⟩ := ha
    subst hdb; subst hh
    refine ⟨⟨?_, ?_, ?_, ?_⟩, rfl, rfl, rfl, rfl, ?_⟩
    · simp only [List.map_append, List.map_cons, List.map_nil]
      rw [List.nodup_append]
      refine ⟨hI.handles_nodup, List.nodup_singleton _, ?_⟩
      intro a ha hb
      rw [List.mem_singleton] at hb
      subst hb
      obtain ⟨G, hG, e⟩ := List.mem_map.1 ha
      have hlt : G.handle < db.next_handle := hI.handles_lt G hG
      have e2 : G.handle = db.next_handle := e
      exact absurd e2 (Nat.ne_of_lt hlt)
    · intro G hG
      simp only [List.mem_append, List.mem_singleton] at hG
      rcases hG with h1 | h1
      · exact Nat.lt_succ_of_lt (hI.handles_lt G h1)
      · subst h1
        simp
    · intro G hG
      simp only [List.mem_append, List.mem_singleton] at hG
      rcases hG with h1 | h1
      · exact hI.genes_nodup G h1
      · subst h1
        simp
    · intro g h
      simp only
      rw [hI.back_ref g h]
      constructor
      · rintro ⟨G, hG, hh, hgG⟩
        exact ⟨G, List.mem_append_left _ hG, hh, hgG⟩
      · rintro ⟨G, hG, hh, hgG⟩
        rcases List.mem_append.1 hG with h1 | h1
        · exact ⟨G, h1, hh, hgG⟩
        · rw [List.mem_singleton] at h1
          subst h1
          simp at hgG
    · intro G hG hid
      apply hany
      rw [List.any_eq_true]
      exact ⟨G, hG, by simpa using hid⟩

/-- What `on_line` does to the database, for a line it does not skip. -/
theorem on_line_spec (get : String → Except Exception GeneVariant)
    {st st2 : OrthologImport} {id : String} {names : List String}
    (hI : st.database.Inv) (hlen : 3 ≤ (id :: names).length)
    (h : on_line get st (id :: names) = .ok st2) :
    st2.database.Inv
      ∧ Absorbed st.database.ortholog_groups ⟨st.database.next_handle, [id], []⟩
          (line_genes get names) st2.database
      ∧ st2.database.next_handle = st.database.next_handle + 1
      ∧ ∀ G ∈ st.database.ortholog_groups, id ∉ G.external_ids := by
  unfold on_line at h
  rw [if_neg (by omega)] at h
  simp only at h
  cases ha : st.database.add_ortholog_group id with
  | error e => rw [ha] at h; exact Except.noConfusion h
  | ok p =>
    obtain ⟨db1, hd⟩ := p
    rw [ha] at h
    simp only at h
    obtain ⟨hI1, hg1, hh, hn1, _, hfresh⟩ := add_ortholog_group_spec hI ha
    subst hh
    have := @ortholog_fields_spec get names { st with database := db1 } st2
      st.database.ortholog_groups ⟨st.database.next_handle, [id], []⟩ hI1 hg1 h
    exact ⟨this.1, this.2.1, this.2.2.trans hn1, hfresh⟩

theorem on_line_skip (get : String → Except Exception GeneVariant)
    {st st2 : OrthologImport} {line : List String}
    (hlen : line.length < 3) (h : on_line get st line = .ok st2) :
    st2.database = st.database := by
  unfold on_line at h
  rw [if_pos hlen] at h
  simp only [Except.ok.injEq] at h
  subst h
  rfl

theorem mem_sup_iff (M : Multiset (Finset Gene)) (x : Gene) : x ∈ M.sup ↔ ∃ B ∈ M, x ∈ B := by
  induction M using Multiset.induction_on with
  | empty => simp
  | cons B M ih => simp [ih]

theorem disjoint_toFinset_iff (gs : List Gene) (G : OrthologGroup) :
    Disjoint gs.toFinset G.genes.toFinset ↔ ∀ g ∈ gs, g ∉ G.genes := by
  simp [Finset.disjoint_left]

theorem partition_of_absorbed {others : List OrthologGroup} {h : GroupHandle}
    {ids : List GeneFamilyId} {gs : List Gene} {db2 : Database}
    (hA : Absorbed others ⟨h, ids, []⟩ gs db2) :
    db2.partition
      = absRow gs.toFinset ((others.map (fun G => G.genes.toFinset) : List (Finset Gene))) := by
  obtain ⟨cur2, hgr, _, hmem, _⟩ := hA
  unfold Database.partition absRow
  rw [hgr, List.map_append, ← Multiset.coe_add, Multiset.filter_coe, List.filter_map]
  congr 1
  · congr 2
    apply List.filter_congr
    intro G _
    simp only [Function.comp_apply]
    exact decide_eq_decide.2 (disjoint_toFinset_iff gs G).symm
  · simp only [List.map_cons, List.map_nil, Multiset.coe_singleton]
    congr 1
    ext x
    rw [List.mem_toFinset, hmem, Finset.mem_union, mem_sup_iff]
    simp only [List.not_mem_nil, false_or, List.mem_toFinset, Multiset.mem_filter,
      Multiset.mem_coe, List.mem_map]
    constructor
    · rintro (hx | ⟨G, hG, ⟨g, hg, hgG⟩, hx⟩)
      · exact Or.inl hx
      · refine Or.inr ⟨G.genes.toFinset, ⟨⟨G, hG, rfl⟩, ?_⟩, List.mem_toFinset.2 hx⟩
        rw [disjoint_toFinset_iff]
        push_neg
        exact ⟨g, hg, hgG⟩
    · rintro (hx | ⟨B, ⟨⟨G, hG, rfl⟩, hB⟩, hx⟩)
      · exact Or.inl hx
      · rw [disjoint_toFinset_iff] at hB
        push_neg at hB
        exact Or.inr ⟨G, hG, hB, List.mem_toFinset.1 hx⟩

theorem disjoint_absorbed (S T : Finset Gene) (P : Multiset (Finset Gene)) :
    Disjoint S (T ∪ (P.filter (fun B => ¬ Disjoint T B)).sup)
      ↔ Disjoint S T ∧ ∀ B ∈ P, ¬ Disjoint T B → Disjoint S B := by
  simp only [Finset.disjoint_left, Finset.mem_union, mem_sup_iff, Multiset.mem_filter]
  constructor
  · intro h
    exact ⟨fun x hx hT => h hx (Or.inl hT),
      fun B hB hTB x hx hxB => h hx (Or.inr ⟨B, ⟨hB, hTB⟩, hxB⟩)⟩
  · rintro ⟨h1, h2⟩ x hx (hT | ⟨B, ⟨hB, hTB⟩, hxB⟩)
    · exact h1 hx hT
    · exact h2 B hB hTB hx hxB

theorem disjoint_absorbed_symm (S T : Finset Gene) (P : Multiset (Finset Gene)) :
    Disjoint S (T ∪ (P.filter (fun B => ¬ Disjoint T B)).sup)
      ↔ Disjoint T (S ∪ (P.filter (fun B => ¬ Disjoint S B)).sup) := by
  rw [disjoint_absorbed, disjoint_absorbed, disjoint_comm]
  constructor
  · rintro ⟨h1, h2⟩
    exact ⟨h1, fun B hB hSB => by
      by_contra hTB
      exact hSB (h2 B hB hTB)⟩
  · rintro ⟨h1, h2⟩
    exact ⟨h1, fun B hB hTB => by
      by_contra hSB
      exact hTB (h2 B hB hSB)⟩

theorem absRow_absRow_of_disjoint (S T : Finset Gene) (P : Multiset (Finset Gene))
    (h : Disjoint S (T ∪ (P.filter (fun B => ¬ Disjoint T B)).sup)) :
    absRow S (absRow T P)
      = P.filter (fun B => Disjoint S B ∧ Disjoint T B)
        + {T ∪ (P.filter (fun B => ¬ Disjoint T B)).sup}
        + {S ∪ (P.filter (fun B => ¬ Disjoint S B)).sup} := by
  have h2 := (disjoint_absorbed S T P).1 h
  unfold absRow
  rw [Multiset.filter_add, Multiset.filter_add, Multiset.filter_singleton,
    Multiset.filter_singleton, if_pos h, if_neg (not_not.2 h), Multiset.filter_filter,
    Multiset.filter_filter]
  have e : Multiset.filter (fun B => ¬ Disjoint S B ∧ Disjoint T B) P
      = Multiset.filter (fun B => ¬ Disjoint S B) P := by
    apply Multiset.filter_congr
    intro B hB
    constructor
    · exact fun hh => hh.1
    · intro hSB
      refine ⟨hSB, ?_⟩
      by_contra hTB
      exact hSB (h2.2 B hB hTB)
  rw [e]
  simp

theorem absRow_absRow_of_not_disjoint (S T : Finset Gene) (P : Multiset (Finset Gene))
    (h : ¬ Disjoint S (T ∪ (P.filter (fun B => ¬ Disjoint T B)).sup)) :
    absRow S (absRow T P)
      = P.filter (fun B => Disjoint S B ∧ Disjoint T B)
        + {S ∪ T ∪ (P.filter (fun B => ¬ Disjoint S B ∨ ¬ Disjoint T B)).sup} := by
  unfold absRow
  rw [Multiset.filter_add, Multiset.filter_add, Multiset.filter_singleton,
    Multiset.filter_singleton, if_neg h, if_pos h, Multiset.filter_filter,
    Multiset.filter_filter, Multiset.empty_eq_zero, add_zero]
  congr 2
  ext x
  simp only [Multiset.sup_add, Multiset.sup_singleton, Finset.sup_eq_union, Finset.mem_union,
    mem_sup_iff, Multiset.mem_filter]
  constructor
  · rintro (hS | ⟨B, ⟨hB, hSB, _⟩, hx⟩ | hT | ⟨B, ⟨hB, hTB⟩, hx⟩)
    · exact Or.inl (Or.inl hS)
    · exact Or.inr ⟨B, ⟨hB, Or.inl hSB⟩, hx⟩
    · exact Or.inl (Or.inr hT)
    · exact Or.inr ⟨B, ⟨hB, Or.inr hTB⟩, hx⟩
  · rintro ((hS | hT) | ⟨B, ⟨hB, hh⟩, hx⟩)
    · exact Or.inl hS
    · exact Or.inr (Or.inr (Or.inl hT))
    · by_cases hTB : Disjoint T B
      · rcases hh with hSB | hTB2
        · exact Or.inr (Or.inl ⟨B, ⟨hB, hSB, hTB⟩, hx⟩)
        · exact absurd hTB hTB2
      · exact Or.inr (Or.inr (Or.inr ⟨B, ⟨hB, hTB⟩, hx⟩))

theorem absRow_comm (S T : Finset Gene) (P : Multiset (Finset Gene)) :
    absRow S (absRow T P) = absRow T (absRow S P) := by
  by_cases h : Disjoint S (T ∪ (P.filter (fun B => ¬ Disjoint T B)).sup)
  · rw [absRow_absRow_of_disjoint S T P h,
      absRow_absRow_of_disjoint T S P ((disjoint_absorbed_symm S T P).1 h)]
    have e : Multiset.filter (fun B => Disjoint T B ∧ Disjoint S B) P
        = Multiset.filter (fun B => Disjoint S B ∧ Disjoint T B) P :=
      Multiset.filter_congr (fun B _ => and_comm)
    rw [e, add_assoc, add_assoc]
    congr 1
    exact add_comm _ _
  · rw [absRow_absRow_of_not_disjoint S T P h,
      absRow_absRow_of_not_disjoint T S P (fun hh => h ((disjoint_absorbed_symm S T P).2 hh))]
    have e : Multiset.filter (fun B => Disjoint T B ∧ Disjoint S B) P
        = Multiset.filter (fun B => Disjoint S B ∧ Disjoint T B) P :=
      Multiset.filter_congr (fun B _ => and_comm)
    have e2 : Multiset.filter (fun B => ¬ Disjoint T B ∨ ¬ Disjoint S B) P
        = Multiset.filter (fun B => ¬ Disjoint S B ∨ ¬ Disjoint T B) P :=
      Multiset.filter_congr (fun B _ => or_comm)
    rw [e, e2, Finset.union_comm T S]

theorem absorbed_covers {others : List OrthologGroup} {cur : OrthologGroup} {gs : List Gene}
    {db2 : Database} (hA : Absorbed others cur gs db2) (x : Gene)
    (hx : x ∈ gs ∨ ∃ G ∈ others, x ∈ G.genes) : db2.covers x := by
  obtain ⟨cur2, hgr, _, hmem, _⟩ := hA
  unfold Database.covers
  rw [hgr]
  rcases hx with hx | ⟨G, hG, hxG⟩
  · exact ⟨cur2, by simp, (hmem x).2 (Or.inr (Or.inl hx))⟩
  · by_cases hall : ∀ g ∈ gs, g ∉ G.genes
    · exact ⟨G, List.mem_append_left _ (List.mem_filter.2 ⟨hG, by simpa using hall⟩), hxG⟩
    · push_neg at hall
      exact ⟨cur2, by simp, (hmem x).2 (Or.inr (Or.inr ⟨G, hG, hall, hxG⟩))⟩

theorem absorbed_ids {others : List OrthologGroup} {cur : OrthologGroup} {gs : List Gene}
    {db2 : Database} (hA : Absorbed others cur gs db2) :
    ∀ G ∈ db2.ortholog_groups, ∀ i ∈ G.external_ids,
      i ∈ cur.external_ids ∨ ∃ G0 ∈ others, i ∈ G0.external_ids := by
  obtain ⟨cur2, hgr, _, _, hids⟩ := hA
  intro G hG i hi
  rw [hgr] at hG
  rcases List.mem_append.1 hG with h1 | h1
  · exact Or.inr ⟨G, List.mem_of_mem_filter h1, hi⟩
  · rw [List.mem_singleton] at h1
    subst h1
    exact hids i hi

theorem partition_of_groups (db : Database) :
    ((db.ortholog_groups.map (fun G => G.genes.toFinset) : List (Finset Gene))
      : Multiset (Finset Gene)) = db.partition := rfl

/-- The effect of a successful import on the database. -/
theorem ortholog_lines_spec (get : String → Except Exception GeneVariant)
    (lines : List (List String)) :
    ∀ {st st2 : OrthologImport}, st.database.Inv → ortholog_lines get lines st = .ok st2 →
    st2.database.Inv
      ∧ st2.database.partition = abs_lines get lines st.database.partition
      ∧ (∀ x, st.database.covers x → st2.database.covers x)
      ∧ (∀ line ∈ lines, 3 ≤ line.length →
          ∀ g ∈ line_genes get line.tail, st2.database.covers g) := by
  induction lines with
  | nil =>
    intro st st2 hI h
    simp only [ortholog_lines, Except.ok.injEq] at h
    subst h
    exact ⟨hI, rfl, fun _ hx => hx, by simp⟩
  | cons line rest ih =>
    intro st st2 hI h
    unfold ortholog_lines at h
    cases hl : on_line get st line with
    | error e => rw [hl] at h; exact Except.noConfusion h
    | ok st1 =>
      rw [hl] at h
      simp only at h
      by_cases hlen : line.length < 3
      · have hdb := on_line_skip get hlen hl
        obtain ⟨hI2, hp, hc, hn⟩ := ih (hdb ▸ hI) h
        refine ⟨hI2, ?_, ?_, ?_⟩
        · rw [hp, hdb]
          simp [abs_lines, abs_line, hlen]
        · intro x hx
          exact hc x (hdb ▸ hx)
        · intro l hlmem hl3 g hg
          rcases List.mem_cons.1 hlmem with e | e
          · subst e; omega
          · exact hn l e hl3 g hg
      · cases line with
        | nil => simp at hlen
        | cons id names =>
          obtain ⟨hI1, hA, _, _⟩ := on_line_spec get hI (by omega) hl
          obtain ⟨hI2, hp, hc, hn⟩ := ih hI1 h
          refine ⟨hI2, ?_, ?_, ?_⟩
          · rw [hp, partition_of_absorbed hA, partition_of_groups]
            have hlen2 : ¬ (names.length + 1 < 3) := by simpa using hlen
            simp [abs_lines, abs_line, hlen2]
          · intro x hx
            exact hc x (absorbed_covers hA x (Or.inr hx))
          · intro l hlmem hl3 g hg
            rcases List.mem_cons.1 hlmem with e | e
            · subst e
              exact hc g (absorbed_covers hA g (Or.inl hg))
            · exact hn l e hl3 g hg

theorem ortholog_field_ok_iff (get : String → Except Exception GeneVariant)
    (group : GroupHandle) (st : OrthologImport) (name : String) :
    (∃ st2, ortholog_field get group st name = .ok st2) ↔ field_ok get name = true := by
  unfold ortholog_field ortholog_field_body field_ok
  cases hget : get name with
  | error e =>
    cases e with
    | not_found w => simp
    | typed t m =>
      by_cases ht : t = ErrorType.SPLICE_VARIANT_INSTEAD_OF_GENE
      · simp [ht]
      · simp [ht]
    | out_of_range => simp
    | expectation_failure => simp
    | bad_index i j => simp
    | null_gene_collection => simp
  | ok v =>
    cases v with
    | splice_variant g0 w => simp [GeneVariant.as_gene]
    | gene g =>
      simp only [GeneVariant.as_gene]
      cases st.database.gene_group g with
      | none => simp
      | some h2 =>
        by_cases he : h2 = group
        · simp [he]
        · simp [he]

theorem ortholog_fields_ok_iff (get : String → Except Exception GeneVariant)
    (group : GroupHandle) (names : List String) :
    ∀ st : OrthologImport, (∃ st2, ortholog_fields get group names st = .ok st2)
      ↔ ∀ name ∈ names, field_ok get name = true := by
  induction names with
  | nil => intro st; simp [ortholog_fields]
  | cons name rest ih =>
    intro st
    unfold ortholog_fields
    cases hf : ortholog_field get group st name with
    | error e =>
      have : ¬ field_ok get name = true := by
        rw [← ortholog_field_ok_iff get group st name, hf]
        simp
      simp [this]
    | ok st1 =>
      have : field_ok get name = true := by
        rw [← ortholog_field_ok_iff get group st name, hf]
        exact ⟨st1, rfl⟩
      simp only [List.mem_cons, forall_eq_or_imp, this, true_and]
      exact ih st1

theorem on_line_ok_of_fresh (get : String → Except Exception GeneVariant)
    (st : OrthologImport) (line : List String)
    (hfresh : ∀ id, line.head? = some id → ∀ G ∈ st.database.ortholog_groups,
      id ∉ G.external_ids)
    (hok : line_ok get line) : ∃ st2, on_line get st line = .ok st2 := by
  unfold on_line
  by_cases hlen : line.length < 3
  · rw [if_pos hlen]; exact ⟨_, rfl⟩
  · rw [if_neg hlen]
    cases line with
    | nil => exact ⟨_, rfl⟩
    | cons id names =>
      simp only
      have hany : st.database.ortholog_groups.any (fun G => decide (id ∈ G.external_ids))
          = false := by
        rw [List.any_eq_false]
        intro G hG
        simpa using hfresh id rfl G hG
      have hadd : st.database.add_ortholog_group id
          = .ok ({ st.database with
                    ortholog_groups := st.database.ortholog_groups
                      ++ [⟨st.database.next_handle, [id], []⟩]
                    next_handle := st.database.next_handle + 1 },
                 st.database.next_handle) := by
        unfold Database.add_ortholog_group
        rw [hany]
        rfl
      rw [hadd]
      simp only
      exact (ortholog_fields_ok_iff get _ names _).2 (hok (by omega))

theorem line_ok_of_on_line (get : String → Except Exception GeneVariant)
    {st st2 : OrthologImport} {line : List String} (h : on_line get st line = .ok st2) :
    line_ok get line := by
  intro hlen
  unfold on_line at h
  rw [if_neg (by omega)] at h
  cases line with
  | nil => simp at hlen
  | cons id names =>
    simp only at h
    cases ha : st.database.add_ortholog_group id with
    | error e => rw [ha] at h; exact Except.noConfusion h
    | ok p =>
      rw [ha] at h
      exact (ortholog_fields_ok_iff get _ names _).1 ⟨st2, h⟩

theorem line_ok_of_ortholog_lines (get : String → Except Exception GeneVariant)
    (lines : List (List String)) :
    ∀ {st st2 : OrthologImport}, ortholog_lines get lines st = .ok st2 →
      ∀ line ∈ lines, line_ok get line := by
  induction lines with
  | nil => intro st st2 _ line hl; simp at hl
  | cons l rest ih =>
    intro st st2 h line hl
    unfold ortholog_lines at h
    cases hon : on_line get st l with
    | error e => rw [hon] at h; exact Except.noConfusion h
    | ok st1 =>
      rw [hon] at h
      rcases List.mem_cons.1 hl with e | e
      · subst e; exact line_ok_of_on_line get hon
      · exact ih h line e

theorem ortholog_lines_ok (get : String → Except Exception GeneVariant)
    (lines : List (List String)) :
    ∀ st : OrthologImport, st.database.Inv →
      (lines.map List.head?).Nodup →
      (∀ G ∈ st.database.ortholog_groups, ∀ i ∈ G.external_ids,
        some i ∉ lines.map List.head?) →
      (∀ line ∈ lines, line_ok get line) →
      ∃ st2, ortholog_lines get lines st = .ok st2 := by
  induction lines with
  | nil => intro st _ _ _ _; exact ⟨st, rfl⟩
  | cons line rest ih =>
    intro st hI hnd hfresh hok
    rw [List.map_cons, List.nodup_cons] at hnd
    obtain ⟨st1, h1⟩ := on_line_ok_of_fresh get st line
      (fun id hid G hG hmem => hfresh G hG id hmem (by simp [hid]))
      (hok line (List.mem_cons_self _ _))
    unfold ortholog_lines
    rw [h1]
    simp only
    by_cases hlen : line.length < 3
    · have hdb := on_line_skip get hlen h1
      apply ih st1 (hdb ▸ hI) hnd.2
      · intro G hG i hi hmem
        rw [hdb] at hG
        exact hfresh G hG i hi (List.mem_cons_of_mem _ hmem)
      · exact fun l hl => hok l (List.mem_cons_of_mem _ hl)
    · cases line with
      | nil => simp at hlen
      | cons id names =>
        obtain ⟨hI1, hA, _, _⟩ := on_line_spec get hI (by omega) h1
        apply ih st1 hI1 hnd.2
        · intro G hG i hi hmem
          rcases absorbed_ids hA G hG i hi with h | ⟨G0, hG0, h⟩
          · simp only [List.mem_singleton] at h
            subst h
            exact hnd.1 (by simpa using hmem)
          · exact hfresh G0 hG0 i h (List.mem_cons_of_mem _ hmem)
        · exact fun l hl => hok l (List.mem_cons_of_mem _ hl)

theorem abs_line_comm (get : String → Except Exception GeneVariant)
    (P : Multiset (Finset Gene)) (l1 l2 : List String) :
    abs_line get (abs_line get P l1) l2 = abs_line get (abs_line get P l2) l1 := by
  unfold abs_line
  by_cases h1 : l1.length < 3 <;> by_cases h2 : l2.length < 3 <;> simp only [h1, h2, if_true, if_false]
  exact absRow_comm _ _ _

theorem abs_lines_perm (get : String → Except Exception GeneVariant)
    {l1 l2 : List (List String)} (hp : l1.Perm l2) :
    ∀ P, abs_lines get l1 P = abs_lines get l2 P := by
  induction hp with
  | nil => intro P; rfl
  | cons x _ ih => intro P; exact ih _
  | swap x y l =>
    intro P
    simp only [abs_lines, List.foldl_cons]
    rw [abs_line_comm]
  | trans _ _ ih1 ih2 => intro P; rw [ih1, ih2]

theorem filter_length_one (L : List OrthologGroup) (p : OrthologGroup → Bool)
    (hnd : (L.map (fun G => G.handle)).Nodup) (G : OrthologGroup) (hG : G ∈ L) (hp : p G = true)
    (huniq : ∀ G2 ∈ L, p G2 = true → G2 = G) : (L.filter p).length = 1 := by
  induction L with
  | nil => simp at hG
  | cons A rest ih =>
    rw [List.map_cons, List.nodup_cons] at hnd
    by_cases hA : p A = true
    · have hAG : A = G := huniq A (List.mem_cons_self _ _) hA
      subst hAG
      have hrest : rest.filter p = [] := by
        rw [List.filter_eq_nil_iff]
        intro B hB hpB
        have := huniq B (List.mem_cons_of_mem _ hB) hpB
        subst this
        exact hnd.1 (List.mem_map_of_mem (fun G => G.handle) hB)
      rw [List.filter_cons_of_pos hA, hrest]
      rfl
    · rw [List.filter_cons_of_neg hA]
      rcases List.mem_cons.1 hG with e | e
      · subst e; exact absurd hp hA
      · exact ih hnd.2 e (fun G2 h2 => huniq G2 (List.mem_cons_of_mem _ h2))

theorem Database.Inv.one_group {db : Database} (hI : db.Inv) {g : Gene}
    (hc : db.covers g) :
    (db.ortholog_groups.filter (fun G => decide (g ∈ G.genes))).length = 1
      ∧ ∃ G ∈ db.ortholog_groups, g ∈ G.genes ∧ db.gene_group g = some G.handle := by
  obtain ⟨G, hG, hgG⟩ := hc
  refine ⟨?_, G, hG, hgG, (hI.back_ref g G.handle).2 ⟨G, hG, rfl, hgG⟩⟩
  apply filter_length_one _ _ hI.handles_nodup G hG (by simpa using hgG)
  intro G2 hG2 hp
  exact hI.eq_of_gene hG2 hG (by simpa using hp) hgG

theorem Database.Inv.at_most_one_group {db : Database} (hI : db.Inv) (g : Gene) :
    (db.ortholog_groups.filter (fun G => decide (g ∈ G.genes))).length ≤ 1 := by
  by_cases hc : db.covers g
  · rw [(hI.one_group hc).1]
  · have : db.ortholog_groups.filter (fun G => decide (g ∈ G.genes)) = [] := by
      rw [List.filter_eq_nil_iff]
      intro G hG hp
      exact hc ⟨G, hG, by simpa using hp⟩
    rw [this]
    exact Nat.zero_le _

theorem add_orthologs_eq (get : String → Except Exception GeneVariant)
    (file : List (List String)) (db : Database) :
    add_orthologs get file db = ortholog_lines get file ⟨db, 0, []⟩ := rfl

/-- C2 (counterexample). After `G1 geneX geneY` then `G2 geneY geneZ` the repository does hold a
group registered under id G2: the claim that it holds one group with the three genes and none
under G2 is false. -/
theorem add_orthologs_scenario_G2_survives :
    ¬ ∃ st, add_orthologs xyzGenes [["G1", "geneX", "geneY"], ["G2", "geneY", "geneZ"]]
          emptyDatabase.erase_families = .ok st
        ∧ (∃ G, st.database.ortholog_groups = [G]
            ∧ G.genes.toFinset = {⟨0, "geneX"⟩, ⟨0, "geneY"⟩, ⟨0, "geneZ"⟩})
        ∧ ∀ G ∈ st.database.ortholog_groups, "G2" ∉ G.external_ids := by
  rintro ⟨st, hst, _, hno⟩
  have h : groups_after (add_orthologs xyzGenes
      [["G1", "geneX", "geneY"], ["G2", "geneY", "geneZ"]] emptyDatabase.erase_families)
      = some [⟨1, ["G2", "G1"], [⟨0, "geneX"⟩, ⟨0, "geneY"⟩, ⟨0, "geneZ"⟩]⟩] := by decide
  rw [hst] at h
  simp only [groups_after, Option.some.injEq] at h
  exact hno _ (by rw [h]; exact List.mem_singleton_self _) (by decide)

/-- C2 (amended). After `G1 geneX geneY` the repository holds the group created for G1 with
geneX and geneY; after the second line `G2 geneY geneZ` it holds exactly one group, the one
created for G2, with the genes geneX, geneY, geneZ and the ids G2 and G1: the group created for
G1 was merged into it and no longer exists. -/
theorem add_orthologs_scenario :
    groups_after (add_orthologs xyzGenes [["G1", "geneX", "geneY"]]
        emptyDatabase.erase_families)
      = some [⟨0, ["G1"], [⟨0, "geneX"⟩, ⟨0, "geneY"⟩]⟩]
    ∧ groups_after (add_orthologs xyzGenes
        [["G1", "geneX", "geneY"], ["G2", "geneY", "geneZ"]] emptyDatabase.erase_families)
      = some [⟨1, ["G2", "G1"], [⟨0, "geneX"⟩, ⟨0, "geneY"⟩, ⟨0, "geneZ"⟩]⟩] := by
  constructor <;> decide

/-- C3 (counterexample). It is not the case that every gene referenced by a row ends in exactly
one group: the line `G1 geneX` has fewer than three fields and is skipped, the run succeeds,
geneX is referenced by the table and ends in no group. -/
theorem add_orthologs_short_line_gene_without_group :
    (¬ ∀ st, add_orthologs xyzGenes [["G1", "geneX"]] emptyDatabase.erase_families = .ok st →
        ∀ line ∈ [["G1", "geneX"]], ∀ g ∈ line_genes xyzGenes line.tail,
          (st.database.ortholog_groups.filter (fun G => decide (g ∈ G.genes))).length = 1)
    ∧ (⟨0, "geneX"⟩ : Gene) ∈ line_genes xyzGenes ["geneX"]
    ∧ groups_after (add_orthologs xyzGenes [["G1", "geneX"]] emptyDatabase.erase_families)
        = some []
    ∧ gene_group_after (add_orthologs xyzGenes [["G1", "geneX"]]
        emptyDatabase.erase_families) ⟨0, "geneX"⟩ = some none := by
  have hg : groups_after (add_orthologs xyzGenes [["G1", "geneX"]]
      emptyDatabase.erase_families) = some [] := by decide
  refine ⟨?_, by decide, hg, by decide⟩
  intro hall
  cases h : add_orthologs xyzGenes [["G1", "geneX"]] emptyDatabase.erase_families with
  | error e => rw [h] at hg; simp [groups_after] at hg
  | ok st =>
    rw [h] at hg
    simp only [groups_after, Option.some.injEq] at hg
    have := hall st h ["G1", "geneX"] (by simp) ⟨0, "geneX"⟩ (by decide)
    rw [hg] at this
    simp at this

/-- C3 (amended). After a successful import into a repository whose groups were erased, every
gene named by a gene field of a line with at least three fields is a member of exactly one
group, and its back-reference is that group; no gene is in more than one group and no group
holds a gene twice. -/
theorem add_orthologs_exactly_one_group (get : String → Except Exception GeneVariant)
    (file : List (List String)) (db : Database) (st : OrthologImport)
    (h : add_orthologs get file db.erase_families = .ok st) :
    (∀ line ∈ file, 3 ≤ line.length → ∀ g ∈ line_genes get line.tail,
        (st.database.ortholog_groups.filter (fun G => decide (g ∈ G.genes))).length = 1
        ∧ ∃ G ∈ st.database.ortholog_groups, g ∈ G.genes
            ∧ st.database.gene_group g = some G.handle)
    ∧ (∀ g, (st.database.ortholog_groups.filter (fun G => decide (g ∈ G.genes))).length ≤ 1)
    ∧ (∀ G ∈ st.database.ortholog_groups, G.genes.Nodup) := by
  rw [add_orthologs_eq] at h
  obtain ⟨hI, _, _, hcov⟩ := @ortholog_lines_spec get file
    ⟨db.erase_families, 0, []⟩ st (emptyInv _) h
  exact ⟨fun line hl h3 g hg => hI.one_group (hcov line hl h3 g hg),
    fun g => hI.at_most_one_group g, hI.genes_nodup⟩

theorem add_orthologs_exactly_one_group_witness :
    (∃ st, add_orthologs xyzGenes [["G1", "geneX", "geneY"], ["G2", "geneY", "geneZ"]]
        emptyDatabase.erase_families = .ok st
      ∧ ∀ G ∈ st.database.ortholog_groups, G.genes.Nodup) := by
  cases h : add_orthologs xyzGenes [["G1", "geneX", "geneY"], ["G2", "geneY", "geneZ"]]
      emptyDatabase.erase_families with
  | error e =>
    have h2 : groups_after (add_orthologs xyzGenes
      [["G1", "geneX", "geneY"], ["G2", "geneY", "geneZ"]] emptyDatabase.erase_families)
      ≠ none := by decide
    rw [h] at h2
    exact absurd rfl h2
  | ok st =>
    exact ⟨st, rfl, (add_orthologs_exactly_one_group xyzGenes _ emptyDatabase st h).2.2⟩

/-- C4. For ortholog lines with pairwise distinct group ids and any permutation of them, the
two imports into a repository without groups either both succeed, and then end with the same
partition of the genes into groups (the multiset of the gene sets of the groups), or both
fail; they succeed exactly when no gene lookup of a line that is not skipped raises an error
other than not-found or splice-variant. -/
theorem add_orthologs_order_independent (get : String → Except Exception GeneVariant)
    (l1 l2 : List (List String)) (db : Database) (hperm : l1.Perm l2)
    (hids : (l1.map List.head?).Nodup) :
    ((∀ line ∈ l1, line_ok get line) →
      ∃ st1 st2, add_orthologs get l1 db.erase_families = .ok st1
        ∧ add_orthologs get l2 db.erase_families = .ok st2
        ∧ st1.database.partition = st2.database.partition)
    ∧ (¬ (∀ line ∈ l1, line_ok get line) →
      ∃ e1 e2, add_orthologs get l1 db.erase_families = .error e1
        ∧ add_orthologs get l2 db.erase_families = .error e2) := by
  have hI : (⟨db.erase_families, 0, []⟩ : OrthologImport).database.Inv := emptyInv _
  have hids2 : (l2.map List.head?).Nodup := (hperm.map _).nodup_iff.1 hids
  constructor
  · intro hok
    have hok2 : ∀ line ∈ l2, line_ok get line := fun l hl => hok l (hperm.mem_iff.2 hl)
    obtain ⟨st1, h1⟩ := ortholog_lines_ok get l1 ⟨db.erase_families, 0, []⟩ hI hids
      (by intro G hG; simp [Database.erase_families] at hG) hok
    obtain ⟨st2, h2⟩ := ortholog_lines_ok get l2 ⟨db.erase_families, 0, []⟩ hI hids2
      (by intro G hG; simp [Database.erase_families] at hG) hok2
    refine ⟨st1, st2, h1, h2, ?_⟩
    rw [(ortholog_lines_spec get l1 hI h1).2.1, (ortholog_lines_spec get l2 hI h2).2.1]
    exact abs_lines_perm get hperm _
  · intro hnot
    have e1 : ∃ e, add_orthologs get l1 db.erase_families = .error e := by
      cases h : add_orthologs get l1 db.erase_families with
      | error e => exact ⟨e, rfl⟩
      | ok st => exact absurd (line_ok_of_ortholog_lines get l1 h) hnot
    have e2 : ∃ e, add_orthologs get l2 db.erase_families = .error e := by
      cases h : add_orthologs get l2 db.erase_families with
      | error e => exact ⟨e, rfl⟩
      | ok st =>
        exact absurd (fun l hl => line_ok_of_ortholog_lines get l2 h l (hperm.mem_iff.1 hl)) hnot
    obtain ⟨a, ha⟩ := e1
    obtain ⟨b, hb⟩ := e2
    exact ⟨a, b, ha, hb⟩

theorem field_ok_xyzGenes (name : String) : field_ok xyzGenes name = true := by
  unfold field_ok xyzGenes
  by_cases h : name = "geneX" ∨ name = "geneY" ∨ name = "geneZ"
  · rw [if_pos h]
  · rw [if_neg h]

theorem add_orthologs_order_independent_witness :
    [["G1", "geneX", "geneY"], ["G2", "geneY", "geneZ"]].Perm
        [["G2", "geneY", "geneZ"], ["G1", "geneX", "geneY"]]
    ∧ ∃ st1 st2,
        add_orthologs xyzGenes [["G1", "geneX", "geneY"], ["G2", "geneY", "geneZ"]]
          emptyDatabase.erase_families = .ok st1
        ∧ add_orthologs xyzGenes [["G2", "geneY", "geneZ"], ["G1", "geneX", "geneY"]]
          emptyDatabase.erase_families = .ok st2
        ∧ st1.database.partition = st2.database.partition :=
  ⟨List.Perm.swap _ _ _,
    (add_orthologs_order_independent xyzGenes _ _ emptyDatabase (List.Perm.swap _ _ _)
      (by decide)).1 (fun _ _ _ name _ => field_ok_xyzGenes name)⟩

/-! ## Theorems: gene expression matrix import -/

theorem last_column_iff (j : Int) (size2 : Nat) (hj : -1 ≤ j) (hj2 : j + 1 ≤ size2)
    (hs : size2 < 2 ^ 64) : last_column j size2 = true ↔ j + 1 = size2 := by
  unfold last_column
  rw [decide_eq_true_eq]
  have h64 : (2 : Int) ^ 64 = 18446744073709551616 := by norm_num
  have hs2 : (size2 : Int) < 18446744073709551616 := by
    have : (size2 : Int) < (2 : Int) ^ 64 := by exact_mod_cast hs
    omega
  rw [h64]
  omega

theorem matrix_values_skip (vs : List Double) (st : MatrixImport) (h : st.skip_line = true) :
    matrix_values vs st = .ok st := by
  induction vs with
  | nil => rfl
  | cons v rest ih => simp [matrix_values, on_gene_value, h, ih]

theorem matrix_values_store (vs : List Double) :
    ∀ (st : MatrixImport) (k n : Nat), st.skip_line = false → st.i = k → k < st.gem.size1 →
      st.j = (n : Int) - 1 → n + vs.length ≤ st.gem.size2 →
      ∃ st2, matrix_values vs st = .ok st2
        ∧ st2.i = st.i ∧ st2.j = (n : Int) + vs.length - 1 ∧ st2.skip_line = false
        ∧ st2.cerr = st.cerr
        ∧ st2.gem.size1 = st.gem.size1 ∧ st2.gem.size2 = st.gem.size2
        ∧ st2.gem.gene_to_row = st.gem.gene_to_row ∧ st2.gem.row_to_gene = st.gem.row_to_gene
        ∧ st2.gem.gene_collection = st.gem.gene_collection
        ∧ st2.gem.name = st.gem.name
        ∧ ∀ r c, st2.gem.expression_matrix r c
            = if r = k ∧ n ≤ c ∧ c < n + vs.length then vs[c - n]?
              else st.gem.expression_matrix r c := by
  induction vs with
  | nil =>
    intro st k n _ _ _ hj _
    refine ⟨st, rfl, rfl, by simpa using hj, by assumption, rfl, rfl, rfl, rfl, rfl, rfl, rfl, ?_⟩
    intro r c
    rw [if_neg]
    simp only [List.length_nil]
    omega
  | cons v rest ih =>
    intro st k n hs hi hk hj hlen
    simp only [List.length_cons] at hlen
    have hcond : 0 ≤ st.i ∧ st.i < st.gem.size1 ∧ 0 ≤ st.j + 1 ∧ st.j + 1 < st.gem.size2 := by
      rw [hi, hj]
      refine ⟨by omega, by exact_mod_cast hk, by omega, ?_⟩
      have : (n : Int) < st.gem.size2 := by exact_mod_cast (by omega : n < st.gem.size2)
      omega
    unfold matrix_values on_gene_value
    simp only [hs, Bool.false_eq_true, if_false, hcond, and_self, if_true]
    obtain ⟨st2, h2, hi2, hj2, hs2, hc2, h1, h2', h3, h4, h5, h6, hcells⟩ :=
      ih { st with
            j := st.j + 1
            skip_line := false
            gem := { st.gem with
              expression_matrix := fun r c =>
                if r = st.i.toNat ∧ c = (st.j + 1).toNat then some v
                else st.gem.expression_matrix r c } }
        k (n + 1) rfl hi hk (by simp only [hj]; push_cast; ring) (by simp only; omega)
    refine ⟨st2, h2, hi2, ?_, hs2, hc2, h1, h2', h3, h4, h5, h6, ?_⟩
    · rw [hj2]; push_cast; simp only [List.length_cons]; push_cast; ring
    · intro r c
      rw [hcells]
      simp only [List.length_cons]
      have hik : st.i.toNat = k := by rw [hi]; simp
      have hjn : (st.j + 1).toNat = n := by rw [hj]; simp
      rw [hik, hjn]
      by_cases hr : r = k
      · by_cases hc : c = n
        · subst hc
          simp [hr]
        · by_cases hc2 : n + 1 ≤ c ∧ c < n + 1 + rest.length
          · have e : c - n = (c - (n + 1)) + 1 := by omega
            have hc3 : n ≤ c ∧ c < n + (rest.length + 1) := by omega
            simp only [hr, hc2, hc3, and_self, if_true, true_and]
            rw [e, List.getElem?_cons_succ]
          · have hc3 : ¬ (n ≤ c ∧ c < n + (rest.length + 1)) := by omega
            simp [hr, hc2, hc3, hc]
      · simp [hr]

theorem resolved_rows_append (lookup : String → Option GeneVariant)
    (a b : List (String × List Double)) :
    resolved_rows lookup (a ++ b) = resolved_rows lookup a ++ resolved_rows lookup b := by
  simp [resolved_rows, List.filterMap_append]

theorem resolved_rows_none (lookup : String → Option GeneVariant) (name : String)
    (values : List Double) (h : lookup name = none) :
    resolved_rows lookup [(name, values)] = [] := by
  simp [resolved_rows, h]

theorem resolved_rows_some (lookup : String → Option GeneVariant) (name : String)
    (values : List Double) (v : GeneVariant) (h : lookup name = some v) :
    resolved_rows lookup [(name, values)] = [(v.get_gene, values)] := by
  simp [resolved_rows, h]

theorem reached_initial (lookup : String → Option GeneVariant) (name : String)
    (size1 cols : Nat) :
    Reached lookup size1 cols []
      ⟨{ name := name, gene_collection := none, size1 := size1, size2 := cols,
         expression_matrix := fun _ _ => none, gene_to_row := [], row_to_gene := [] },
        -1, -1, false, []⟩ := by
  refine ⟨rfl, rfl, ?_, ?_, ?_, ?_, ?_, ?_, ?_, ?_⟩ <;>
    simp [resolved_rows, GeneExpressionMatrix.get_gene]

/-- The value of the test at the start of `on_new_gene`. -/
theorem column_test (lookup : String → Option GeneVariant) {size1 cols : Nat}
    {pre : List (String × List Double)} {st : MatrixImport}
    (hR : Reached lookup size1 cols pre st) (hc : cols < 2 ^ 64) :
    (decide (st.i < 0) || last_column st.j st.gem.size2) = true
      ↔ ∀ row, (resolved_rows lookup pre).getLast? = some row → row.2.length = cols := by
  rw [hR.size2_eq]
  cases hl : (resolved_rows lookup pre).getLast? with
  | none =>
    have he : resolved_rows lookup pre = [] := List.getLast?_eq_none_iff.1 hl
    have hi : st.i = -1 := by rw [hR.i_eq, he]; rfl
    simp [hi]
  | some row =>
    have hne : resolved_rows lookup pre ≠ [] := by
      intro he; rw [he] at hl; simp at hl
    have hi : ¬ st.i < 0 := by
      rw [hR.i_eq]
      have : 0 < (resolved_rows lookup pre).length := List.length_pos.2 hne
      omega
    have hj : st.j = (row.2.length : Int) - 1 := by rw [hR.j_eq, hl]; rfl
    have hle : row.2.length ≤ cols := hR.width_le row (List.mem_of_getLast?_eq_some hl)
    have := last_column_iff st.j cols (by omega) (by rw [hj]; omega) hc
    simp only [hi, decide_False, Bool.false_or, this, Option.some.injEq, forall_eq']
    rw [hj]
    omega

theorem step_unresolved (lookup : String → Option GeneVariant) {size1 cols : Nat}
    {pre : List (String × List Double)} {st : MatrixImport} {name : String}
    {values : List Double}
    (hR : Reached lookup size1 cols pre st) (hc : cols < 2 ^ 64)
    (hw : ∀ row, (resolved_rows lookup pre).getLast? = some row → row.2.length = cols)
    (hl : lookup name = none) (hv : values ≠ []) :
    ∃ st2, matrix_row lookup st (name, values) = .ok st2
      ∧ Reached lookup size1 cols (pre ++ [(name, values)]) st2 := by
  have ht := (column_test lookup hR hc).2 hw
  have h1 : on_new_gene lookup st name
      = .ok { st with cerr := st.cerr ++ [Warning.unknown_collection name], skip_line := true } := by
    unfold on_new_gene
    simp only [ht, ensure, if_true, hl]
  refine ⟨{ st with cerr := st.cerr ++ [Warning.unknown_collection name], skip_line := true },
    ?_, ?_⟩
  · unfold matrix_row
    simp only [h1]
    cases values with
    | nil => exact absurd rfl hv
    | cons v rest => exact matrix_values_skip _ _ rfl
  · have he : resolved_rows lookup (pre ++ [(name, values)]) = resolved_rows lookup pre := by
      rw [resolved_rows_append, resolved_rows_none lookup name values hl, List.append_nil]
    exact ⟨hR.size1_eq, hR.size2_eq, by rw [he]; exact hR.i_eq, by rw [he]; exact hR.j_eq,
      by rw [he]; exact hR.width_le, by rw [he]; exact hR.keys, by rw [he]; exact hR.row_keys,
      by rw [he]; exact hR.get_gene, by rw [he]; exact hR.gene_collection,
      by rw [he]; exact hR.cells⟩

theorem find_key_append_new (l : List (Nat × Gene)) (n : Nat) (g : Gene) (k : Nat)
    (hk : ∀ p ∈ l, p.1 < n) :
    ((l.filter (fun p => decide (p.1 ≠ n)) ++ [(n, g)]).find? (fun p => decide (p.1 = k))).map
        (fun p => p.2)
      = if k = n then some g else (l.find? (fun p => decide (p.1 = k))).map (fun p => p.2) := by
  have hf : l.filter (fun p => decide (p.1 ≠ n)) = l := by
    apply List.filter_eq_self.2
    intro p hp
    have := hk p hp
    simp only [ne_eq, decide_not, Bool.not_eq_eq_eq_not, Bool.not_true, decide_eq_false_iff_not]
    omega
  rw [hf, List.find?_append]
  by_cases hkn : k = n
  · subst hkn
    have : l.find? (fun p => decide (p.1 = k)) = none := by
      rw [List.find?_eq_none]
      intro p hp
      have := hk p hp
      simp only [decide_eq_true_eq]
      omega
    simp [this]
  · rw [if_neg hkn]
    cases hfd : l.find? (fun p => decide (p.1 = k)) with
    | some p => simp
    | none =>
      have : ¬ n = k := fun e => hkn e.symm
      simp [this]

theorem on_new_gene_resolved (lookup : String → Option GeneVariant) {size1 cols : Nat}
    {pre : List (String × List Double)} {st : MatrixImport} {name : String} {v : GeneVariant}
    (hR : Reached lookup size1 cols pre st) (hc : cols < 2 ^ 64)
    (hw : ∀ row, (resolved_rows lookup pre).getLast? = some row → row.2.length = cols)
    (hl : lookup name = some v)
    (hfresh : v.get_gene ∉ (resolved_rows lookup pre).map Prod.fst)
    (hcoll : ∀ row ∈ resolved_rows lookup pre, row.1.collection = v.get_gene.collection) :
    ∃ st1, on_new_gene lookup st name = .ok st1
      ∧ st1.i = ((resolved_rows lookup pre).length : Int) ∧ st1.j = -1 ∧ st1.skip_line = false
      ∧ st1.gem.size1 = st.gem.size1 ∧ st1.gem.size2 = st.gem.size2
      ∧ st1.gem.gene_to_row
          = st.gem.gene_to_row ++ [(v.get_gene, (resolved_rows lookup pre).length)]
      ∧ st1.gem.row_to_gene
          = st.gem.row_to_gene.filter
              (fun p => decide (p.1 ≠ (resolved_rows lookup pre).length))
            ++ [((resolved_rows lookup pre).length, v.get_gene)]
      ∧ st1.gem.gene_collection = some v.get_gene.collection
      ∧ st1.gem.expression_matrix = st.gem.expression_matrix := by
  have ht := (column_test lookup hR hc).2 hw
  have hgc : st.gem.gene_collection = none
      ∨ st.gem.gene_collection = some v.get_gene.collection := by
    rw [hR.gene_collection]
    cases hh : (resolved_rows lookup pre).head? with
    | none => exact Or.inl rfl
    | some row =>
      have hm : row ∈ resolved_rows lookup pre := List.mem_of_mem_head? hh
      exact Or.inr (by simp [hcoll row hm])
  have hany : st.gem.gene_to_row.any (fun p => decide (p.1 = v.get_gene)) = false := by
    rw [List.any_eq_false]
    intro p hp
    have : p.1 ∈ st.gem.gene_to_row.map Prod.fst := List.mem_map_of_mem Prod.fst hp
    rw [hR.keys] at this
    simp only [decide_eq_true_eq]
    intro e
    exact hfresh (e ▸ this)
  have hi1 : st.i + 1 = ((resolved_rows lookup pre).length : Int) := by rw [hR.i_eq]; ring
  have htn : (st.i + 1).toNat = (resolved_rows lookup pre).length := by rw [hi1]; simp
  unfold on_new_gene
  rcases hgc with hg | hg
  · simp only [ht, ensure, if_true, hl, hg, decide_True, hany, Bool.not_false, htn]
    exact ⟨_, rfl, hi1, rfl, rfl, rfl, rfl, rfl, rfl, rfl, rfl⟩
  · simp only [ht, ensure, if_true, hl, hg, decide_True, hany, Bool.not_false, htn]
    exact ⟨_, rfl, hi1, rfl, rfl, rfl, rfl, rfl, rfl, rfl, rfl⟩

theorem step_resolved (lookup : String → Option GeneVariant) {size1 cols : Nat}
    {pre : List (String × List Double)} {st : MatrixImport} {name : String}
    {values : List Double} {v : GeneVariant}
    (hR : Reached lookup size1 cols pre st) (hc : cols < 2 ^ 64)
    (hw : ∀ row, (resolved_rows lookup pre).getLast? = some row → row.2.length = cols)
    (hl : lookup name = some v)
    (hfresh : v.get_gene ∉ (resolved_rows lookup pre).map Prod.fst)
    (hcoll : ∀ row ∈ resolved_rows lookup pre, row.1.collection = v.get_gene.collection)
    (hn : (resolved_rows lookup pre).length < size1)
    (hlen : values.length ≤ cols) (hv : values ≠ []) :
    ∃ st2, matrix_row lookup st (name, values) = .ok st2
      ∧ Reached lookup size1 cols (pre ++ [(name, values)]) st2 := by
  obtain ⟨st1, h1, hi1, hj1, hsk1, hz1, hz2, hk1, hrk1, hgc1, hm1⟩ :=
    on_new_gene_resolved lookup hR hc hw hl hfresh hcoll
  obtain ⟨st2, h2, hi2, hj2, _, _, hs1, hs2, hk, hrk, hgcol, _, hcells⟩ :=
    matrix_values_store values st1 (resolved_rows lookup pre).length 0 hsk1 hi1
      (by rw [hz1, hR.size1_eq]; exact hn) (by rw [hj1]; simp)
      (by rw [hz2, hR.size2_eq]; omega)
  rw [hz1] at hs1
  rw [hz2] at hs2
  rw [hi1] at hi2
  rw [hk1] at hk
  rw [hrk1] at hrk
  rw [hgc1] at hgcol
  rw [hm1] at hcells
  refine ⟨st2, ?_, ?_⟩
  · unfold matrix_row
    simp only [h1]
    cases values with
    | nil => exact absurd rfl hv
    | cons x rest => exact h2
  · have he : resolved_rows lookup (pre ++ [(name, values)])
        = resolved_rows lookup pre ++ [(v.get_gene, values)] := by
      rw [resolved_rows_append, resolved_rows_some lookup name values v hl]
    refine ⟨hs1.trans hR.size1_eq, hs2.trans hR.size2_eq, ?_, ?_, ?_, ?_, ?_, ?_, ?_, ?_⟩
    · rw [he, hi2]
      simp only [List.length_append, List.length_singleton]
      push_cast; ring
    · rw [he, hj2, List.getLast?_append]
      simp
    · rw [he]
      intro row hrow
      rcases List.mem_append.1 hrow with h | h
      · exact hR.width_le row h
      · rw [List.mem_singleton] at h
        subst h
        exact hlen
    · rw [he, hk]
      simp only [List.map_append, List.map_cons, List.map_nil]
      rw [hR.keys]
    · rw [he, hrk]
      intro p hp
      simp only [List.length_append, List.length_singleton]
      rcases List.mem_append.1 hp with h | h
      · have := hR.row_keys p (List.mem_of_mem_filter h)
        omega
      · rw [List.mem_singleton] at h
        subst h
        simp
    · intro k
      rw [he]
      unfold GeneExpressionMatrix.get_gene
      rw [hrk, find_key_append_new _ _ _ _ hR.row_keys]
      by_cases hkn : k = (resolved_rows lookup pre).length
      · subst hkn
        simp
      · rw [if_neg hkn]
        have := hR.get_gene k
        unfold GeneExpressionMatrix.get_gene at this
        rw [this]
        by_cases hlt : k < (resolved_rows lookup pre).length
        · rw [List.getElem?_append_left hlt]
        · rw [List.getElem?_eq_none (by omega), List.getElem?_eq_none]
          simp only [List.length_append, List.length_singleton]
          omega
    · rw [he, hgcol]
      cases hh : resolved_rows lookup pre with
      | nil => simp
      | cons a rest =>
        simp only [List.cons_append, List.head?_cons, Option.map_some']
        rw [hcoll a (by rw [hh]; exact List.mem_cons_self _ _)]
    · intro r c
      rw [he, hcells]
      by_cases hr : r = (resolved_rows lookup pre).length
      · subst hr
        by_cases hcc : c < values.length
        · simp [hcc]
        · rw [if_neg (by omega), hR.cells]
          simp only [List.getElem?_eq_none (Nat.le_refl _), Option.none_bind]
          rw [List.getElem?_append_right (Nat.le_refl _)]
          simp
          omega
      · rw [if_neg (by simp [hr]), hR.cells]
        by_cases hlt : r < (resolved_rows lookup pre).length
        · rw [List.getElem?_append_left hlt]
        · rw [List.getElem?_eq_none (by omega), List.getElem?_eq_none]
          simp only [List.length_append, List.length_singleton]
          omega

theorem columns_lt (file : MatrixFile) : file.columns < 2 ^ 64 :=
  Nat.mod_lt _ (by norm_num)

theorem resolved_rows_length_le (lookup : String → Option GeneVariant)
    (rows : List (String × List Double)) : (resolved_rows lookup rows).length ≤ rows.length :=
  List.length_filterMap_le _ _

theorem WellShaped.prefix_ok {lookup : String → Option GeneVariant} {cols : Nat}
    {pre rest : List (String × List Double)} (h : WellShaped lookup cols (pre ++ rest)) :
    WellShaped lookup cols pre := by
  have hsub : ∀ x ∈ resolved_rows lookup pre, x ∈ resolved_rows lookup (pre ++ rest) := by
    intro x hx
    rw [resolved_rows_append]
    exact List.mem_append_left _ hx
  refine ⟨fun row hr => h.values row (List.mem_append_left _ hr),
    fun row hr => h.width row (hsub row hr), ?_,
    fun a ha b hb => h.collection a (hsub a ha) b (hsub b hb)⟩
  have := h.distinct
  rw [resolved_rows_append, List.map_append] at this
  exact (List.nodup_append.1 this).1

theorem matrix_rows_well_shaped (lookup : String → Option GeneVariant) {size1 cols : Nat}
    (hc : cols < 2 ^ 64) (rest : List (String × List Double)) :
    ∀ (pre : List (String × List Double)) (st : MatrixImport),
      Reached lookup size1 cols pre st → WellShaped lookup cols (pre ++ rest) →
      (pre ++ rest).length ≤ size1 →
      ∃ st2, matrix_rows lookup rest st = .ok st2 ∧ Reached lookup size1 cols (pre ++ rest) st2 := by
  induction rest with
  | nil =>
    intro pre st hR _ _
    exact ⟨st, rfl, by rw [List.append_nil]; exact hR⟩
  | cons row rest ih =>
    intro pre st hR hW hlen
    obtain ⟨name, values⟩ := row
    have hsplit : pre ++ (name, values) :: rest = (pre ++ [(name, values)]) ++ rest := by simp
    have hWp : WellShaped lookup cols (pre ++ [(name, values)]) := by
      rw [hsplit] at hW
      exact hW.prefix_ok
    have hWpre : WellShaped lookup cols pre := hWp.prefix_ok
    have hw : ∀ r, (resolved_rows lookup pre).getLast? = some r → r.2.length = cols :=
      fun r hr => hWpre.width r (List.mem_of_getLast?_eq_some hr)
    have hv : values ≠ [] := hWp.values (name, values) (by simp)
    have hstep : ∃ st1, matrix_row lookup st (name, values) = .ok st1
        ∧ Reached lookup size1 cols (pre ++ [(name, values)]) st1 := by
      cases hl : lookup name with
      | none => exact step_unresolved lookup hR hc hw hl hv
      | some v =>
        have he : resolved_rows lookup (pre ++ [(name, values)])
            = resolved_rows lookup pre ++ [(v.get_gene, values)] := by
          rw [resolved_rows_append, resolved_rows_some lookup name values v hl]
        have hmem : (v.get_gene, values) ∈ resolved_rows lookup (pre ++ [(name, values)]) := by
          rw [he]; simp
        have hd := hWp.distinct
        rw [he, List.map_append, List.nodup_append] at hd
        apply step_resolved lookup hR hc hw hl
        · intro hin
          exact hd.2.2 hin (by simp)
        · intro r hr
          exact hWp.collection r (by rw [he]; exact List.mem_append_left _ hr) _ hmem
        · have := resolved_rows_length_le lookup pre
          simp only [List.length_append, List.length_cons] at hlen
          omega
        · exact le_of_eq (hWp.width _ hmem)
        · exact hv
    obtain ⟨st1, h1, hR1⟩ := hstep
    obtain ⟨st2, h2, hR2⟩ := ih (pre ++ [(name, values)]) st1 hR1 (by rw [← hsplit]; exact hW)
      (by rw [← hsplit]; exact hlen)
    refine ⟨st2, ?_, by rw [hsplit]; exact hR2⟩
    unfold matrix_rows
    rw [h1]
    exact h2

theorem matrix_rows_append (lookup : String → Option GeneVariant)
    (a b : List (String × List Double)) :
    ∀ st, matrix_rows lookup (a ++ b) st
      = match matrix_rows lookup a st with
        | .ok st1 => matrix_rows lookup b st1
        | .error e => .error e := by
  induction a with
  | nil => intro st; rfl
  | cons row rest ih =>
    intro st
    simp only [List.cons_append, matrix_rows]
    cases matrix_row lookup st row with
    | error e => rfl
    | ok st1 => exact ih st1

theorem matrix_values_keys (vs : List Double) :
    ∀ st st2, matrix_values vs st = .ok st2 → st2.gem.gene_to_row = st.gem.gene_to_row := by
  induction vs with
  | nil => intro st st2 h; simp only [matrix_values, Except.ok.injEq] at h; rw [h]
  | cons v rest ih =>
    intro st st2 h
    unfold matrix_values at h
    cases h1 : on_gene_value st v with
    | error e => rw [h1] at h; exact Except.noConfusion h
    | ok st1 =>
      rw [h1] at h
      rw [ih st1 st2 h]
      unfold on_gene_value at h1
      split at h1
      · simp only [Except.ok.injEq] at h1; rw [h1]
      · simp only at h1
        split at h1
        · simp only [Except.ok.injEq] at h1; rw [← h1]
        · exact Except.noConfusion h1

/-- A line accepted by `on_new_gene` names no gene that already has a row. -/
theorem on_new_gene_fresh (lookup : String → Option GeneVariant) {st st1 : MatrixImport}
    {name : String} {v : GeneVariant} (hl : lookup name = some v)
    (h : on_new_gene lookup st name = .ok st1) :
    v.get_gene ∉ st.gem.gene_to_row.map Prod.fst
      ∧ st1.gem.gene_to_row.map Prod.fst = st.gem.gene_to_row.map Prod.fst ++ [v.get_gene] := by
  unfold on_new_gene at h
  rw [hl] at h
  simp only [ensure] at h
  split at h
  · exact Except.noConfusion h
  · split at h
    · exact Except.noConfusion h
    · split at h
      · exact Except.noConfusion h
      · rename_i _ _ _ _ _ _ hcr
        simp only [Except.ok.injEq] at h
        subst h
        split at hcr
        · rename_i hany
          refine ⟨?_, by simp⟩
          intro hin
          obtain ⟨p, hp, he⟩ := List.mem_map.1 hin
          have : st.gem.gene_to_row.any (fun p => decide (p.1 = v.get_gene)) = true := by
            rw [List.any_eq_true]
            exact ⟨p, hp, by simpa using he⟩
          simp [this] at hany
        · exact Except.noConfusion hcr

theorem on_new_gene_unresolved_keys (lookup : String → Option GeneVariant)
    {st st1 : MatrixImport} {name : String} (hl : lookup name = none)
    (h : on_new_gene lookup st name = .ok st1) :
    st1.gem.gene_to_row = st.gem.gene_to_row := by
  unfold on_new_gene at h
  rw [hl] at h
  simp only [ensure] at h
  split at h
  · exact Except.noConfusion h
  · simp only [Except.ok.injEq] at h
    subst h
    rfl

theorem matrix_row_keys (lookup : String → Option GeneVariant) {st st2 : MatrixImport}
    {row : String × List Double} (h : matrix_row lookup st row = .ok st2) :
    st2.gem.gene_to_row.map Prod.fst
        = st.gem.gene_to_row.map Prod.fst ++ (resolved_rows lookup [row]).map Prod.fst
      ∧ ∀ v, lookup row.1 = some v → v.get_gene ∉ st.gem.gene_to_row.map Prod.fst := by
  obtain ⟨name, values⟩ := row
  unfold matrix_row at h
  cases h1 : on_new_gene lookup st name with
  | error e => rw [h1] at h; exact Except.noConfusion h
  | ok st1 =>
    rw [h1] at h
    simp only at h
    have hv : matrix_values values st1 = .ok st2 := by
      cases values with
      | nil => exact Except.noConfusion h
      | cons x rest => exact h
    rw [matrix_values_keys values st1 st2 hv]
    cases hl : lookup name with
    | none =>
      rw [on_new_gene_unresolved_keys lookup hl h1, resolved_rows_none lookup name values hl]
      simp
    | some v =>
      obtain ⟨hf, hk⟩ := on_new_gene_fresh lookup hl h1
      rw [hk, resolved_rows_some lookup name values v hl]
      refine ⟨rfl, ?_⟩
      intro v2 hv2
      rw [Option.some.inj hv2] at hf
      exact hf

theorem matrix_rows_keys (lookup : String → Option GeneVariant)
    (rows : List (String × List Double)) :
    ∀ st st2, matrix_rows lookup rows st = .ok st2 →
      st2.gem.gene_to_row.map Prod.fst
        = st.gem.gene_to_row.map Prod.fst ++ (resolved_rows lookup rows).map Prod.fst := by
  induction rows with
  | nil =>
    intro st st2 h
    simp only [matrix_rows, Except.ok.injEq] at h
    subst h
    simp [resolved_rows]
  | cons row rest ih =>
    intro st st2 h
    unfold matrix_rows at h
    cases h1 : matrix_row lookup st row with
    | error e => rw [h1] at h; exact Except.noConfusion h
    | ok st1 =>
      rw [h1] at h
      rw [ih st1 st2 h, (matrix_row_keys lookup h1).1]
      have : resolved_rows lookup (row :: rest)
          = resolved_rows lookup [row] ++ resolved_rows lookup rest := by
        rw [← resolved_rows_append]; rfl
      rw [this, List.map_append, List.append_assoc]

/-- No import succeeds on a file in which a data line resolves to the gene of an earlier data
line. -/
theorem matrix_rows_duplicate_fails (lookup : String → Option GeneVariant)
    (pre post : List (String × List Double)) (dup : String) (values : List Double)
    (v : GeneVariant) (st0 : MatrixImport) (h0 : st0.gem.gene_to_row = [])
    (hl : lookup dup = some v) (hdup : v.get_gene ∈ (resolved_rows lookup pre).map Prod.fst) :
    ∃ e, matrix_rows lookup (pre ++ (dup, values) :: post) st0 = .error e := by
  cases h : matrix_rows lookup (pre ++ (dup, values) :: post) st0 with
  | error e => exact ⟨e, rfl⟩
  | ok st2 =>
    exfalso
    rw [matrix_rows_append] at h
    cases h1 : matrix_rows lookup pre st0 with
    | error e => rw [h1] at h; exact Except.noConfusion h
    | ok st1 =>
      rw [h1] at h
      simp only [matrix_rows] at h
      cases h2 : matrix_row lookup st1 (dup, values) with
      | error e => rw [h2] at h; exact Except.noConfusion h
      | ok st3 =>
        have hk := matrix_rows_keys lookup pre st0 st1 h1
        rw [h0] at hk
        have := (matrix_row_keys lookup h2).2 v hl
        rw [hk] at this
        exact this (by simpa using hdup)

theorem read_initial_keys (name : String) (size1 cols : Nat) :
    (⟨{ name := name, gene_collection := none, size1 := size1, size2 := cols,
         expression_matrix := fun _ _ => none, gene_to_row := [], row_to_gene := [] },
        -1, -1, false, []⟩ : MatrixImport).gem.gene_to_row = [] := rfl

/-- A well shaped file with a line whose name resolves is read without error. -/
theorem read_well_shaped (lookup : String → Option GeneVariant) (name : String)
    (file : MatrixFile) (hhead : file.header_eol = true)
    (hW : WellShaped lookup file.columns file.rows)
    (hlines : file.rows.length ≤ file.newlines) (hne : resolved_rows lookup file.rows ≠ []) :
    ∃ st, read_gene_expression_matrix lookup name file = .ok st
      ∧ Reached lookup file.newlines file.columns file.rows st := by
  have hn0 : ¬ file.header_eol = false := by rw [hhead]; decide
  obtain ⟨st, h, hR⟩ := matrix_rows_well_shaped lookup (columns_lt file) file.rows [] _
    (reached_initial lookup name file.newlines file.columns) (by simpa using hW)
    (by simpa using hlines)
  rw [List.nil_append] at hR
  refine ⟨st, ?_, hR⟩
  unfold read_gene_expression_matrix
  rw [if_neg hn0]
  have hlc : file.line_count - 1 = file.newlines := by simp [MatrixFile.line_count]
  simp only [hlc, h]
  have ht := (column_test lookup hR (columns_lt file)).2
    (fun r hr => hW.width r (List.mem_of_getLast?_eq_some hr))
  have hi : ¬ st.i < 0 := by
    rw [hR.i_eq]
    have := List.length_pos.2 hne
    omega
  simp only [hi, decide_False, Bool.false_or] at ht
  simp [ensure, ht]

theorem read_eq (lookup : String → Option GeneVariant) (name : String) (file : MatrixFile)
    (hhead : file.header_eol = true) :
    read_gene_expression_matrix lookup name file
      = match matrix_rows lookup file.rows (matrix_start name file) with
        | .error e => .error e
        | .ok st =>
          match ensure (last_column st.j st.gem.size2)
              (.incomplete_line (st.j + 1) st.gem.size2) with
          | .error e => .error e
          | .ok _ => .ok st := by
  unfold read_gene_expression_matrix
  rw [if_neg (by rw [hhead]; decide)]
  rfl

theorem add_error_of_rows_error (lookup : String → Option GeneVariant) (name : String)
    (file : MatrixFile) (matrices : List GeneExpressionMatrix)
    (hhead : file.header_eol = true) (e : Exception) (h : matrix_rows lookup file.rows (matrix_start name file) = .error e) :
    add_gene_expression_matrix lookup name file matrices = .error e := by
  unfold add_gene_expression_matrix
  rw [read_eq lookup name file hhead, h]

theorem reached_start (lookup : String → Option GeneVariant) (name : String)
    (file : MatrixFile) :
    Reached lookup file.newlines file.columns [] (matrix_start name file) := by
  have hlc : file.line_count - 1 = file.newlines := by simp [MatrixFile.line_count]
  unfold matrix_start
  rw [hlc]
  exact reached_initial lookup name file.newlines file.columns

/-- The state after a well shaped beginning `pre` of the data lines. -/
theorem reached_prefix (lookup : String → Option GeneVariant) (name : String)
    (file : MatrixFile) (pre : List (String × List Double))
    (hW : WellShaped lookup file.columns pre) (hlen : pre.length ≤ file.newlines) :
    ∃ st1, matrix_rows lookup pre (matrix_start name file) = .ok st1
      ∧ Reached lookup file.newlines file.columns pre st1 := by
  have := matrix_rows_well_shaped lookup (columns_lt file) pre [] _
    (reached_start lookup name file) (by simpa using hW) (by simpa using hlen)
  simpa using this

/-- C8. For a well shaped file (every data line has a value, the lines whose name resolves have
exactly the header-derived number of values and resolve to pairwise different genes of one
collection) with at least one resolving line, the import succeeds and registers a matrix in
which row `k` belongs to the gene of the `k`-th resolving line and holds its values in column
order; lines whose name does not resolve store nothing, wherever they stand. -/
theorem add_gene_expression_matrix_rows_in_order (lookup : String → Option GeneVariant)
    (name : String) (file : MatrixFile) (matrices : List GeneExpressionMatrix)
    (hhead : file.header_eol = true) (hW : WellShaped lookup file.columns file.rows)
    (hlines : file.rows.length ≤ file.newlines)
    (hne : resolved_rows lookup file.rows ≠ []) :
    ∃ gem, add_gene_expression_matrix lookup name file matrices = .ok (matrices ++ [gem])
      ∧ (∀ k, gem.get_gene k = ((resolved_rows lookup file.rows)[k]?).map Prod.fst)
      ∧ (∀ r c, gem.expression_matrix r c
          = ((resolved_rows lookup file.rows)[r]?).bind (fun row => row.2[c]?)) := by
  obtain ⟨st, h, hR⟩ := read_well_shaped lookup name file hhead hW hlines hne
  refine ⟨st.gem, ?_, hR.get_gene, hR.cells⟩
  unfold add_gene_expression_matrix
  rw [h]
  simp only
  have hgc := hR.gene_collection
  cases hh : resolved_rows lookup file.rows with
  | nil => exact absurd hh hne
  | cons a rest =>
    rw [hh] at hgc
    simp only [List.head?_cons, Option.map_some'] at hgc
    rw [hgc]

/-- C7 (amended). A file in which a data line resolves to the gene of an earlier data line is
rejected: the call fails and registers no matrix. When the header line ends in a line
terminator, the lines before the repeated one are well shaped and the file has no more data
lines than line feeds, the exception is the one with the message "Duplicate gene: name" for the
name of the repeated line. -/
theorem add_gene_expression_matrix_duplicate_gene (lookup : String → Option GeneVariant)
    (name : String) (file : MatrixFile) (matrices : List GeneExpressionMatrix)
    (pre post : List (String × List Double)) (dup : String) (values : List Double)
    (v : GeneVariant) (hrows : file.rows = pre ++ (dup, values) :: post)
    (hl : lookup dup = some v) (hdup : v.get_gene ∈ (resolved_rows lookup pre).map Prod.fst) :
    (∃ e, add_gene_expression_matrix lookup name file matrices = .error e)
    ∧ registered_after matrices (add_gene_expression_matrix lookup name file matrices)
        = matrices
    ∧ (file.header_eol = true → WellShaped lookup file.columns pre →
        file.rows.length ≤ file.newlines →
        add_gene_expression_matrix lookup name file matrices
          = .error (.typed .GENERIC (.duplicate_gene dup))) := by
  have herr : ∃ e, add_gene_expression_matrix lookup name file matrices = .error e := by
    unfold add_gene_expression_matrix read_gene_expression_matrix
    by_cases hn0 : file.header_eol = false
    · rw [if_pos hn0]
      exact ⟨_, rfl⟩
    · rw [if_neg hn0]
      obtain ⟨e, he⟩ := matrix_rows_duplicate_fails lookup pre post dup values v
        (matrix_start name file) rfl hl hdup
      rw [← hrows] at he
      unfold matrix_start at he
      simp only [he]
      exact ⟨_, rfl⟩
  refine ⟨herr, ?_, ?_⟩
  · obtain ⟨e, he⟩ := herr
    rw [he]
    rfl
  · intro hhead hW hlines
    have hlen : pre.length ≤ file.newlines := by
      rw [hrows] at hlines
      simp only [List.length_append, List.length_cons] at hlines
      omega
    obtain ⟨st1, h1, hR⟩ := reached_prefix lookup name file pre hW hlen
    apply add_error_of_rows_error lookup name file matrices hhead
    rw [hrows, matrix_rows_append, h1]
    simp only [matrix_rows, matrix_row]
    have ht := (column_test lookup hR (columns_lt file)).2
      (fun r hr => hW.width r (List.mem_of_getLast?_eq_some hr))
    obtain ⟨row, hrow, hg⟩ := List.mem_map.1 hdup
    have hany : st1.gem.gene_to_row.any (fun p => decide (p.1 = v.get_gene)) = true := by
      rw [List.any_eq_true]
      have : v.get_gene ∈ st1.gem.gene_to_row.map Prod.fst := by rw [hR.keys]; exact hdup
      obtain ⟨p, hp, he⟩ := List.mem_map.1 this
      exact ⟨p, hp, by simpa using he⟩
    have hgc : st1.gem.gene_collection = some v.get_gene.collection := by
      rw [hR.gene_collection]
      cases hh : (resolved_rows lookup pre).head? with
      | none =>
        rw [List.head?_eq_none_iff] at hh
        rw [hh] at hrow
        simp at hrow
      | some a =>
        have ha : a ∈ resolved_rows lookup pre := List.mem_of_mem_head? hh
        simp only [Option.map_some', Option.some.injEq]
        rw [hW.collection a ha row hrow, hg]
    have hon : on_new_gene lookup st1 dup
        = .error (.typed .GENERIC (.duplicate_gene dup)) := by
      unfold on_new_gene
      simp only [ht, ensure, if_true, hl, hgc, decide_True, hany, Bool.not_true,
        Bool.false_eq_true, if_false]
    rw [hon]

theorem eq_error_of {α : Type} {r : Except Exception α} {e : Exception}
    (h : error_of r = some e) : r = .error e := by
  cases r with
  | error e2 => simp only [error_of, Option.some.injEq] at h; rw [h]
  | ok a => simp [error_of] at h

/-- C6 (failing input). A well shaped file with three data lines, the first of which has an
unknown name and is skipped, is read into a matrix with three rows, two entries in
`gene_to_row`, and no gene for the third row. The same happens for a well shaped file with two
data lines and a final line terminator behind which the grammar reads no further line. -/
theorem matrix_row_without_gene :
    (registered_after [] (add_gene_expression_matrix abcGenes "m" skippedRowFile [])).map
        GeneExpressionMatrix.shape
      = [(3, 2, 2, [some ⟨0, "geneA"⟩, some ⟨0, "geneB"⟩, none])]
    ∧ (registered_after [] (add_gene_expression_matrix abcGenes "m" trailingNewlineFile [])).map
        GeneExpressionMatrix.shape
      = [(3, 2, 2, [some ⟨0, "geneA"⟩, some ⟨0, "geneB"⟩, none])] := by
  constructor <;> decide

/-- C7 (counterexample). In the two column file with the data lines `geneA 1` and
`geneA.1 3 4` both names resolve to geneA, and the call fails with "Line 2 (1-based, header
included): expected 2 columns, got 1", the exception of the column test that `on_new_gene` runs
on the second line before it looks at the gene: no "Duplicate gene" exception is raised. -/
theorem duplicate_after_short_row_reports_columns :
    shortThenDuplicateFile.rows = [("geneA", [some 1]), ("geneA.1", [some 3, some 4])]
    ∧ (abcGenes "geneA").map GeneVariant.get_gene = some ⟨0, "geneA"⟩
    ∧ (abcGenes "geneA.1").map GeneVariant.get_gene = some ⟨0, "geneA"⟩
    ∧ add_gene_expression_matrix abcGenes "m" shortThenDuplicateFile []
        = .error (.typed .GENERIC (.column_count 2 2 1))
    ∧ ¬ ∃ name, add_gene_expression_matrix abcGenes "m" shortThenDuplicateFile []
        = .error (.typed .GENERIC (.duplicate_gene name)) := by
  have h : add_gene_expression_matrix abcGenes "m" shortThenDuplicateFile []
      = .error (.typed .GENERIC (.column_count 2 2 1)) := eq_error_of (by decide)
  refine ⟨rfl, by decide, by decide, h, ?_⟩
  rintro ⟨name, hn⟩
  rw [h] at hn
  simp at hn

theorem add_gene_expression_matrix_duplicate_gene_witness :
    duplicateFile.rows = [("geneA", [some 1, some 2])] ++ ("geneA.1", [some 3, some 4]) :: []
    ∧ add_gene_expression_matrix abcGenes "m" duplicateFile []
        = .error (.typed .GENERIC (.duplicate_gene "geneA.1")) :=
  ⟨rfl, (add_gene_expression_matrix_duplicate_gene abcGenes "m" duplicateFile []
      [("geneA", [some 1, some 2])] [] "geneA.1" [some 3, some 4]
      (.splice_variant ⟨0, "geneA"⟩ "geneA.1") rfl (by decide) (by decide)).2.2 rfl
      ⟨by decide, by decide, by decide, by decide⟩ (by decide)⟩

theorem add_gene_expression_matrix_rows_in_order_witness :
    resolved_rows abcGenes skippedRowFile.rows
      = [(⟨0, "geneA"⟩, [some 1, some 2]), (⟨0, "geneB"⟩, [some 3, some 4])]
    ∧ ∃ gem, add_gene_expression_matrix abcGenes "m" skippedRowFile [] = .ok ([] ++ [gem])
      ∧ (∀ k, gem.get_gene k = ((resolved_rows abcGenes skippedRowFile.rows)[k]?).map Prod.fst)
      ∧ (∀ r c, gem.expression_matrix r c
          = ((resolved_rows abcGenes skippedRowFile.rows)[r]?).bind (fun row => row.2[c]?)) :=
  ⟨by decide, add_gene_expression_matrix_rows_in_order abcGenes "m" skippedRowFile [] rfl
      ⟨by decide, by decide, by decide, by decide⟩ (by decide) (by decide)⟩

/-! ## Theorems: clustering import -/

theorem clustersOf_nil : ClustersOf [] [] := ⟨by simp, by simp, by simp⟩

theorem clustersOf_add {asg : List (Gene × String)} {clusters : List Cluster}
    (h : ClustersOf asg clusters) (g : Gene) (cn : String) :
    ClustersOf (asg ++ [(g, cn)]) (add_to_cluster clusters cn g) := by
  unfold add_to_cluster
  by_cases hany : clusters.any (fun cluster => decide (cluster.name = cn)) = true
  · rw [if_pos hany]
    rw [List.any_eq_true] at hany
    obtain ⟨cl0, hcl0, hname0⟩ := hany
    simp only [decide_eq_true_eq] at hname0
    have hadd_name : ∀ cl : Cluster, (cl.add g).name = cl.name := by
      intro cl; unfold Cluster.add; split <;> rfl
    have hadd_mem : ∀ (cl : Cluster) x, x ∈ (cl.add g).genes ↔ x ∈ cl.genes ∨ x = g := by
      intro cl x
      unfold Cluster.add
      split
      · rename_i hin
        constructor
        · exact fun hx => Or.inl hx
        · rintro (hx | hx)
          · exact hx
          · rw [hx]; exact hin
      · simp
    have hmap_name : (clusters.map (fun cluster =>
        if cluster.name = cn then cluster.add g else cluster)).map (fun cl => cl.name)
        = clusters.map (fun cl => cl.name) := by
      rw [List.map_map]
      apply List.map_congr_left
      intro cl _
      simp only [Function.comp_apply]
      split
      · exact hadd_name cl
      · rfl
    refine ⟨by rw [hmap_name]; exact h.names, ?_, ?_⟩
    · intro cl hcl
      obtain ⟨cl1, hcl1, he⟩ := List.mem_map.1 hcl
      subst he
      split
      · unfold Cluster.add
        split
        · exact h.genes cl1 hcl1
        · rename_i hnin
          rw [List.nodup_append]
          refine ⟨h.genes cl1 hcl1, List.nodup_singleton g, ?_⟩
          intro a ha hb
          rw [List.mem_singleton] at hb
          subst hb
          exact hnin ha
      · exact h.genes cl1 hcl1
    · intro x cn2
      rw [List.mem_append, List.mem_singleton, ← h.members x cn2]
      constructor
      · rintro ⟨cl, hcl, hn, hx⟩
        obtain ⟨cl1, hcl1, he⟩ := List.mem_map.1 hcl
        subst he
        by_cases hc : cl1.name = cn
        · rw [if_pos hc] at hn hx
          rw [hadd_name] at hn
          rcases (hadd_mem cl1 x).1 hx with hx1 | hx1
          · exact Or.inl ⟨cl1, hcl1, hn, hx1⟩
          · right
            rw [hx1, ← hn, hc]
        · rw [if_neg hc] at hn hx
          exact Or.inl ⟨cl1, hcl1, hn, hx⟩
      · rintro (⟨cl, hcl, hn, hx⟩ | he)
        · refine ⟨_, List.mem_map_of_mem _ hcl, ?_, ?_⟩
          · split
            · rw [hadd_name]; exact hn
            · exact hn
          · split
            · exact (hadd_mem cl x).2 (Or.inl hx)
            · exact hx
        · simp only [Prod.mk.injEq] at he
          obtain ⟨hx, hc⟩ := he
          subst hx; subst hc
          refine ⟨_, List.mem_map_of_mem _ hcl0, ?_, ?_⟩
          · rw [if_pos hname0, hadd_name]; exact hname0
          · rw [if_pos hname0]; exact (hadd_mem cl0 x).2 (Or.inr rfl)
  · rw [if_neg hany]
    have hno : ∀ cl ∈ clusters, cl.name ≠ cn := by
      intro cl hcl he
      apply hany
      rw [List.any_eq_true]
      exact ⟨cl, hcl, by simpa using he⟩
    have hnew : Cluster.add ⟨cn, []⟩ g = ⟨cn, [g]⟩ := by
      simp [Cluster.add]
    rw [hnew]
    refine ⟨?_, ?_, ?_⟩
    · rw [List.map_append, List.nodup_append]
      refine ⟨h.names, by simp, ?_⟩
      intro a ha hb
      simp only [List.map_cons, List.map_nil, List.mem_singleton] at hb
      obtain ⟨cl, hcl, he⟩ := List.mem_map.1 ha
      exact hno cl hcl (he.trans hb)
    · intro cl hcl
      rcases List.mem_append.1 hcl with h1 | h1
      · exact h.genes cl h1
      · rw [List.mem_singleton] at h1
        subst h1
        simp
    · intro x cn2
      rw [List.mem_append, List.mem_singleton, ← h.members x cn2]
      constructor
      · rintro ⟨cl, hcl, hn, hx⟩
        rcases List.mem_append.1 hcl with h1 | h1
        · exact Or.inl ⟨cl, h1, hn, hx⟩
        · rw [List.mem_singleton] at h1
          subst h1
          simp only [List.mem_singleton] at hx
          simp only at hn
          right
          rw [hx, hn]
      · rintro (⟨cl, hcl, hn, hx⟩ | he)
        · exact ⟨cl, List.mem_append_left _ hcl, hn, hx⟩
        · simp only [Prod.mk.injEq] at he
          obtain ⟨hx, hc⟩ := he
          subst hx; subst hc
          exact ⟨⟨cn2, [x]⟩, by simp, rfl, by simp⟩

theorem clustersOf_load (asg : List (Gene × String)) :
    ∀ (pre : List (Gene × String)) (clusters : List Cluster), ClustersOf pre clusters →
      ClustersOf (pre ++ asg) (load_clusters asg clusters) := by
  induction asg with
  | nil => intro pre clusters h; simpa [load_clusters] using h
  | cons p rest ih =>
    intro pre clusters h
    have := ih (pre ++ [p]) _ (clustersOf_add h p.1 p.2)
    simpa [load_clusters] using this

theorem unique_keep_length_le {α : Type} (eq : α → α → Bool) (xs : List α) :
    ∀ last, (unique_keep eq last xs).length ≤ xs.length := by
  induction xs with
  | nil => intro last; simp [unique_keep]
  | cons x rest ih =>
    intro last
    unfold unique_keep
    split
    · have := ih last
      simp only [List.length_cons]
      omega
    · have := ih x
      simp only [List.length_cons]
      omega

theorem unique_keep_length_eq_iff {α : Type} (eq : α → α → Bool) (xs : List α) :
    ∀ last, (unique_keep eq last xs).length = xs.length
      ↔ List.Chain (fun a b => eq a b = false) last xs := by
  induction xs with
  | nil => intro last; simp [unique_keep]
  | cons x rest ih =>
    intro last
    unfold unique_keep
    rw [List.chain_cons]
    by_cases h : eq last x = true
    · rw [if_pos h]
      have := unique_keep_length_le eq rest last
      simp only [List.length_cons, h, Bool.true_eq_false, false_and, iff_false]
      omega
    · rw [if_neg h]
      simp only [List.length_cons, Nat.add_right_cancel_iff, ih x]
      simp only [Bool.not_eq_true] at h
      simp [h]

theorem std_unique_snd_eq_iff {α : Type} (eq : α → α → Bool) (range : List α) :
    (std_unique eq range).2 = range.length
      ↔ List.Chain' (fun a b => eq a b = false) range := by
  cases range with
  | nil => simp [std_unique]
  | cons x rest =>
    simp only [std_unique, List.length_cons, Nat.add_right_cancel_iff, List.Chain']
    exact unique_keep_length_eq_iff eq rest x

theorem genes_lt_false_iff (a b : Gene) :
    genes_lt b a = false ↔ a.name.toList ≤ b.name.toList := by
  unfold genes_lt
  rw [decide_eq_false_iff_not, not_lt]

theorem name_toList_lt (a b : Gene) (hle : a.name.toList ≤ b.name.toList)
    (hne : genes_eq a b = false) : a.name.toList < b.name.toList := by
  apply lt_of_le_of_ne hle
  intro e
  unfold genes_eq at hne
  rw [decide_eq_false_iff_not] at hne
  exact hne (String.ext e)

theorem pairwise_lt_of_sorted (l : List Gene)
    (hs : l.Pairwise (fun a b => genes_lt b a = false))
    (hc : l.Chain' (fun a b => genes_eq a b = false)) :
    l.Pairwise (fun a b => a.name.toList < b.name.toList) := by
  induction l with
  | nil => exact List.Pairwise.nil
  | cons a rest ih =>
    rw [List.pairwise_cons] at hs ⊢
    rw [List.chain'_cons'] at hc
    have ihr := ih hs.2 hc.2
    refine ⟨?_, ihr⟩
    cases rest with
    | nil => intro b hb; simp at hb
    | cons y rest2 =>
      have hay : a.name.toList < y.name.toList :=
        name_toList_lt a y ((genes_lt_false_iff a y).1 (hs.1 y (List.mem_cons_self _ _)))
          (hc.1 y (by simp))
      intro b hb
      rcases List.mem_cons.1 hb with e | e
      · rw [e]; exact hay
      · exact lt_trans hay ((List.pairwise_cons.1 ihr).1 b e)

/-- In a list of genes of one collection that is sorted by name, no two neighbours have the same
name exactly when no gene occurs twice. -/
theorem chain_genes_eq_iff_nodup (l : List Gene) (c : Nat)
    (hcol : ∀ g ∈ l, g.collection = c)
    (hs : l.Pairwise (fun a b => genes_lt b a = false)) :
    l.Chain' (fun a b => genes_eq a b = false) ↔ l.Nodup := by
  constructor
  · intro hc
    have := pairwise_lt_of_sorted l hs hc
    exact this.imp (fun {a b} hlt e => by rw [e] at hlt; exact lt_irrefl _ hlt)
  · intro hnd
    apply List.Pairwise.chain'
    have hp : l.Pairwise (fun a b => a ≠ b) := hnd
    apply hp.imp_of_mem
    intro a b ha hb hne
    unfold genes_eq
    rw [decide_eq_false_iff_not]
    intro e
    apply hne
    cases a with
    | mk ca na =>
      cases b with
      | mk cb nb =>
        have h1 := hcol _ ha
        have h2 := hcol _ hb
        simp only at h1 h2 e
        rw [h1, h2, e]

theorem sort_genes_perm (l : List Gene) : (sort_genes l).Perm l :=
  List.perm_insertionSort _ l

theorem sort_genes_sorted (l : List Gene) :
    (sort_genes l).Pairwise (fun a b => genes_lt b a = false) := by
  have htot : IsTotal Gene (fun a b => genes_lt b a = false) :=
    ⟨fun a b => by
      rw [genes_lt_false_iff, genes_lt_false_iff]
      exact le_total _ _⟩
  have htr : IsTrans Gene (fun a b => genes_lt b a = false) :=
    ⟨fun a b c h1 h2 => by
      rw [genes_lt_false_iff] at h1 h2 ⊢
      exact le_trans h1 h2⟩
  exact @List.sorted_insertionSort Gene (fun a b => genes_lt b a = false) _ htot htr l

/-- The uniqueness check passes exactly when no gene is a member of two clusters. -/
theorem check_uniqueness_ok_iff (clusters : List Cluster) (c : Nat)
    (hcol : ∀ cl ∈ clusters, ∀ g ∈ cl.genes, g.collection = c) :
    check_uniqueness clusters = .ok ()
      ↔ (clusters.flatMap (fun cluster => cluster.genes)).Nodup := by
  have hcol2 : ∀ g ∈ sort_genes (clusters.flatMap (fun cluster => cluster.genes)),
      g.collection = c := by
    intro g hg
    have := (sort_genes_perm _).mem_iff.1 hg
    obtain ⟨cl, hcl, hgc⟩ := List.mem_flatMap.1 this
    exact hcol cl hcl g hgc
  rw [← (sort_genes_perm _).nodup_iff,
    ← chain_genes_eq_iff_nodup _ c hcol2 (sort_genes_sorted _), ← std_unique_snd_eq_iff]
  unfold check_uniqueness
  simp only
  constructor
  · intro h
    by_contra hne
    rw [if_pos (fun e => hne e.symm)] at h
    exact Except.noConfusion h
  · intro h
    rw [if_neg (by rw [h]; simp)]

theorem check_uniqueness_error (clusters : List Cluster)
    (h : check_uniqueness clusters ≠ .ok ()) :
    ∃ names, check_uniqueness clusters
      = .error (.typed .GENERIC (.clustering_duplicates names)) := by
  unfold check_uniqueness at h ⊢
  simp only at h ⊢
  split
  · exact ⟨_, rfl⟩
  · rename_i hc
    rw [if_neg hc] at h
    exact absurd rfl h

theorem assignments_cons_resolved (lookup : String → Option GeneVariant)
    (gname cname : String) (rest : List String) (v : GeneVariant) (lines : List (List String))
    (hl : lookup gname = some v) :
    assignments lookup ((gname :: cname :: rest) :: lines)
      = (v.get_gene, cname) :: assignments lookup lines := by
  simp [assignments, hl]

theorem cluster_items_resolved (lookup : String → Option GeneVariant) (c : Nat)
    (lines : List (List String)) :
    ∀ st : ClusteringImport,
      (st.gene_collection = none ∨ st.gene_collection = some c) →
      (∀ line ∈ lines, ∃ gname cname rest v, line = gname :: cname :: rest
        ∧ lookup gname = some v ∧ v.get_gene.collection = c) →
      cluster_items lookup lines st
        = .ok ⟨if lines = [] then st.gene_collection else some c,
            load_clusters (assignments lookup lines) st.clusters, st.cerr⟩ := by
  induction lines with
  | nil =>
    intro st _ _
    simp [cluster_items, assignments, load_clusters]
  | cons line rest ih =>
    intro st hgc hall
    obtain ⟨gname, cname, more, v, hline, hl, hv⟩ := hall line (List.mem_cons_self _ _)
    subst hline
    have hstep : on_cluster_item lookup st (gname :: cname :: more)
        = .ok { st with
                gene_collection := some c
                clusters := add_to_cluster st.clusters cname v.get_gene } := by
      unfold on_cluster_item
      simp only [List.get?_cons_zero, hl, List.get?_cons_succ, GeneVariant.get_gene_collection,
        hv]
      rcases hgc with h | h
      · simp [h]
      · simp [h, ensure]
    unfold cluster_items
    rw [hstep]
    simp only
    rw [ih _ (Or.inr rfl) (fun l hl2 => hall l (List.mem_cons_of_mem _ hl2)),
      assignments_cons_resolved lookup gname cname more v rest hl]
    simp only [load_clusters, List.foldl_cons, reduceCtorEq, if_false]
    congr 2
    by_cases hr : rest = []
    · simp [hr]
    · simp [hr]

theorem nodup_all_genes_iff {asg : List (Gene × String)} {clusters : List Cluster}
    (h : ClustersOf asg clusters) :
    (clusters.flatMap (fun cluster => cluster.genes)).Nodup
      ↔ ∀ g cn1 cn2, (g, cn1) ∈ asg → (g, cn2) ∈ asg → cn1 = cn2 := by
  rw [List.nodup_flatMap]
  constructor
  · rintro ⟨_, hpw⟩ g cn1 cn2 h1 h2
    obtain ⟨cl1, hcl1, hn1, hg1⟩ := (h.members g cn1).2 h1
    obtain ⟨cl2, hcl2, hn2, hg2⟩ := (h.members g cn2).2 h2
    by_contra hne
    have hcl : cl1 ≠ cl2 := by
      intro e
      apply hne
      rw [← hn1, ← hn2, e]
    have hsym : Symmetric (fun a b : Cluster => List.Disjoint a.genes b.genes) :=
      fun a b hab => hab.symm
    have := hpw.forall hsym hcl1 hcl2 hcl
    exact this hg1 hg2
  · intro hsingle
    refine ⟨h.genes, ?_⟩
    have hp : clusters.Pairwise (fun a b => a.name ≠ b.name) := by
      have := h.names
      rw [List.Nodup, List.pairwise_map] at this
      exact this
    apply hp.imp_of_mem
    intro a b ha hb hne g hga hgb
    apply hne
    exact hsingle g a.name b.name ((h.members g a.name).1 ⟨a, ha, rfl, hga⟩)
      ((h.members g b.name).1 ⟨b, hb, rfl, hgb⟩)

theorem filter_length_one_of_unique {α : Type} (L : List α) (p : α → Bool) (hnd : L.Nodup)
    (a : α) (ha : a ∈ L) (hp : p a = true) (huniq : ∀ b ∈ L, p b = true → b = a) :
    (L.filter p).length = 1 := by
  induction L with
  | nil => simp at ha
  | cons x rest ih =>
    rw [List.nodup_cons] at hnd
    by_cases hx : p x = true
    · have hxa : x = a := huniq x (List.mem_cons_self _ _) hx
      subst hxa
      have hrest : rest.filter p = [] := by
        rw [List.filter_eq_nil_iff]
        intro b hb hpb
        have := huniq b (List.mem_cons_of_mem _ hb) hpb
        subst this
        exact hnd.1 hb
      rw [List.filter_cons_of_pos hx, hrest]
      rfl
    · rw [List.filter_cons_of_neg hx]
      rcases List.mem_cons.1 ha with e | e
      · subst e; exact absurd hp hx
      · exact ih hnd.2 e (fun b hb => huniq b (List.mem_cons_of_mem _ hb))

theorem assignments_collection (lookup : String → Option GeneVariant) (c : Nat)
    (file : List (List String))
    (hfile : ∀ line ∈ file, ∃ gname cname rest v, line = gname :: cname :: rest
      ∧ lookup gname = some v ∧ v.get_gene.collection = c)
    (g : Gene) (cn : String) (h : (g, cn) ∈ assignments lookup file) : g.collection = c := by
  unfold assignments at h
  obtain ⟨line, hline, he⟩ := List.mem_filterMap.1 h
  obtain ⟨gname, cname, rest, v, hl, hv, hc⟩ := hfile line hline
  subst hl
  simp only [hv, Option.map_some', Option.some.injEq, Prod.mk.injEq] at he
  rw [← he.1]
  exact hc

/-- C9 (amended). For a clustering file with at least one line, in which every line has a gene name and
a cluster name and the gene names resolve within one gene collection: if some gene is assigned
to two different cluster names, `add_clustering` fails with the "Clustering contains some genes
more than once" exception and registers no clustering; if every gene is assigned to a single
cluster name (and the expression matrix name, if one is given, is known to the collection) it
succeeds and registers a clustering in which every gene of the file is a member of exactly one
cluster, the one of its cluster name. -/
theorem add_clustering_multiply_clustered (lookup : String → Option GeneVariant)
    (get_matrix : Nat → String → Except Exception String) (name : String)
    (file : List (List String)) (expression_matrix_name : String)
    (clusterings : List Clustering) (c : Nat)
    (hfile : ∀ line ∈ file, ∃ gname cname rest v, line = gname :: cname :: rest
      ∧ lookup gname = some v ∧ v.get_gene.collection = c)
    (hne : file ≠ []) :
    ((∃ g cn1 cn2, (g, cn1) ∈ assignments lookup file ∧ (g, cn2) ∈ assignments lookup file
        ∧ cn1 ≠ cn2) →
      (∃ names, add_clustering lookup get_matrix name file expression_matrix_name clusterings
          = .error (.typed .GENERIC (.clustering_duplicates names)))
      ∧ clusterings_after clusterings
          (add_clustering lookup get_matrix name file expression_matrix_name clusterings)
          = clusterings)
    ∧ ((∀ g cn1 cn2, (g, cn1) ∈ assignments lookup file → (g, cn2) ∈ assignments lookup file
        → cn1 = cn2) →
      (expression_matrix_name = "" ∨ ∃ m, get_matrix c expression_matrix_name = .ok m) →
      ∃ clustering,
        add_clustering lookup get_matrix name file expression_matrix_name clusterings
          = .ok (clusterings ++ [clustering])
        ∧ ∀ g cn, (g, cn) ∈ assignments lookup file →
            (clustering.clusters.filter (fun cl => decide (g ∈ cl.genes))).length = 1
            ∧ ∃ cl ∈ clustering.clusters, cl.name = cn ∧ g ∈ cl.genes) := by
  have hitems := cluster_items_resolved lookup c file ⟨none, [], []⟩ (Or.inl rfl) hfile
  rw [if_neg hne] at hitems
  have hCl : ClustersOf (assignments lookup file)
      (load_clusters (assignments lookup file) []) := by
    simpa using clustersOf_load (assignments lookup file) [] [] clustersOf_nil
  have hcol : ∀ cl ∈ load_clusters (assignments lookup file) [], ∀ g ∈ cl.genes,
      g.collection = c := by
    intro cl hcl g hg
    exact assignments_collection lookup c file hfile g cl.name
      ((hCl.members g cl.name).1 ⟨cl, hcl, rfl, hg⟩)
  have hiff := (check_uniqueness_ok_iff _ c hcol).trans (nodup_all_genes_iff hCl)
  constructor
  · rintro ⟨g, cn1, cn2, h1, h2, hne12⟩
    have hnot : check_uniqueness (load_clusters (assignments lookup file) []) ≠ .ok () := by
      intro hok
      exact hne12 (hiff.1 hok g cn1 cn2 h1 h2)
    obtain ⟨names, hnames⟩ := check_uniqueness_error _ hnot
    have hres : add_clustering lookup get_matrix name file expression_matrix_name clusterings
        = .error (.typed .GENERIC (.clustering_duplicates names)) := by
      unfold add_clustering
      rw [hitems]
      simp only [hnames]
    exact ⟨⟨names, hres⟩, by rw [hres]; rfl⟩
  · intro hsingle hm
    have hok := hiff.2 hsingle
    have hmem : ∀ g cn, (g, cn) ∈ assignments lookup file →
        ((load_clusters (assignments lookup file) []).filter
            (fun cl => decide (g ∈ cl.genes))).length = 1
        ∧ ∃ cl ∈ load_clusters (assignments lookup file) [], cl.name = cn ∧ g ∈ cl.genes := by
      intro g cn hg
      obtain ⟨cl, hcl, hn, hgc⟩ := (hCl.members g cn).2 hg
      refine ⟨?_, cl, hcl, hn, hgc⟩
      apply filter_length_one_of_unique _ _ (List.Nodup.of_map _ hCl.names) cl hcl
        (by simpa using hgc)
      intro b hb hpb
      have hgb : g ∈ b.genes := by simpa using hpb
      have e := hsingle g b.name cn ((hCl.members g b.name).1 ⟨b, hb, rfl, hgb⟩) hg
      exact List.inj_on_of_nodup_map hCl.names hb hcl (e.trans hn.symm)
    rcases hm with hm | ⟨m, hm⟩
    · refine ⟨⟨name, some c, none, load_clusters (assignments lookup file) []⟩, ?_, hmem⟩
      unfold add_clustering
      rw [hitems]
      simp only [hok, hm, ne_eq, not_true_eq_false, if_false]
    · by_cases he : expression_matrix_name = ""
      · refine ⟨⟨name, some c, none, load_clusters (assignments lookup file) []⟩, ?_, hmem⟩
        unfold add_clustering
        rw [hitems]
        simp only [hok, he, ne_eq, not_true_eq_false, if_false]
      · refine ⟨⟨name, some c, some m, load_clusters (assignments lookup file) []⟩, ?_, hmem⟩
        unfold add_clustering
        rw [hitems]
        simp only [hok, ne_eq, he, not_false_eq_true, if_true, hm]

theorem add_clustering_multiply_clustered_witness :
    (∃ g cn1 cn2, (g, cn1) ∈ assignments abcGenes geneA_twice
        ∧ (g, cn2) ∈ assignments abcGenes geneA_twice ∧ cn1 ≠ cn2)
    ∧ (∃ names, add_clustering abcGenes no_matrix "cl" geneA_twice "" []
          = .error (.typed .GENERIC (.clustering_duplicates names)))
    ∧ (∃ clustering, add_clustering abcGenes no_matrix "cl" one_cluster_each "" []
          = .ok ([] ++ [clustering])) := by
  have hA : ∃ g cn1 cn2, (g, cn1) ∈ assignments abcGenes geneA_twice
      ∧ (g, cn2) ∈ assignments abcGenes geneA_twice ∧ cn1 ≠ cn2 :=
    ⟨⟨0, "geneA"⟩, "c1", "c2", by decide, by decide, by decide⟩
  have h1 := (add_clustering_multiply_clustered abcGenes no_matrix "cl" geneA_twice "" [] 0
    (by
      intro line hl
      simp only [geneA_twice, List.mem_cons, List.mem_singleton, List.not_mem_nil,
        or_false] at hl
      rcases hl with rfl | rfl | rfl
      · exact ⟨_, _, _, .gene ⟨0, "geneA"⟩, rfl, by decide, rfl⟩
      · exact ⟨_, _, _, .gene ⟨0, "geneA"⟩, rfl, by decide, rfl⟩
      · exact ⟨_, _, _, .gene ⟨0, "geneB"⟩, rfl, by decide, rfl⟩)
    (by decide)).1 hA
  have hsingle : ∀ p ∈ assignments abcGenes one_cluster_each,
      ∀ q ∈ assignments abcGenes one_cluster_each, p.1 = q.1 → p.2 = q.2 := by decide
  have h2 := (add_clustering_multiply_clustered abcGenes no_matrix "cl" one_cluster_each "" [] 0
    (by
      intro line hl
      simp only [one_cluster_each, List.mem_cons, List.mem_singleton, List.not_mem_nil,
        or_false] at hl
      rcases hl with rfl | rfl | rfl | rfl
      · exact ⟨_, _, _, .gene ⟨0, "geneA"⟩, rfl, by decide, rfl⟩
      · exact ⟨_, _, _, .gene ⟨0, "geneB"⟩, rfl, by decide, rfl⟩
      · exact ⟨_, _, _, .gene ⟨0, "geneC"⟩, rfl, by decide, rfl⟩
      · exact ⟨_, _, _, .gene ⟨0, "geneA"⟩, rfl, by decide, rfl⟩)
    (by decide)).2 (fun g cn1 cn2 h1 h2 => hsingle (g, cn1) h1 (g, cn2) h2 rfl) (Or.inl rfl)
  obtain ⟨cl, hcl, _⟩ := h2
  exact ⟨hA, h1.1, cl, hcl⟩

/-- C9 (counterexample). In the file `one_cluster_each` every gene name resolves within one
gene collection and every gene is assigned to a single cluster name, yet with the name of an
expression matrix that the collection does not know `add_clustering` ends with the exception
of the matrix lookup and registers no clustering. With the empty file, in which the same
holds, the gene collection of the clustering is still the null pointer when it is
dereferenced, and no clustering is registered either. -/
theorem add_clustering_single_clusters_not_registered :
    (∀ line ∈ one_cluster_each, ∃ gname cname rest v, line = gname :: cname :: rest
      ∧ abcGenes gname = some v ∧ v.get_gene.collection = 0)
    ∧ (∀ p ∈ assignments abcGenes one_cluster_each,
        ∀ q ∈ assignments abcGenes one_cluster_each, p.1 = q.1 → p.2 = q.2)
    ∧ add_clustering abcGenes no_matrix "cl" one_cluster_each "expr" []
        = .error (.not_found "expr")
    ∧ (¬ ∃ registered, add_clustering abcGenes no_matrix "cl" one_cluster_each "expr" []
        = .ok registered)
    ∧ add_clustering abcGenes no_matrix "cl" [] "" [] = .error .null_gene_collection
    ∧ ¬ ∃ registered, add_clustering abcGenes no_matrix "cl" [] "" [] = .ok registered := by
  have h1 : add_clustering abcGenes no_matrix "cl" one_cluster_each "expr" []
      = .error (.not_found "expr") := eq_error_of (by decide)
  have h2 : add_clustering abcGenes no_matrix "cl" [] "" [] = .error .null_gene_collection :=
    eq_error_of (by decide)
  refine ⟨?_, by decide, h1, ?_, h2, ?_⟩
  · intro line hl
    simp only [one_cluster_each, List.mem_cons, List.mem_singleton, List.not_mem_nil,
      or_false] at hl
    rcases hl with rfl | rfl | rfl | rfl
    · exact ⟨_, _, _, .gene ⟨0, "geneA"⟩, rfl, by decide, rfl⟩
    · exact ⟨_, _, _, .gene ⟨0, "geneB"⟩, rfl, by decide, rfl⟩
    · exact ⟨_, _, _, .gene ⟨0, "geneC"⟩, rfl, by decide, rfl⟩
    · exact ⟨_, _, _, .gene ⟨0, "geneA"⟩, rfl, by decide, rfl⟩
  · rintro ⟨registered, hr⟩
    rw [h1] at hr
    simp at hr
  · rintro ⟨registered, hr⟩
    rw [h2] at hr
    simp at hr

/-- C10 (failing input). For the file with geneA in the clusters c1 and c2 and geneB in c1 only,
`add_clustering` fails and its message lists geneB, which is in one cluster, and not geneA, which
is in two. -/
theorem add_clustering_lists_wrong_gene :
    assignments abcGenes geneA_twice
      = [(⟨0, "geneA"⟩, "c1"), (⟨0, "geneA"⟩, "c2"), (⟨0, "geneB"⟩, "c1")]
    ∧ add_clustering abcGenes no_matrix "cl" geneA_twice "" []
      = .error (.typed .GENERIC (.clustering_duplicates ["geneB"])) :=
  ⟨by decide, eq_error_of (by decide)⟩

/-! ## Theorems: the end of coexpr `main` and `load_baits` -/

theorem neighbour_row_bait (inp : CorrelationInput) (groups_get : Gene → List GroupRef)
    (neg pos : Double) (col : Nat) (bait : Gene) (row : Nat) (st : NeighbourState)
    (h : row ∈ inp.indices) :
    neighbour_row inp groups_get neg pos col bait row st = st := by
  simp [neighbour_row, h]

theorem neighbour_row_congr (inp : CorrelationInput) (groups_get : Gene → List GroupRef)
    (neg pos : Double) (correlations : Nat → Nat → Double)
    (h : ∀ row col, row ∉ inp.indices → correlations row col = inp.correlations row col)
    (col : Nat) (bait : Gene) (row : Nat) (st : NeighbourState) :
    neighbour_row { inp with correlations := correlations } groups_get neg pos col bait row st
      = neighbour_row inp groups_get neg pos col bait row st := by
  unfold neighbour_row
  by_cases hr : row ∈ inp.indices
  · simp [hr]
  · simp [hr, h row col hr]

theorem neighbour_loop_congr (inp : CorrelationInput) (groups_get : Gene → List GroupRef)
    (neg pos : Double) (correlations : Nat → Nat → Double)
    (h : ∀ row col, row ∉ inp.indices → correlations row col = inp.correlations row col)
    (st : NeighbourState) :
    neighbour_loop { inp with correlations := correlations } groups_get neg pos st
      = neighbour_loop inp groups_get neg pos st := by
  unfold neighbour_loop neighbour_bait
  simp only [neighbour_row_congr inp groups_get neg pos correlations h]

/-- C11. In the neighbour loop of one matrix no bait row gets a record or adds a group: every
recorded tuple comes from a row outside `indices`, every entry of `neighbours` is the group of
such a tuple, when rows name distinct genes no tuple has the gene of a bait row, and the
correlation values stored in bait rows have no effect on the result at all. -/
theorem coexpr_bait_rows_skipped (inp : CorrelationInput) (groups_get : Gene → List GroupRef)
    (neg pos : Double) :
    (∀ x ∈ (neighbour_loop inp groups_get neg pos ⟨[], []⟩).records,
        ∃ b ∈ inp.indices, ∃ r, r < inp.size1 ∧ r ∉ inp.indices ∧
          ∃ G ∈ groups_get (inp.get_gene r), x = emitted inp b r G)
    ∧ (neighbour_loop inp groups_get neg pos ⟨[], []⟩).neighbours
        = (neighbour_loop inp groups_get neg pos ⟨[], []⟩).records.map (fun x => x.group)
    ∧ ((∀ r s, r < inp.size1 → s < inp.size1 → inp.get_gene r = inp.get_gene s → r = s) →
        ∀ row ∈ inp.indices, row < inp.size1 →
          ∀ x ∈ (neighbour_loop inp groups_get neg pos ⟨[], []⟩).records,
            x.gene ≠ inp.get_gene row)
    ∧ (∀ correlations : Nat → Nat → Double,
        (∀ row col, row ∉ inp.indices → correlations row col = inp.correlations row col) →
        neighbour_loop { inp with correlations := correlations } groups_get neg pos ⟨[], []⟩
          = neighbour_loop inp groups_get neg pos ⟨[], []⟩) := by
  have key : ∀ x ∈ (neighbour_loop inp groups_get neg pos ⟨[], []⟩).records,
        ∃ b ∈ inp.indices, ∃ r, r < inp.size1 ∧ r ∉ inp.indices ∧
          ∃ G ∈ groups_get (inp.get_gene r), x = emitted inp b r G := by
    intro x hx
    unfold neighbour_loop at hx
    rw [mem_neighbour_loop_records_aux] at hx
    rcases hx with hx | ⟨b, hb, r, hr, hni, _, G, hG, hx⟩
    · simp at hx
    · exact ⟨b, hb, r, hr, hni, G, hG, hx⟩
  refine ⟨key, ?_, ?_, ?_⟩
  · exact neighbour_loop_paired inp groups_get neg pos ⟨[], []⟩ rfl
  · intro hinj row hrow hlt x hx heq
    obtain ⟨b, _, r, hr, hni, G, _, rfl⟩ := key x hx
    have : r = row := hinj r row hr hlt heq
    exact hni (this ▸ hrow)
  · intro correlations h
    exact neighbour_loop_congr inp groups_get neg pos correlations h _

theorem coexpr_bait_rows_skipped_witness :
    ∀ row ∈ exampleInput.indices, row < exampleInput.size1 →
      ∀ x ∈ (neighbour_loop exampleInput exampleGroups (some (-4 / 5)) (some (4 / 5))
          ⟨[], []⟩).records, x.gene ≠ exampleInput.get_gene row :=
  (coexpr_bait_rows_skipped exampleInput exampleGroups (some (-4 / 5)) (some (4 / 5))).2.2.1
    (fun r s hr hs h => by
      have hr4 : r < 4 := hr
      have hs4 : s < 4 := hs
      interval_cases r <;> interval_cases s <;> first | rfl | exact absurd h (by decide))

theorem std_unique_take {α : Type} (eq : α → α → Bool) (x : α) (rest : List α) :
    (std_unique eq (x :: rest)).1.take (std_unique eq (x :: rest)).2
      = x :: unique_keep eq x rest := by
  simp [std_unique]

theorem std_unique_length {α : Type} (eq : α → α → Bool) (range : List α) :
    (std_unique eq range).1.length = range.length := by
  cases range with
  | nil => simp [std_unique]
  | cons x rest =>
    have h := unique_keep_length_le eq rest x
    simp only [std_unique, List.length_append, List.length_drop, List.length_cons]
    omega

theorem unique_keep_sorted (last : Nat) (xs : List Nat) (h : List.Chain (fun a b => a ≤ b) last xs) :
    List.Chain (fun a b => a < b) last (unique_keep (fun a b => decide (a = b)) last xs)
      ∧ ∀ y, y ∈ last :: unique_keep (fun a b => decide (a = b)) last xs ↔ y ∈ last :: xs := by
  induction xs generalizing last with
  | nil => simp [unique_keep]
  | cons x rest ih =>
    rw [List.chain_cons] at h
    by_cases hx : last = x
    · subst hx
      obtain ⟨h1, h2⟩ := ih last h.2
      simp only [unique_keep, decide_True, if_true]
      refine ⟨h1, fun y => ?_⟩
      rw [h2 y]; simp
    · obtain ⟨h1, h2⟩ := ih x h.2
      simp only [unique_keep, hx, decide_False, Bool.false_eq_true, if_false]
      refine ⟨List.Chain.cons (lt_of_le_of_ne h.1 hx) h1, fun y => ?_⟩
      simp only [List.mem_cons] at h2 ⊢
      rw [h2 y]

theorem unique_neighbours_spec (l : List GroupRef) :
    List.Sorted (fun a b => a < b) (unique_neighbours l) ∧ ∀ G, G ∈ unique_neighbours l ↔ G ∈ l := by
  unfold unique_neighbours sort_neighbours
  have hs := List.sorted_insertionSort (fun a b : Nat => a ≤ b) l
  have hp := List.perm_insertionSort (fun a b : Nat => a ≤ b) l
  generalize List.insertionSort (fun a b : Nat => a ≤ b) l = s at hs hp
  cases s with
  | nil =>
    have : l = [] := by simpa using hp.symm
    subst this
    simp [std_unique]
  | cons x rest =>
    simp only [std_unique_take]
    have hc : List.Chain (fun a b => a ≤ b) x rest := by
      have := List.chain'_iff_pairwise.2 hs
      simpa [List.Chain'] using this
    obtain ⟨h1, h2⟩ := unique_keep_sorted x rest hc
    refine ⟨?_, fun G => ?_⟩
    · have : List.Chain' (fun a b : Nat => a < b) (x :: unique_keep (fun a b => decide (a = b)) x rest) := h1
      exact List.chain'_iff_pairwise.1 this
    · rw [h2 G]
      exact hp.mem_iff

theorem mem_neighbour_matrices_records (inps : List CorrelationInput)
    (groups_get : Gene → List GroupRef) (neg pos : Double) (st : NeighbourState)
    (x : BaitCorrelation) :
    x ∈ (neighbour_matrices inps groups_get neg pos st).records
      ↔ x ∈ st.records ∨ ∃ inp ∈ inps, ∃ b ∈ inp.indices, ∃ r, r < inp.size1 ∧ r ∉ inp.indices ∧
          sufficient_correlation neg pos (inp.correlations r (inp.get_column_index b)) = true ∧
          ∃ G ∈ groups_get (inp.get_gene r), x = emitted inp b r G := by
  unfold neighbour_matrices
  induction inps generalizing st with
  | nil => simp
  | cons inp rest ih =>
    rw [List.foldl_cons, ih]
    unfold neighbour_loop
    rw [mem_neighbour_loop_records_aux]
    simp only [List.mem_cons, exists_eq_or_imp, or_assoc]

theorem neighbour_matrices_paired (inps : List CorrelationInput)
    (groups_get : Gene → List GroupRef) (neg pos : Double) (st : NeighbourState)
    (h : st.neighbours = st.records.map (fun x => x.group)) :
    (neighbour_matrices inps groups_get neg pos st).neighbours
      = (neighbour_matrices inps groups_get neg pos st).records.map (fun x => x.group) := by
  unfold neighbour_matrices
  induction inps generalizing st with
  | nil => simpa using h
  | cons inp rest ih =>
    rw [List.foldl_cons]
    exact ih _ (neighbour_loop_paired inp groups_get neg pos st h)

theorem mem_neighbour_matrices_neighbours (inps : List CorrelationInput)
    (groups_get : Gene → List GroupRef) (neg pos : Double) (G : GroupRef) :
    G ∈ (neighbour_matrices inps groups_get neg pos ⟨[], []⟩).neighbours
      ↔ ∃ inp ∈ inps, ∃ b ∈ inp.indices, ∃ r, r < inp.size1 ∧ r ∉ inp.indices ∧
          sufficient_correlation neg pos (inp.correlations r (inp.get_column_index b)) = true ∧
          G ∈ groups_get (inp.get_gene r) := by
  rw [neighbour_matrices_paired inps groups_get neg pos ⟨[], []⟩ rfl, List.mem_map]
  constructor
  · rintro ⟨x, hx, rfl⟩
    rw [mem_neighbour_matrices_records] at hx
    rcases hx with hx | ⟨inp, hinp, b, hb, r, hr, hrb, hs, G, hG, rfl⟩
    · simp at hx
    · exact ⟨inp, hinp, b, hb, r, hr, hrb, hs, hG⟩
  · rintro ⟨inp, hinp, b, hb, r, hr, hrb, hs, hG⟩
    refine ⟨emitted inp b r G, ?_, rfl⟩
    rw [mem_neighbour_matrices_records]
    exact Or.inr ⟨inp, hinp, b, hb, r, hr, hrb, hs, G, hG, rfl⟩

/-- C12. The vector `neighbours` that `main` hands on after lines 156-199 holds no group twice
and holds exactly the groups the loops pushed at least once, which are the groups of the rows
that are no bait rows and correlate sufficiently with a bait row of some matrix. Two runs whose
loops pushed the same groups, in any order and with any repetitions, end in the same vector;
so do lines 198-199 on any two vectors with the same members. -/
theorem coexpr_neighbours_unique_and_order_free (inps other_inps : List CorrelationInput)
    (groups_get other_groups_get : Gene → List GroupRef) (neg pos other_neg other_pos : Double)
    (h : ∀ G, G ∈ (neighbour_matrices inps groups_get neg pos ⟨[], []⟩).neighbours
          ↔ G ∈ (neighbour_matrices other_inps other_groups_get other_neg other_pos
                  ⟨[], []⟩).neighbours) :
    (coexpr_neighbours inps groups_get neg pos).neighbours.Nodup
    ∧ (∀ G, G ∈ (coexpr_neighbours inps groups_get neg pos).neighbours
          ↔ G ∈ (neighbour_matrices inps groups_get neg pos ⟨[], []⟩).neighbours)
    ∧ (∀ G, G ∈ (coexpr_neighbours inps groups_get neg pos).neighbours
          ↔ ∃ inp ∈ inps, ∃ b ∈ inp.indices, ∃ r, r < inp.size1 ∧ r ∉ inp.indices ∧
              sufficient_correlation neg pos (inp.correlations r (inp.get_column_index b)) = true ∧
              G ∈ groups_get (inp.get_gene r))
    ∧ (coexpr_neighbours inps groups_get neg pos).neighbours
        = (coexpr_neighbours other_inps other_groups_get other_neg other_pos).neighbours
    ∧ (∀ discovered other : List GroupRef, (∀ G, G ∈ discovered ↔ G ∈ other) →
        unique_neighbours discovered = unique_neighbours other) := by
  have order_free : ∀ discovered other : List GroupRef, (∀ G, G ∈ discovered ↔ G ∈ other) →
      unique_neighbours discovered = unique_neighbours other := by
    intro discovered other hm
    obtain ⟨s1, m1⟩ := unique_neighbours_spec discovered
    obtain ⟨s2, m2⟩ := unique_neighbours_spec other
    have n1 : (unique_neighbours discovered).Nodup := s1.imp (fun hab => Nat.ne_of_lt hab)
    have n2 : (unique_neighbours other).Nodup := s2.imp (fun hab => Nat.ne_of_lt hab)
    apply List.eq_of_perm_of_sorted ?_ s1 s2
    rw [List.perm_ext_iff_of_nodup n1 n2]
    intro G
    rw [m1, m2, hm]
  have e1 : (coexpr_neighbours inps groups_get neg pos).neighbours
      = unique_neighbours (neighbour_matrices inps groups_get neg pos ⟨[], []⟩).neighbours := rfl
  have e2 : (coexpr_neighbours other_inps other_groups_get other_neg other_pos).neighbours
      = unique_neighbours
          (neighbour_matrices other_inps other_groups_get other_neg other_pos ⟨[], []⟩).neighbours :=
    rfl
  obtain ⟨s1, m1⟩ :=
    unique_neighbours_spec (neighbour_matrices inps groups_get neg pos ⟨[], []⟩).neighbours
  refine ⟨?_, ?_, ?_, ?_, order_free⟩
  · rw [e1]
    exact s1.imp (fun hab => Nat.ne_of_lt hab)
  · intro G
    rw [e1]
    exact m1 G
  · intro G
    rw [e1, m1 G]
    exact mem_neighbour_matrices_neighbours inps groups_get neg pos G
  · rw [e1, e2]
    exact order_free _ _ h

theorem coexpr_neighbours_unique_and_order_free_witness :
    (neighbour_matrices [exampleInput] exampleGroups (some (-4/5)) (some (4/5)) ⟨[], []⟩).neighbours
      = [1, 1]
    ∧ (neighbour_matrices [exampleInput, exampleInput] exampleGroups (some (-1/2)) (some (1/2))
        ⟨[], []⟩).neighbours = [1, 1, 1, 1]
    ∧ (coexpr_neighbours [exampleInput] exampleGroups (some (-4/5)) (some (4/5))).neighbours.Nodup
    ∧ (coexpr_neighbours [exampleInput] exampleGroups (some (-4/5)) (some (4/5))).neighbours
        = (coexpr_neighbours [exampleInput, exampleInput] exampleGroups (some (-1/2))
            (some (1/2))).neighbours
    ∧ (coexpr_neighbours [exampleInput] exampleGroups (some (-4/5)) (some (4/5))).neighbours
        = [1] :=
  have e1 : (neighbour_matrices [exampleInput] exampleGroups (some (-4/5)) (some (4/5))
      ⟨[], []⟩).neighbours = [1, 1] := by decide!
  have e2 : (neighbour_matrices [exampleInput, exampleInput] exampleGroups (some (-1/2))
      (some (1/2)) ⟨[], []⟩).neighbours = [1, 1, 1, 1] := by decide!
  have t := coexpr_neighbours_unique_and_order_free [exampleInput] [exampleInput, exampleInput]
    exampleGroups exampleGroups (some (-4/5)) (some (4/5)) (some (-1/2)) (some (1/2))
    (fun G => by rw [e1, e2]; simp)
  ⟨e1, e2, t.1, t.2.2.2.1, by decide!⟩

/-- C13. Worked example: genes `A, B, C, D`, bait `A`, groups `{A}`, `{B, C}`, `{D}`,
correlations 0.9, 0.9 and 0.1 with `A`, thresholds -0.8 and 0.8. The neighbour list is the one
group `{B, C}`, which holds the two tuples `(B, A, 0.9)` and `(C, A, 0.9)`; the group of `D` is
not listed and `D` has no tuple. -/
theorem coexpr_worked_example :
    (coexpr_neighbours [exampleInput] exampleGroups (some (-4 / 5)) (some (4 / 5))).neighbours = [1]
    ∧ (coexpr_neighbours [exampleInput] exampleGroups (some (-4 / 5)) (some (4 / 5))).records
        = [⟨1, exampleGene 1, exampleGene 0, some (9 / 10)⟩,
           ⟨1, exampleGene 2, exampleGene 0, some (9 / 10)⟩]
    ∧ (∀ x ∈ (coexpr_neighbours [exampleInput] exampleGroups (some (-4 / 5)) (some (4 / 5))).records,
        x.group ≠ 2 ∧ x.gene ≠ exampleGene 3) := by
  decide!

theorem lookup_baits_length (get_gene : String → Except Exception Gene) (names : List String) :
    ∀ (acc baits : List Gene), lookup_baits get_gene names acc = .ok baits →
      baits.length = acc.length + names.length := by
  induction names with
  | nil => intro acc baits h; simp [lookup_baits] at h; subst h; simp
  | cons n rest ih =>
    intro acc baits h
    unfold lookup_baits at h
    cases hg : get_gene n with
    | error e => simp [hg] at h
    | ok gene =>
      simp only [hg] at h
      have := ih _ _ h
      simp at this ⊢
      omega

/-- C14. The `load_baits` does not return each named gene once: for the bait names `B, A, B`
it returns `A, B, B`, and in general the returned vector has one entry per name of the bait
file, since the end iterator computed by `unique` is dropped. -/
theorem load_baits_keeps_duplicates :
    load_baits example_get_gene example_address ["B", "A", "B"]
        = .ok [exampleGene 0, exampleGene 1, exampleGene 1]
    ∧ ∀ (get_gene : String → Except Exception Gene) (address : Gene → Nat)
        (gene_names : List String) (baits : List Gene),
        load_baits get_gene address gene_names = .ok baits → baits.length = gene_names.length := by
  refine ⟨by rfl, ?_⟩
  intro get_gene address gene_names baits h
  unfold load_baits at h
  cases hl : lookup_baits get_gene gene_names [] with
  | error e => simp [hl] at h
  | ok found =>
    simp only [hl, Except.ok.injEq] at h
    subst h
    rw [std_unique_length, List.length_insertionSort]
    simpa using lookup_baits_length get_gene gene_names [] found hl

/-! ## Theorems: warnings and skipped fields of the ortholog table -/

theorem ortholog_field_cerr (get : String → Except Exception GeneVariant)
    (group : GroupHandle) (st st2 : OrthologImport) (name : String)
    (h : ortholog_field get group st name = .ok st2) (n : Nat)
    (hn : Warning.ignored_unknown n ∉ st.cerr) : Warning.ignored_unknown n ∉ st2.cerr := by
  unfold ortholog_field ortholog_field_body at h
  cases hget : get name with
  | error e =>
    rw [hget] at h
    cases e with
    | not_found w => simp at h; subst h; simpa using hn
    | typed t m =>
      by_cases ht : t = ErrorType.SPLICE_VARIANT_INSTEAD_OF_GENE
      · simp [ht] at h; subst h; simpa using hn
      · simp [ht] at h
    | out_of_range => simp at h
    | expectation_failure => simp at h
    | bad_index i j => simp at h
    | null_gene_collection => simp at h
  | ok v =>
    rw [hget] at h
    cases v with
    | splice_variant g0 w => simp [GeneVariant.as_gene] at h; subst h; simpa using hn
    | gene g =>
      simp only [GeneVariant.as_gene] at h
      cases hg : st.database.gene_group g with
      | none => simp [hg] at h; subst h; simpa using hn
      | some h2 =>
        by_cases he : h2 = group
        · simp [hg, he] at h; subst h; simpa using hn
        · simp [hg, he] at h; subst h; simpa using hn

theorem ortholog_fields_cerr (get : String → Except Exception GeneVariant)
    (group : GroupHandle) (names : List String) (n : Nat) :
    ∀ st st2 : OrthologImport, ortholog_fields get group names st = .ok st2 →
      Warning.ignored_unknown n ∉ st.cerr → Warning.ignored_unknown n ∉ st2.cerr := by
  induction names with
  | nil => intro st st2 h hn; simp [ortholog_fields] at h; subst h; exact hn
  | cons name rest ih =>
    intro st st2 h hn
    unfold ortholog_fields at h
    cases hf : ortholog_field get group st name with
    | error e => simp [hf] at h
    | ok st1 =>
      simp only [hf] at h
      exact ih st1 st2 h (ortholog_field_cerr get group st st1 name hf n hn)

theorem on_line_cerr (get : String → Except Exception GeneVariant)
    (st st2 : OrthologImport) (line : List String) (h : on_line get st line = .ok st2) (n : Nat)
    (hn : Warning.ignored_unknown n ∉ st.cerr) : Warning.ignored_unknown n ∉ st2.cerr := by
  unfold on_line at h
  by_cases hlen : line.length < 3
  · rw [if_pos hlen] at h
    simp at h; subst h; simpa using hn
  · rw [if_neg hlen] at h
    cases line with
    | nil => simp at h; subst h; exact hn
    | cons id names =>
      simp only at h
      cases ha : st.database.add_ortholog_group id with
      | error e => rw [ha] at h; exact Except.noConfusion h
      | ok p =>
        rw [ha] at h
        exact ortholog_fields_cerr get _ names n _ st2 h hn

theorem ortholog_lines_cerr (get : String → Except Exception GeneVariant)
    (lines : List (List String)) (n : Nat) :
    ∀ st st2 : OrthologImport, ortholog_lines get lines st = .ok st2 →
      Warning.ignored_unknown n ∉ st.cerr → Warning.ignored_unknown n ∉ st2.cerr := by
  induction lines with
  | nil => intro st st2 h hn; simp [ortholog_lines] at h; subst h; exact hn
  | cons l rest ih =>
    intro st st2 h hn
    unfold ortholog_lines at h
    cases hon : on_line get st l with
    | error e => rw [hon] at h; exact Except.noConfusion h
    | ok st1 =>
      rw [hon] at h
      exact ih st1 st2 h (on_line_cerr get st st1 l hon n hn)

/-- C15. The warning that reports the number of ignored gene references is never written:
a table with one unresolved reference ends with the counter at 1 and nothing on `cerr`, and
no table at all makes `add_orthologs` write that warning, because the counter is tested
before any row is read. -/
theorem add_orthologs_never_warns_unknown :
    unknown_genes_after (add_orthologs xyzGenes [["G1", "geneX", "geneY", "nameless"]] emptyDatabase)
        = some 1
    ∧ cerr_after (add_orthologs xyzGenes [["G1", "geneX", "geneY", "nameless"]] emptyDatabase)
        = some []
    ∧ ∀ (get_gene_variant : String → Except Exception GeneVariant) (file : List (List String))
        (db : Database) (st : OrthologImport),
        add_orthologs get_gene_variant file db = .ok st →
          ∀ count, Warning.ignored_unknown count ∉ st.cerr := by
  refine ⟨by decide, by decide, ?_⟩
  intro get file db st h count
  rw [add_orthologs_eq] at h
  exact ortholog_lines_cerr get file count _ st h (by simp)

theorem agree_field (get : String → Except Exception GeneVariant) (group : GroupHandle)
    (f : Nat → Nat) (C : List Warning → List Warning → Prop)
    (hf : ∀ u, f ((u + 1) % 2 ^ 32) = (f u + 1) % 2 ^ 32)
    (hC : ∀ c c2 w, C c c2 → C (c ++ w) (c2 ++ w))
    (st st2 : OrthologImport) (name : String)
    (h : Agree f C (.ok st) (.ok st2)) :
    Agree f C (ortholog_field get group st name) (ortholog_field get group st2 name) := by
  obtain ⟨db, u, c⟩ := st
  obtain ⟨db2, u2, c2⟩ := st2
  obtain ⟨hdb, hu, hc⟩ := h
  simp only at hdb hu hc
  subst hdb hu
  unfold ortholog_field ortholog_field_body
  cases hget : get name with
  | error e =>
    cases e with
    | not_found w => exact ⟨rfl, (hf u).symm, hc⟩
    | typed t m =>
      by_cases ht : t = ErrorType.SPLICE_VARIANT_INSTEAD_OF_GENE
      · simp only [ht, ne_eq, not_true_eq_false, if_false]
        exact ⟨rfl, rfl, hC _ _ _ hc⟩
      · simp only [ne_eq, ht, not_false_eq_true, if_true]
        exact rfl
    | out_of_range => exact rfl
    | expectation_failure => exact rfl
    | bad_index i j => exact rfl
    | null_gene_collection => exact rfl
  | ok v =>
    cases v with
    | splice_variant g0 w =>
      simp only [GeneVariant.as_gene, ne_eq, not_true_eq_false, if_false]
      exact ⟨rfl, rfl, hC _ _ _ hc⟩
    | gene g =>
      simp only [GeneVariant.as_gene]
      cases hg : db2.gene_group g with
      | none => exact ⟨rfl, rfl, hc⟩
      | some h2 =>
        by_cases he : h2 = group
        · simp only [he, if_true]
          exact ⟨rfl, rfl, hc⟩
        · simp only [he, if_false]
          exact ⟨rfl, rfl, hC _ _ _ hc⟩

theorem agree_fields (get : String → Except Exception GeneVariant) (group : GroupHandle)
    (f : Nat → Nat) (C : List Warning → List Warning → Prop)
    (hf : ∀ u, f ((u + 1) % 2 ^ 32) = (f u + 1) % 2 ^ 32)
    (hC : ∀ c c2 w, C c c2 → C (c ++ w) (c2 ++ w)) (names : List String) :
    ∀ (st st2 : OrthologImport), Agree f C (.ok st) (.ok st2) →
      Agree f C (ortholog_fields get group names st) (ortholog_fields get group names st2) := by
  induction names with
  | nil => intro st st2 h; exact h
  | cons name rest ih =>
    intro st st2 h
    have h1 := agree_field get group f C hf hC st st2 name h
    unfold ortholog_fields
    cases hr : ortholog_field get group st name with
    | error e =>
      cases hr2 : ortholog_field get group st2 name with
      | error e2 => rw [hr, hr2] at h1; exact h1
      | ok s2 => rw [hr, hr2] at h1; exact h1.elim
    | ok s =>
      cases hr2 : ortholog_field get group st2 name with
      | error e2 => rw [hr, hr2] at h1; exact h1.elim
      | ok s2 =>
        rw [hr, hr2] at h1
        exact ih s s2 h1

theorem ortholog_fields_append (get : String → Except Exception GeneVariant)
    (group : GroupHandle) (pre post : List String) :
    ∀ st : OrthologImport, ortholog_fields get group (pre ++ post) st
      = match ortholog_fields get group pre st with
        | .ok st1 => ortholog_fields get group post st1
        | .error e => .error e := by
  induction pre with
  | nil => intro st; rfl
  | cons name rest ih =>
    intro st
    simp only [List.cons_append, ortholog_fields]
    cases ortholog_field get group st name with
    | error e => rfl
    | ok s => exact ih s

theorem agree_skip (get : String → Except Exception GeneVariant) (group : GroupHandle)
    (f : Nat → Nat) (C : List Warning → List Warning → Prop)
    (hf : ∀ u, f ((u + 1) % 2 ^ 32) = (f u + 1) % 2 ^ 32)
    (hC : ∀ c c2 w, C c c2 → C (c ++ w) (c2 ++ w)) (pre post : List String) (name : String)
    (st : OrthologImport)
    (hskip : ∀ s : OrthologImport, ∃ s2, ortholog_field get group s name = .ok s2
      ∧ Agree f C (.ok s) (.ok s2)) :
    Agree f C (ortholog_fields get group (pre ++ post) st)
      (ortholog_fields get group (pre ++ name :: post) st) := by
  rw [ortholog_fields_append, ortholog_fields_append]
  cases ortholog_fields get group pre st with
  | error e => exact rfl
  | ok s =>
    simp only [ortholog_fields]
    obtain ⟨s2, h1, h2⟩ := hskip s
    rw [h1]
    exact agree_fields get group f C hf hC post s s2 h2

theorem agree_map (r r2 : Except Exception OrthologImport) (f : Nat → Nat)
    (C : List Warning → List Warning → Prop) (h : Agree f C r r2) :
    r2.map (fun s => (s.database, s.unknown_genes))
      = r.map (fun s => (s.database, f s.unknown_genes)) := by
  cases r with
  | error e =>
    cases r2 with
    | error e2 => have : e2 = e := h; subst this; rfl
    | ok s2 => exact h.elim
  | ok s =>
    cases r2 with
    | error e2 => exact h.elim
    | ok s2 =>
      obtain ⟨h1, h2, _⟩ := h
      simp [Except.map, h1, h2]

theorem agree_cerr (r r2 : Except Exception OrthologImport) (f : Nat → Nat)
    (h : Agree f Eq r r2) : cerr_after r2 = cerr_after r := by
  cases r with
  | error e =>
    cases r2 with
    | error e2 => rfl
    | ok s2 => exact h.elim
  | ok s =>
    cases r2 with
    | error e2 => exact h.elim
    | ok s2 =>
      obtain ⟨_, _, h3⟩ := h
      simp [cerr_after, h3]

/-- C16. A gene field whose name is unknown, or names a splice variant, does not end the
loop over the fields of a row and leaves the database as it was; the fields after it are
handled as if it were not there (same database, same exception if any). An unknown name adds
one to the 32 bit counter and writes nothing, a splice variant leaves the counter alone and
writes its warning. A typed error of any other type is rethrown by `ortholog_field` and ends
`add_orthologs` for every table with such a field in a row of three or more fields. -/
theorem ortholog_field_skipped (get : String → Except Exception GeneVariant)
    (group : GroupHandle) (name : String) (pre post : List String) (st : OrthologImport) :
    (∀ what, get name = .error (.not_found what) →
      ortholog_field get group st name
          = .ok { st with unknown_genes := (st.unknown_genes + 1) % 2 ^ 32 }
      ∧ (st.unknown_genes + 1 < 2 ^ 32 →
          (st.unknown_genes + 1) % 2 ^ 32 = st.unknown_genes + 1)
      ∧ (ortholog_fields get group (pre ++ name :: post) st).map
            (fun s => (s.database, s.unknown_genes))
          = (ortholog_fields get group (pre ++ post) st).map
            (fun s => (s.database, (s.unknown_genes + 1) % 2 ^ 32))
      ∧ cerr_after (ortholog_fields get group (pre ++ name :: post) st)
          = cerr_after (ortholog_fields get group (pre ++ post) st))
    ∧ (∀ gene variant, get name = .ok (.splice_variant gene variant) →
      ortholog_field get group st name
          = .ok { st with cerr := st.cerr ++ [Warning.splice_variant name] }
      ∧ (ortholog_fields get group (pre ++ name :: post) st).map
            (fun s => (s.database, s.unknown_genes))
          = (ortholog_fields get group (pre ++ post) st).map
            (fun s => (s.database, s.unknown_genes)))
    ∧ (∀ type message, get name = .error (.typed type message) →
      type ≠ ErrorType.SPLICE_VARIANT_INSTEAD_OF_GENE →
      ortholog_field get group st name = .error (.typed type message)
      ∧ ∀ (file : List (List String)) (db : Database),
          (∃ line ∈ file, 3 ≤ line.length ∧ name ∈ line.tail) →
          ∃ e, add_orthologs get file db = .error e) := by
  refine ⟨?_, ?_, ?_⟩
  · intro what hget
    have hfield : ∀ s : OrthologImport, ortholog_field get group s name
        = .ok { s with unknown_genes := (s.unknown_genes + 1) % 2 ^ 32 } := by
      intro s
      simp [ortholog_field, ortholog_field_body, hget]
    have hagree := agree_skip get group (fun u => (u + 1) % 2 ^ 32) Eq (fun _ => rfl)
      (fun c c2 w h => by rw [h]) pre post name st
      (fun s => ⟨_, hfield s, rfl, rfl, rfl⟩)
    exact ⟨hfield st, fun h => Nat.mod_eq_of_lt h, agree_map _ _ _ _ hagree,
      agree_cerr _ _ _ hagree⟩
  · intro gene variant hget
    have hfield : ∀ s : OrthologImport, ortholog_field get group s name
        = .ok { s with cerr := s.cerr ++ [Warning.splice_variant name] } := by
      intro s
      simp [ortholog_field, ortholog_field_body, hget, GeneVariant.as_gene]
    have hagree := agree_skip get group (fun u => u) (fun _ _ => True) (fun _ => rfl)
      (fun _ _ _ _ => trivial) pre post name st
      (fun s => ⟨_, hfield s, rfl, rfl, trivial⟩)
    exact ⟨hfield st, agree_map _ _ _ _ hagree⟩
  · intro type message hget htype
    refine ⟨by simp [ortholog_field, ortholog_field_body, hget, htype], ?_⟩
    rintro file db ⟨line, hline, hlen, hname⟩
    cases hrun : add_orthologs get file db with
    | error e => exact ⟨e, rfl⟩
    | ok out =>
      exfalso
      rw [add_orthologs_eq] at hrun
      have hok := line_ok_of_ortholog_lines get file hrun line hline hlen name hname
      simp [field_ok, hget, htype] at hok

theorem ortholog_field_skipped_witness :
    ((ortholog_fields xyzVariants 0 (["geneX"] ++ "nameless" :: ["geneY"])
          ⟨⟨[⟨0, ["G1"], []⟩], 1, fun _ => none⟩, 0, []⟩).map
        (fun s => (s.database, s.unknown_genes))
      = (ortholog_fields xyzVariants 0 (["geneX"] ++ ["geneY"])
          ⟨⟨[⟨0, ["G1"], []⟩], 1, fun _ => none⟩, 0, []⟩).map
        (fun s => (s.database, (s.unknown_genes + 1) % 2 ^ 32)))
    ∧ ((ortholog_fields xyzVariants 0 (["geneX"] ++ "geneX.1" :: ["geneY"])
          ⟨⟨[⟨0, ["G1"], []⟩], 1, fun _ => none⟩, 0, []⟩).map
        (fun s => (s.database, s.unknown_genes))
      = (ortholog_fields xyzVariants 0 (["geneX"] ++ ["geneY"])
          ⟨⟨[⟨0, ["G1"], []⟩], 1, fun _ => none⟩, 0, []⟩).map
        (fun s => (s.database, s.unknown_genes)))
    ∧ (∃ e, add_orthologs xyzVariants [["G1", "geneX", "broken"]] emptyDatabase = .error e) :=
  ⟨((ortholog_field_skipped xyzVariants 0 "nameless" ["geneX"] ["geneY"]
        ⟨⟨[⟨0, ["G1"], []⟩], 1, fun _ => none⟩, 0, []⟩).1 "nameless" rfl).2.2.1,
   ((ortholog_field_skipped xyzVariants 0 "geneX.1" ["geneX"] ["geneY"]
        ⟨⟨[⟨0, ["G1"], []⟩], 1, fun _ => none⟩, 0, []⟩).2.1 ⟨0, "geneX"⟩ "geneX.1" rfl).2,
   ((ortholog_field_skipped xyzVariants 0 "broken" [] []
        ⟨emptyDatabase, 0, []⟩).2.2 .GENERIC (.other "broken") rfl (by decide)).2
      [["G1", "geneX", "broken"]] emptyDatabase
      ⟨["G1", "geneX", "broken"], by simp, by decide, by simp⟩⟩

/-! ## Theorems: the thresholds of `read_yaml` -/

theorem ensure_ok_iff (c : Bool) (m : Message) : ensure c m = .ok () ↔ c = true := by
  unfold ensure
  cases c <;> simp

theorem ensure_error (m : Message) : ensure false m = .error (.typed .GENERIC m) := rfl

theorem le_fabs_iff (t : Double) :
    Double.le (fabs t) (some treshold_bound) = true
      ↔ ∃ q : Rat, t = some q ∧ -treshold_bound ≤ q ∧ q ≤ treshold_bound := by
  cases t with
  | none => simp [fabs, Double.le]
  | some q => simp [fabs, Double.le, abs_le]

/-- C17. The two threshold tests of `read_yaml` pass exactly when both thresholds are finite
and lie between minus and plus the double `1.0+1e-7` (a value within 1e-16 above 1 + 1e-7);
otherwise `read_yaml` ends with the generic error of the failed test, whatever the matrix and
ortholog readers are, so none of them is called; when the tests pass `read_yaml` goes on with
the rest of its body. -/
theorem read_yaml_tresholds (try_get_gene_variant : String → Option GeneVariant)
    (read_orthologs_yaml : Database → Except Exception Database)
    (family_id : String → String → GeneFamilyId)
    (job : Job) (db : Database) (registered : List GeneExpressionMatrix) :
    (check_tresholds job = .ok () ↔
      (∃ q : Rat, job.negative_treshold = some q ∧ -treshold_bound ≤ q ∧ q ≤ treshold_bound)
      ∧ (∃ q : Rat, job.positive_treshold = some q ∧ -treshold_bound ≤ q ∧ q ≤ treshold_bound))
    ∧ (check_tresholds job ≠ .ok () →
        ∃ message, check_tresholds job = .error (.typed .GENERIC message)
          ∧ read_yaml try_get_gene_variant read_orthologs_yaml family_id job db registered
              = .error (.typed .GENERIC message))
    ∧ (check_tresholds job = .ok () →
        read_yaml try_get_gene_variant read_orthologs_yaml family_id job db registered
          = read_yaml_data try_get_gene_variant read_orthologs_yaml family_id job db registered)
    ∧ (1 + 1 / 10 ^ 7 ≤ treshold_bound ∧ treshold_bound < 1 + 1 / 10 ^ 7 + 1 / 10 ^ 16) := by
  have hiff : check_tresholds job = .ok () ↔
      Double.le (fabs job.negative_treshold) (some treshold_bound) = true
      ∧ Double.le (fabs job.positive_treshold) (some treshold_bound) = true := by
    unfold check_tresholds
    cases h1 : Double.le (fabs job.negative_treshold) (some treshold_bound)
    · simp [ensure]
    · cases h2 : Double.le (fabs job.positive_treshold) (some treshold_bound) <;> simp [ensure]
  refine ⟨?_, ?_, ?_, ?_⟩
  · rw [hiff, le_fabs_iff, le_fabs_iff]
  · intro hne
    cases hc : check_tresholds job with
    | ok u => exact absurd hc hne
    | error e =>
      have he : ∃ message, e = .typed .GENERIC message := by
        unfold check_tresholds at hc
        cases h1 : Double.le (fabs job.negative_treshold) (some treshold_bound)
        · simp [h1, ensure] at hc; exact ⟨_, hc.symm⟩
        · cases h2 : Double.le (fabs job.positive_treshold) (some treshold_bound)
          · simp [h1, h2, ensure] at hc; exact ⟨_, hc.symm⟩
          · simp [h1, h2, ensure] at hc
      obtain ⟨message, rfl⟩ := he
      refine ⟨message, rfl, ?_⟩
      unfold read_yaml
      rw [hc]
  · intro hc
    unfold read_yaml
    rw [hc]
  · unfold treshold_bound
    constructor <;> norm_num

theorem read_yaml_tresholds_witness :
    check_tresholds (exampleJob (some (-4 / 5)) (some (4 / 5))) = .ok ()
    ∧ ∃ message, check_tresholds (exampleJob (some (-4 / 5)) (some 2))
          = .error (.typed .GENERIC message)
        ∧ read_yaml (fun _ => none) (fun d => .ok d) (fun a b => a ++ b)
            (exampleJob (some (-4 / 5)) (some 2)) emptyDatabase []
          = .error (.typed .GENERIC message) :=
  ⟨(read_yaml_tresholds (fun _ => none) (fun d => .ok d) (fun a b => a ++ b)
      (exampleJob (some (-4 / 5)) (some (4 / 5))) emptyDatabase []).1.2
      ⟨⟨-4 / 5, rfl, by norm_num [treshold_bound], by norm_num [treshold_bound]⟩,
       ⟨4 / 5, rfl, by norm_num [treshold_bound], by norm_num [treshold_bound]⟩⟩,
   (read_yaml_tresholds (fun _ => none) (fun d => .ok d) (fun a b => a ++ b)
      (exampleJob (some (-4 / 5)) (some 2)) emptyDatabase []).2.1
      (fun h => by
        have := ((read_yaml_tresholds (fun _ => none) (fun d => .ok d) (fun a b => a ++ b)
          (exampleJob (some (-4 / 5)) (some 2)) emptyDatabase []).1.1 h).2
        obtain ⟨q, hq, _, h2⟩ := this
        have : q = 2 := (Option.some.inj hq).symm
        subst this
        norm_num [treshold_bound] at h2)⟩

/-! ## Theorems: the singleton groups of `read_yaml` -/

theorem emplace_genes_spec (gs : List Gene) :
    ∀ (genes out : List Gene), emplace_genes gs genes = .ok out → genes.Nodup →
      out = genes ++ gs ∧ out.Nodup := by
  induction gs with
  | nil => intro genes out h hnd; simp [emplace_genes] at h; subst h; simpa using hnd
  | cons g rest ih =>
    intro genes out h hnd
    unfold emplace_genes at h
    by_cases hg : g ∈ genes
    · simp [hg, ensure] at h
    · simp only [hg, not_false_eq_true, decide_True, ensure, if_true] at h
      have hnd2 : (genes ++ [g]).Nodup := by
        rw [List.nodup_append]
        refine ⟨hnd, List.nodup_singleton g, ?_⟩
        intro a ha hb
        rw [List.mem_singleton] at hb
        subst hb
        exact hg ha
      obtain ⟨h1, h2⟩ := ih _ _ h hnd2
      exact ⟨by simpa using h1, h2⟩

theorem all_genes_spec (ms : List GeneExpressionMatrix) :
    ∀ (genes out : List Gene), all_genes ms genes = .ok out → genes.Nodup →
      out = genes ++ (ms.map (fun m => m.get_genes)).flatten ∧ out.Nodup := by
  induction ms with
  | nil => intro genes out h hnd; simp [all_genes] at h; subst h; simpa using hnd
  | cons m rest ih =>
    intro genes out h hnd
    unfold all_genes at h
    cases he : emplace_genes m.get_genes genes with
    | error e => simp [he] at h
    | ok genes2 =>
      simp only [he] at h
      obtain ⟨h1, h2⟩ := emplace_genes_spec _ _ _ he hnd
      obtain ⟨h3, h4⟩ := ih _ _ h h2
      exact ⟨by rw [h3, h1]; simp, h4⟩

theorem mem_singletons_of (family_id : String → String → GeneFamilyId) (fresh : List Gene) :
    ∀ (handle n : Nat) (N : OrthologGroup), N ∈ singletons_of family_id fresh handle n ↔
      ∃ i, ∃ hi : i < fresh.length,
        N = ⟨handle + i, [family_id "singleton" (toString (n + i))], [fresh.get ⟨i, hi⟩]⟩ := by
  induction fresh with
  | nil => intro handle n N; simp [singletons_of]
  | cons g rest ih =>
    intro handle n N
    simp only [singletons_of, List.mem_cons, ih]
    constructor
    · rintro (h | ⟨i, hi, h⟩)
      · exact ⟨0, by simp, by simpa using h⟩
      · refine ⟨i + 1, by simpa using hi, ?_⟩
        rw [h]
        have e1 : handle + 1 + i = handle + (i + 1) := by omega
        have e2 : n + 1 + i = n + (i + 1) := by omega
        simp only [List.get_eq_getElem, List.getElem_cons_succ, e1, e2]
    · rintro ⟨i, hi, h⟩
      cases i with
      | zero => left; simpa using h
      | succ j =>
        right
        refine ⟨j, by simpa using hi, ?_⟩
        rw [h]
        have e1 : handle + 1 + j = handle + (j + 1) := by omega
        have e2 : n + 1 + j = n + (j + 1) := by omega
        simp only [List.get_eq_getElem, List.getElem_cons_succ, e1, e2]

theorem singletons_of_length (family_id : String → String → GeneFamilyId) (fresh : List Gene) :
    ∀ (handle n : Nat), (singletons_of family_id fresh handle n).length = fresh.length := by
  induction fresh with
  | nil => intro handle n; rfl
  | cons g rest ih => intro handle n; simp [singletons_of, ih]

theorem singleton_groups_spec (family_id : String → String → GeneFamilyId) (genes : List Gene) :
    ∀ (db out : Database) (n n2 : Nat), db.Inv → genes.Nodup →
      singleton_groups family_id genes db n = .ok (out, n2) →
      out.Inv
      ∧ out.ortholog_groups = db.ortholog_groups
          ++ singletons_of family_id (genes.filter (fun g => decide (db.gene_group g = none)))
              db.next_handle n
      ∧ n2 = n + (genes.filter (fun g => decide (db.gene_group g = none))).length
      ∧ (∀ g, g ∉ genes → out.gene_group g = db.gene_group g)
      ∧ (∀ g h, db.gene_group g = some h → out.gene_group g = some h)
      ∧ (∀ N ∈ singletons_of family_id
            (genes.filter (fun g => decide (db.gene_group g = none))) db.next_handle n,
          ∀ id ∈ N.external_ids, ∀ G ∈ db.ortholog_groups, id ∉ G.external_ids)
      ∧ (singletons_of family_id
            (genes.filter (fun g => decide (db.gene_group g = none))) db.next_handle n).Pairwise
          (fun A B => ∀ id ∈ A.external_ids, id ∉ B.external_ids) := by
  induction genes with
  | nil =>
    intro db out n n2 hI _ h
    simp only [singleton_groups, Except.ok.injEq, Prod.mk.injEq] at h
    obtain ⟨h1, h2⟩ := h
    subst h1; subst h2
    simp [singletons_of, hI]
  | cons g rest ih =>
    intro db out n n2 hI hnd h
    rw [List.nodup_cons] at hnd
    obtain ⟨hg, hnd⟩ := hnd
    unfold singleton_groups at h
    by_cases hnone : db.gene_group g = none
    · rw [if_pos hnone] at h
      cases ha : db.add_ortholog_group (family_id "singleton" (toString n)) with
      | error e => rw [ha] at h; exact Except.noConfusion h
      | ok p =>
        obtain ⟨db1, group⟩ := p
        rw [ha] at h
        simp only at h
        obtain ⟨hI1, hgroups, hgroup, hnext, hgg, hfresh⟩ := add_ortholog_group_spec hI ha
        have hn1 : db1.gene_group g = none := by rw [hgg]; exact hnone
        have hadd := @add_eq db1 db.ortholog_groups
          ⟨group, [family_id "singleton" (toString n)], []⟩ g hI1 hgroups hn1
        have hI2 := @add_inv db1 db.ortholog_groups
          ⟨group, [family_id "singleton" (toString n)], []⟩ g hI1 hgroups hn1
        simp only [List.nil_append] at hadd
        rw [hadd] at h hI2
        have hfilter : rest.filter (fun x => decide ((if x = g then some group
              else db1.gene_group x) = none))
            = rest.filter (fun x => decide (db.gene_group x = none)) := by
          apply List.filter_congr
          intro x hx
          have : x ≠ g := fun e => hg (e ▸ hx)
          simp [this, hgg]
        obtain ⟨o1, o2, o3, o4, o5, o6, o7⟩ := ih _ out (n + 1) n2 hI2 hnd h
        simp only [hfilter, hnext] at o2 o3 o4 o5 o6 o7
        have hf : (g :: rest).filter (fun x => decide (db.gene_group x = none))
            = g :: rest.filter (fun x => decide (db.gene_group x = none)) := by
          simp [List.filter_cons, hnone]
        rw [hf]
        subst hgroup
        refine ⟨o1, ?_, ?_, ?_, ?_, ?_, ?_⟩
        · rw [o2]; simp [singletons_of]
        · rw [o3]; simp; omega
        · intro x hx
          simp only [List.mem_cons, not_or] at hx
          rw [o4 x hx.2]
          simp [hx.1, hgg]
        · intro x h0 hx
          apply o5
          have : x ≠ g := by
            intro e; subst e; rw [hnone] at hx; exact Option.noConfusion hx
          simp [this, hgg, hx]
        · intro N hN id hid G hG
          simp only [singletons_of, List.mem_cons] at hN
          rcases hN with hN | hN
          · subst hN
            simp only [List.mem_singleton] at hid
            subst hid
            exact hfresh G hG
          · exact o6 N hN id hid G (List.mem_append_left _ hG)
        · simp only [singletons_of]
          rw [List.pairwise_cons]
          refine ⟨?_, o7⟩
          intro B hB id hid hidB
          simp only [List.mem_singleton] at hid
          subst hid
          have := o6 B hB _ hidB ⟨db.next_handle, [family_id "singleton" (toString n)], [g]⟩
            (by simp)
          exact this (by simp)
    · rw [if_neg hnone] at h
      obtain ⟨o1, o2, o3, o4, o5, o6, o7⟩ := ih db out n n2 hI hnd h
      have hf : (g :: rest).filter (fun x => decide (db.gene_group x = none))
          = rest.filter (fun x => decide (db.gene_group x = none)) := by
        simp [List.filter_cons, hnone]
      rw [hf]
      refine ⟨o1, o2, o3, ?_, o5, o6, o7⟩
      intro x hx
      simp only [List.mem_cons, not_or] at hx
      exact o4 x hx.2

theorem singleton_ids_distinct (family_id : String → String → GeneFamilyId) (fresh : List Gene) :
    ∀ (handle n : Nat),
      (singletons_of family_id fresh handle n).Pairwise
        (fun A B => ∀ id ∈ A.external_ids, id ∉ B.external_ids) →
      ∀ i j, i < fresh.length → j < fresh.length → i < j →
        family_id "singleton" (toString (n + i)) ≠ family_id "singleton" (toString (n + j)) := by
  induction fresh with
  | nil => intro handle n _ i j hi; simp at hi
  | cons g rest ih =>
    intro handle n hp i j hi hj hij
    simp only [singletons_of, List.pairwise_cons] at hp
    obtain ⟨hfirst, hrest⟩ := hp
    cases j with
    | zero => omega
    | succ j =>
      have hj2 : j < rest.length := by simpa using hj
      cases i with
      | zero =>
        intro e
        have hB : (⟨handle + 1 + j, [family_id "singleton" (toString (n + 1 + j))],
            [rest.get ⟨j, hj2⟩]⟩ : OrthologGroup) ∈ singletons_of family_id rest (handle + 1) (n + 1) :=
          (mem_singletons_of family_id rest (handle + 1) (n + 1) _).2 ⟨j, hj2, rfl⟩
        have := hfirst _ hB (family_id "singleton" (toString n)) (by simp)
        apply this
        have e2 : n + 1 + j = n + (j + 1) := by omega
        simp only [List.mem_singleton, e2]
        simpa using e
      | succ i =>
        have hi2 : i < rest.length := by simpa using hi
        have := ih (handle + 1) (n + 1) hrest i j hi2 hj2 (by omega)
        have e1 : n + 1 + i = n + (i + 1) := by omega
        have e2 : n + 1 + j = n + (j + 1) := by omega
        rw [e1, e2] at this
        exact this

theorem read_yaml_eq_data (try_get_gene_variant : String → Option GeneVariant)
    (read_orthologs_yaml : Database → Except Exception Database)
    (family_id : String → String → GeneFamilyId)
    (job : Job) (db : Database) (registered : List GeneExpressionMatrix)
    (hc : check_tresholds job = .ok ()) :
    read_yaml try_get_gene_variant read_orthologs_yaml family_id job db registered
      = read_yaml_data try_get_gene_variant read_orthologs_yaml family_id job db registered := by
  unfold read_yaml
  rw [hc]

theorem read_yaml_data_of_ok (try_get_gene_variant : String → Option GeneVariant)
    (read_orthologs_yaml : Database → Except Exception Database)
    (family_id : String → String → GeneFamilyId)
    (job : Job) (db : Database) (registered : List GeneExpressionMatrix) (out : JobInput)
    (h : read_yaml try_get_gene_variant read_orthologs_yaml family_id job db registered = .ok out) :
    read_yaml_data try_get_gene_variant read_orthologs_yaml family_id job db registered
      = .ok out := by
  unfold read_yaml at h
  cases hc : check_tresholds job with
  | error e => rw [hc] at h; exact Except.noConfusion h
  | ok u => rw [hc] at h; exact h

theorem check_tresholds_ok (job : Job) (n p : Rat)
    (hn : job.negative_treshold = some n) (hp : job.positive_treshold = some p)
    (h1 : |n| ≤ treshold_bound) (h2 : |p| ≤ treshold_bound) : check_tresholds job = .ok () := by
  simp [check_tresholds, hn, hp, fabs, Double.le, h1, h2, ensure]

/-- C18. When `read_yaml` returns, every gene of every matrix it loaded is in some ortholog
group. The genes `fresh` that had no group after the ortholog files were read each got a new
group holding that gene only, registered as `GeneFamilyId("singleton", i)` with `i` running
from 0 to `fresh.length - 1`, these ids being pairwise different; the groups that were there
are still there unchanged and every gene that had a group still points to it. -/
theorem read_yaml_singleton_groups (try_get_gene_variant : String → Option GeneVariant)
    (read_orthologs_yaml : Database → Except Exception Database)
    (family_id : String → String → GeneFamilyId)
    (job : Job) (db db1 : Database)
    (registered registered1 expression_matrices : List GeneExpressionMatrix) (out : JobInput)
    (himports : read_yaml_imports try_get_gene_variant read_orthologs_yaml job db registered
      = .ok (db1, registered1, expression_matrices))
    (hI : db1.Inv)
    (h : read_yaml try_get_gene_variant read_orthologs_yaml family_id job db registered
      = .ok out) :
    out.expression_matrices = expression_matrices
    ∧ (∀ m ∈ expression_matrices, ∀ g ∈ m.get_genes, out.database.covers g)
    ∧ (∃ fresh : List Gene, fresh.Nodup
        ∧ (∀ g, g ∈ fresh ↔
            (∃ m ∈ expression_matrices, g ∈ m.get_genes) ∧ db1.gene_group g = none)
        ∧ out.database.ortholog_groups
            = db1.ortholog_groups ++ singletons_of family_id fresh db1.next_handle 0
        ∧ (∀ i, ∀ hi : i < fresh.length,
            (⟨db1.next_handle + i, [family_id "singleton" (toString i)], [fresh.get ⟨i, hi⟩]⟩
                : OrthologGroup) ∈ out.database.ortholog_groups
            ∧ out.database.gene_group (fresh.get ⟨i, hi⟩) = some (db1.next_handle + i))
        ∧ (∀ i j, i < fresh.length → j < fresh.length →
            family_id "singleton" (toString i) = family_id "singleton" (toString j) → i = j))
    ∧ (∀ g h, db1.gene_group g = some h → out.database.gene_group g = some h)
    ∧ (∀ G ∈ db1.ortholog_groups, G ∈ out.database.ortholog_groups)
    ∧ out.database.Inv := by
  have hd := read_yaml_data_of_ok _ _ _ _ _ _ _ h
  unfold read_yaml_data at hd
  rw [himports] at hd
  simp only at hd
  cases hs : read_yaml_singletons family_id expression_matrices db1 with
  | error e => rw [hs] at hd; exact Except.noConfusion hd
  | ok db3 =>
    rw [hs] at hd
    simp only [Except.ok.injEq] at hd
    subst hd
    unfold read_yaml_singletons at hs
    cases hg : all_genes expression_matrices [] with
    | error e => rw [hg] at hs; exact Except.noConfusion hs
    | ok genes =>
      rw [hg] at hs
      simp only at hs
      cases hsg : singleton_groups family_id genes db1 0 with
      | error e => rw [hsg] at hs; exact Except.noConfusion hs
      | ok p =>
        obtain ⟨db2, n2⟩ := p
        rw [hsg] at hs
        simp only [Except.ok.injEq] at hs
        subst hs
        obtain ⟨hgenes, hnd⟩ := all_genes_spec _ _ _ hg List.nodup_nil
        obtain ⟨o1, o2, _, _, o5, _, o7⟩ := singleton_groups_spec family_id genes db1 db2 0 n2 hI hnd hsg
        have hmem : ∀ g, g ∈ genes ↔ ∃ m ∈ expression_matrices, g ∈ m.get_genes := by
          intro g
          rw [hgenes]
          simp [List.mem_flatten]
        have hfresh_mem : ∀ g, g ∈ genes.filter (fun g => decide (db1.gene_group g = none)) ↔
            (∃ m ∈ expression_matrices, g ∈ m.get_genes) ∧ db1.gene_group g = none := by
          intro g
          rw [List.mem_filter, hmem]
          simp
        have hidx : ∀ i, ∀ hi : i < (genes.filter (fun g => decide (db1.gene_group g = none))).length,
            (⟨db1.next_handle + i, [family_id "singleton" (toString i)],
                [(genes.filter (fun g => decide (db1.gene_group g = none))).get ⟨i, hi⟩]⟩
                : OrthologGroup) ∈ db2.ortholog_groups := by
          intro i hi
          rw [o2]
          apply List.mem_append_right
          rw [mem_singletons_of]
          exact ⟨i, hi, by simp⟩
        have hold : ∀ G ∈ db1.ortholog_groups, G ∈ db2.ortholog_groups := by
          intro G hG; rw [o2]; exact List.mem_append_left _ hG
        refine ⟨rfl, ?_, ⟨_, hnd.filter _, hfresh_mem, o2, ?_, ?_⟩, o5, hold, o1⟩
        · intro m hm g hgm
          have hgin : g ∈ genes := (hmem g).2 ⟨m, hm, hgm⟩
          cases hgg : db1.gene_group g with
          | some h0 =>
            obtain ⟨G, hG, _, hgG⟩ := (hI.back_ref g h0).1 hgg
            exact ⟨G, hold G hG, hgG⟩
          | none =>
            have hf : g ∈ genes.filter (fun g => decide (db1.gene_group g = none)) :=
              (hfresh_mem g).2 ⟨⟨m, hm, hgm⟩, hgg⟩
            obtain ⟨⟨i, hi⟩, hget⟩ := List.mem_iff_get.1 hf
            exact ⟨_, hidx i hi, List.mem_singleton.2 hget.symm⟩
        · intro i hi
          refine ⟨hidx i hi, ?_⟩
          exact (o1.back_ref _ _).2 ⟨_, hidx i hi, rfl, by simp⟩
        · intro i j hi hj e
          by_contra hne
          rcases Nat.lt_or_gt_of_ne hne with hlt | hlt
          · have := singleton_ids_distinct family_id _ db1.next_handle 0 o7 i j hi hj hlt
            simp only [Nat.zero_add] at this
            exact this e
          · have := singleton_ids_distinct family_id _ db1.next_handle 0 o7 j i hj hi hlt
            simp only [Nat.zero_add] at this
            exact this e.symm

theorem geneADatabase_inv : geneADatabase.Inv := by
  refine ⟨by simp [geneADatabase], by simp [geneADatabase], by simp [geneADatabase], ?_⟩
  intro g h
  by_cases hg : g = ⟨0, "geneA"⟩
  · simp [geneADatabase, hg, eq_comm]
  · simp [geneADatabase, hg]

theorem read_yaml_singleton_groups_witness :
    ∃ out, read_yaml abcGenes (fun d => .ok d) example_family_id oneMatrixJob geneADatabase []
        = .ok out
      ∧ (∀ m ∈ out.expression_matrices, ∀ g ∈ m.get_genes, out.database.covers g)
      ∧ out.database.gene_group ⟨0, "geneA"⟩ = some 0 := by
  have hc := check_tresholds_ok oneMatrixJob (-1) 1 rfl rfl
    (by norm_num [treshold_bound]) (by norm_num [treshold_bound])
  obtain ⟨out, hout⟩ : ∃ out, read_yaml_data abcGenes (fun d => .ok d) example_family_id
      oneMatrixJob geneADatabase [] = .ok out := ⟨_, rfl⟩
  have h := (read_yaml_eq_data abcGenes (fun d => .ok d) example_family_id oneMatrixJob
    geneADatabase [] hc).trans hout
  obtain ⟨registered1, matrices, himports⟩ : ∃ registered1 matrices,
      read_yaml_imports abcGenes (fun d => .ok d) oneMatrixJob geneADatabase []
        = .ok (geneADatabase, registered1, matrices) := ⟨_, _, rfl⟩
  have res := read_yaml_singleton_groups abcGenes (fun d => .ok d) example_family_id
    oneMatrixJob geneADatabase geneADatabase [] registered1 matrices out himports
    geneADatabase_inv h
  refine ⟨out, h, ?_, res.2.2.2.1 _ _ rfl⟩
  rw [res.1]
  exact res.2.1

/-! ## Theorems: functional annotations -/

theorem dropWhile_split {α : Type} (p : α → Bool) (l : List α) :
    ∃ a, l = a ++ l.dropWhile p ∧ (∀ x ∈ a, p x = true)
      ∧ ∀ x, (l.dropWhile p).head? = some x → p x = false := by
  refine ⟨l.takeWhile p, (List.takeWhile_append_dropWhile p l).symm, ?_, ?_⟩
  · intro x hx
    exact List.mem_takeWhile_imp hx
  · intro x hx
    induction l with
    | nil => simp at hx
    | cons y rest ih =>
      by_cases hy : p y = true
      · rw [List.dropWhile_cons_of_pos hy] at hx
        exact ih hx
      · rw [List.dropWhile_cons_of_neg hy] at hx
        simp at hx
        subst hx
        simpa using hy

theorem trim_spec (text : String) :
    ∃ before after : List Char,
      text.toList = before ++ (trim text).toList ++ after
      ∧ (∀ c ∈ before, is_space c = true) ∧ (∀ c ∈ after, is_space c = true)
      ∧ (∀ c, (trim text).toList.head? = some c → is_space c = false)
      ∧ (∀ c, (trim text).toList.getLast? = some c → is_space c = false) := by
  obtain ⟨a, ha, hap, hah⟩ := dropWhile_split is_space text.toList
  obtain ⟨b, hb, hbp, hbh⟩ := dropWhile_split is_space (text.toList.dropWhile is_space).reverse
  have htrim : (trim text).toList
      = ((text.toList.dropWhile is_space).reverse.dropWhile is_space).reverse := rfl
  have hD : text.toList.dropWhile is_space
      = ((text.toList.dropWhile is_space).reverse.dropWhile is_space).reverse ++ b.reverse := by
    have h2 := congrArg List.reverse hb
    simpa using h2
  refine ⟨a, b.reverse, ?_, hap, ?_, ?_, ?_⟩
  · rw [htrim, List.append_assoc, ← hD]
    exact ha
  · intro c hc
    exact hbp c (List.mem_reverse.1 hc)
  · intro c hc
    rw [htrim] at hc
    apply hah c
    rw [hD]
    cases hT : ((text.toList.dropWhile is_space).reverse.dropWhile is_space).reverse with
    | nil => rw [hT] at hc; simp at hc
    | cons y rest => rw [hT] at hc; simpa using hc
  · intro c hc
    rw [htrim, List.getLast?_reverse] at hc
    exact hbh c hc

theorem add_functional_annotations_append
    (get_gene_variant : String → Except Exception GeneVariant)
    (before after : List (List String)) (line : List String) (start mid : GeneVariant → String)
    (h : add_functional_annotations get_gene_variant before start = .ok mid) :
    (∀ e, on_annotation_line get_gene_variant mid line = .error e →
        add_functional_annotations get_gene_variant (before ++ line :: after) start = .error e)
    ∧ (∀ mid2, on_annotation_line get_gene_variant mid line = .ok mid2 →
        add_functional_annotations get_gene_variant (before ++ line :: after) start
          = add_functional_annotations get_gene_variant after mid2) := by
  induction before generalizing start with
  | nil =>
    simp only [add_functional_annotations, Except.ok.injEq] at h
    subst h
    constructor
    · intro e he
      simp only [List.nil_append, add_functional_annotations, he]
    · intro mid2 he
      simp only [List.nil_append, add_functional_annotations, he]
  | cons l rest ih =>
    simp only [add_functional_annotations] at h
    simp only [List.cons_append, add_functional_annotations]
    cases hl : on_annotation_line get_gene_variant start l with
    | error e => rw [hl] at h; cases h
    | ok s2 =>
      rw [hl] at h
      exact ih s2 h

theorem add_functional_annotations_last
    (get_gene_variant : String → Except Exception GeneVariant)
    (file : List (List String)) (start : GeneVariant → String)
    (hfile : ∀ line ∈ file, ∃ name field gene_variant,
        line = [name, field] ∧ get_gene_variant name = .ok gene_variant) :
    ∃ out, add_functional_annotations get_gene_variant file start = .ok out
      ∧ ∀ gene_variant, out gene_variant
          = (last_description get_gene_variant file gene_variant).getD (start gene_variant) := by
  induction file generalizing start with
  | nil => exact ⟨start, rfl, fun _ => rfl⟩
  | cons line rest ih =>
    obtain ⟨name, field, named, rfl, hget⟩ := hfile line (List.mem_cons_self _ _)
    have hrest := fun l hl => hfile l (List.mem_cons_of_mem _ hl)
    by_cases hne : trim field = ""
    · have hl : on_annotation_line get_gene_variant start [name, field] = .ok start := by
        simp [on_annotation_line, ensure, hget, hne]
      obtain ⟨out, ho, hv⟩ := ih start hrest
      refine ⟨out, ?_, fun v => ?_⟩
      · simp only [add_functional_annotations, hl, ho]
      · rw [hv v]
        simp only [last_description, record_description, hget, hne]
        cases last_description get_gene_variant rest v <;> simp
    · have hl : on_annotation_line get_gene_variant start [name, field]
          = .ok ( set_functional_annotation start named (trim field)) := by
        simp [on_annotation_line, ensure, hget, hne]
      obtain ⟨out, ho, hv⟩ := ih ( set_functional_annotation start named (trim field)) hrest
      refine ⟨out, ?_, fun v => ?_⟩
      · simp only [add_functional_annotations, hl, ho]
      · rw [hv v]
        simp only [last_description, record_description, hget]
        cases last_description get_gene_variant rest v with
        | some d => simp
        | none =>
          by_cases hv2 : named = v
          · subst hv2; simp [ set_functional_annotation, hne]
          · have : v ≠ named := fun h => hv2 h.symm
            simp [ set_functional_annotation, hv2, this]

/-- C19. A record of the functional annotation file that does not have exactly two fields
makes `on_line` raise the generic error about the number of columns, which ends
`add_functional_annotations` wherever the record stands in the file. For a record of two fields
whose name resolves, a description that is not empty after trimming becomes the annotation of
the named variant (no other annotation changes), and a description that is empty after
trimming changes nothing; an exception of the lookup is passed on. Trimming removes white
space at both ends and nothing else. In `add_functional_annotations` a record acts in this way
on the annotations left by the records before it and the records after it go on from its
result; so for a file whose records all have two fields and resolve the call returns, and the
annotation of every variant is then the trimmed description of the last record that names it
with a description that is not empty, or its annotation from before the call when there is no
such record. -/
theorem add_functional_annotations_record
    (get_gene_variant : String → Except Exception GeneVariant)
    (annotations : GeneVariant → String) :
    (∀ line : List String, line.length ≠ 2 →
      on_annotation_line get_gene_variant annotations line
          = .error (.typed .GENERIC (.other
              ("Expected line with 2 columns, but got " ++ toString line.length ++ " columns")))
      ∧ ∀ (before after : List (List String)) (start : GeneVariant → String),
          ∃ e, add_functional_annotations get_gene_variant (before ++ line :: after) start
            = .error e)
    ∧ (∀ (name field : String) (gene_variant : GeneVariant),
        get_gene_variant name = .ok gene_variant →
        (trim field ≠ "" →
          ∃ annotations2,
            on_annotation_line get_gene_variant annotations [name, field] = .ok annotations2
            ∧ annotations2 gene_variant = trim field
            ∧ ∀ other, other ≠ gene_variant → annotations2 other = annotations other)
        ∧ (trim field = "" →
          on_annotation_line get_gene_variant annotations [name, field] = .ok annotations))
    ∧ (∀ (name field : String) (e : Exception), get_gene_variant name = .error e →
        on_annotation_line get_gene_variant annotations [name, field] = .error e)
    ∧ (∀ text : String, ∃ before after : List Char,
        text.toList = before ++ (trim text).toList ++ after
        ∧ (∀ c ∈ before, is_space c = true) ∧ (∀ c ∈ after, is_space c = true)
        ∧ (∀ c, (trim text).toList.head? = some c → is_space c = false)
        ∧ (∀ c, (trim text).toList.getLast? = some c → is_space c = false))
    ∧ (∀ (before after : List (List String)) (line : List String)
        (start mid : GeneVariant → String),
        add_functional_annotations get_gene_variant before start = .ok mid →
        (∀ e, on_annotation_line get_gene_variant mid line = .error e →
          add_functional_annotations get_gene_variant (before ++ line :: after) start = .error e)
        ∧ (∀ mid2, on_annotation_line get_gene_variant mid line = .ok mid2 →
          add_functional_annotations get_gene_variant (before ++ line :: after) start
            = add_functional_annotations get_gene_variant after mid2))
    ∧ (∀ (file : List (List String)) (start : GeneVariant → String),
        (∀ line ∈ file, ∃ name field gene_variant,
          line = [name, field] ∧ get_gene_variant name = .ok gene_variant) →
        ∃ out, add_functional_annotations get_gene_variant file start = .ok out
          ∧ ∀ gene_variant, out gene_variant
              = (last_description get_gene_variant file gene_variant).getD
                  (start gene_variant)) := by
  refine ⟨?_, ?_, ?_, trim_spec, add_functional_annotations_append get_gene_variant,
    add_functional_annotations_last get_gene_variant⟩
  · intro line hlen
    have hline : ∀ start, on_annotation_line get_gene_variant start line
        = .error (.typed .GENERIC (.other
            ("Expected line with 2 columns, but got " ++ toString line.length ++ " columns"))) := by
      intro start
      simp [on_annotation_line, ensure, hlen]
    refine ⟨hline annotations, ?_⟩
    intro before
    induction before with
    | nil =>
      intro after start
      simp only [List.nil_append, add_functional_annotations, hline start]
      exact ⟨_, rfl⟩
    | cons l rest ih =>
      intro after start
      simp only [List.cons_append, add_functional_annotations]
      cases on_annotation_line get_gene_variant start l with
      | error e => exact ⟨e, rfl⟩
      | ok s2 => exact ih after s2
  · intro name field gene_variant hget
    constructor
    · intro hne
      refine ⟨ set_functional_annotation annotations gene_variant (trim field), ?_, ?_, ?_⟩
      · simp [on_annotation_line, ensure, hget, hne]
      · simp [ set_functional_annotation]
      · intro other ho
        simp [ set_functional_annotation, ho]
    · intro he
      simp [on_annotation_line, ensure, hget, he]
  · intro name field e hget
    simp [on_annotation_line, ensure, hget]

theorem add_functional_annotations_record_witness :
    (∃ out, add_functional_annotations xyzVariants exampleAnnotations (fun _ => "unknown") = .ok out
      ∧ out (.gene ⟨0, "geneX"⟩) = "ligase"
      ∧ out (.gene ⟨0, "geneY"⟩) = "unknown")
    ∧ ∃ annotations2,
        on_annotation_line xyzVariants (fun _ => "") ["geneX", "  kinase "] = .ok annotations2
        ∧ annotations2 (.gene ⟨0, "geneX"⟩) = "kinase" := by
  have t := add_functional_annotations_record xyzVariants (fun _ => "")
  constructor
  · obtain ⟨out, h1, h2⟩ := t.2.2.2.2.2 exampleAnnotations (fun _ => "unknown") (by
      intro line hline
      simp only [exampleAnnotations, List.mem_cons, List.mem_singleton, List.not_mem_nil,
        or_false] at hline
      rcases hline with rfl | rfl | rfl
      · exact ⟨_, _, _, rfl, rfl⟩
      · exact ⟨_, _, _, rfl, rfl⟩
      · exact ⟨_, _, _, rfl, rfl⟩)
    exact ⟨out, h1, (h2 _).trans (by decide), (h2 _).trans (by decide)⟩
  · obtain ⟨annotations2, h1, h2, _⟩ :=
      (t.2.1 "geneX" "  kinase " (.gene ⟨0, "geneX"⟩) rfl).1 (by decide)
    exact ⟨annotations2, h1, h2.trans (by decide)⟩

/-! ## Theorems: serialization of vectors -/

theorem save_items_eq {T : Type} (t : List T) :
    ∀ ar : List (ArchiveEntry T), save_items t ar = ar ++ t.map ArchiveEntry.item := by
  induction t with
  | nil => intro ar; simp [save_items]
  | cons x rest ih => intro ar; simp [save_items, ih]

theorem load_items_map {T : Type} (v : List T) :
    ∀ (rest : List (ArchiveEntry T)) (t : List T),
      load_items v.length (v.map ArchiveEntry.item ++ rest) t = some (rest, t ++ v) := by
  induction v with
  | nil => intro rest t; simp [load_items]
  | cons x tail ih =>
    intro rest t
    simp only [List.length_cons, List.map_cons, List.cons_append, load_items]
    rw [ih]
    simp

/-- C20. The `save` of a vector appends its length and then its items in order; `load` on the
archive `save` produced gives back the same vector, whatever the destination held and whatever
follows in the archive, and leaves what follows unread; saving the reloaded vector gives the
same archive again. -/
theorem load_save_round_trip {T : Type} (v destination : List T)
    (ar rest : List (ArchiveEntry T)) :
    save ar v = ar ++ ArchiveEntry.count v.length :: v.map ArchiveEntry.item
    ∧ load (save [] v ++ rest) destination = some (rest, v)
    ∧ (load (save [] v) destination).map (fun p => save [] p.2) = some (save [] v) := by
  have hsave : ∀ ar : List (ArchiveEntry T),
      save ar v = ar ++ ArchiveEntry.count v.length :: v.map ArchiveEntry.item := by
    intro ar
    simp [save, save_items_eq]
  have hload : ∀ rest : List (ArchiveEntry T),
      load (save [] v ++ rest) destination = some (rest, v) := by
    intro rest
    rw [hsave]
    simp only [List.nil_append, List.cons_append, load, List.drop_length]
    rw [load_items_map]
    simp
  refine ⟨hsave ar, hload rest, ?_⟩
  have h2 := hload []
  rw [List.append_nil] at h2
  rw [h2]
  rfl

/-! ## Theorems: merged groups, skipped rows and repeated names -/

theorem absorb_genes (G G2 : OrthologGroup) (x : Gene) :
    x ∈ (G.absorb G2).genes ↔ x ∈ G.genes ∨ x ∈ G2.genes := by
  simp only [OrthologGroup.absorb, List.mem_append, List.mem_filter, decide_eq_true_eq]
  constructor
  · rintro (h | h)
    · exact Or.inl h
    · exact Or.inr h.1
  · rintro (h | h)
    · exact Or.inl h
    · by_cases hx : x ∈ G.genes
      · exact Or.inl hx
      · exact Or.inr ⟨h, hx⟩

theorem absorb_external_ids (G G2 : OrthologGroup) (i : GeneFamilyId) :
    i ∈ (G.absorb G2).external_ids ↔ i ∈ G.external_ids ∨ i ∈ G2.external_ids := by
  simp only [OrthologGroup.absorb, List.mem_append, List.mem_filter, decide_eq_true_eq]
  constructor
  · rintro (h | h)
    · exact Or.inl h
    · exact Or.inr h.1
  · rintro (h | h)
    · exact Or.inl h
    · by_cases hx : i ∈ G.external_ids
      · exact Or.inl hx
      · exact Or.inr ⟨h, hx⟩

/-- C21. When a gene field of the row whose group is `G` resolves to a gene of another group
`G2`, `ortholog_field` merges `G2` into `G` and writes the overlap warning: afterwards the
group with the identity of `G` holds exactly the genes and the external ids that `G` or `G2`
held, no group of the repository has the identity of `G2`, the genes of `G2` point to `G`, and
the repository is consistent again. -/
theorem add_orthologs_merges_other_group (get_gene_variant : String → Except Exception GeneVariant)
    (st : OrthologImport) (others : List OrthologGroup) (G G2 : OrthologGroup)
    (name : String) (gene : Gene)
    (hI : st.database.Inv) (hg : st.database.ortholog_groups = others ++ [G])
    (hget : get_gene_variant name = .ok (.gene gene))
    (hG2 : G2 ∈ others) (hgene : gene ∈ G2.genes) :
    ∃ st2, ortholog_field get_gene_variant G.handle st name = .ok st2
      ∧ st2.cerr = st.cerr ++ [Warning.groups_overlap G2.handle G.handle]
      ∧ st2.database = st.database.merge G.handle G2.handle
      ∧ st2.database.ortholog_groups
          = others.filter (fun X => decide (X.handle ≠ G2.handle)) ++ [G.absorb G2]
      ∧ (G.absorb G2).handle = G.handle
      ∧ (∀ x, x ∈ (G.absorb G2).genes ↔ x ∈ G.genes ∨ x ∈ G2.genes)
      ∧ (∀ i, i ∈ (G.absorb G2).external_ids ↔ i ∈ G.external_ids ∨ i ∈ G2.external_ids)
      ∧ (∀ X ∈ st2.database.ortholog_groups, X.handle ≠ G2.handle)
      ∧ (∀ x ∈ G2.genes, st2.database.gene_group x = some G.handle)
      ∧ st2.database.Inv := by
  have hG2db : G2 ∈ st.database.ortholog_groups := by rw [hg]; exact List.mem_append_left _ hG2
  have hgg : st.database.gene_group gene = some G2.handle :=
    (hI.back_ref gene G2.handle).2 ⟨G2, hG2db, rfl, hgene⟩
  have hnd := hI.handles_nodup
  rw [hg] at hnd
  have hne : G2.handle ≠ G.handle := others_handle_ne hnd G2 hG2
  have hm := merge_eq hI hg hG2
  refine ⟨⟨st.database.merge G.handle G2.handle, st.unknown_genes,
    st.cerr ++ [Warning.groups_overlap G2.handle G.handle]⟩, ?_, rfl, rfl, ?_, rfl,
    absorb_genes G G2, absorb_external_ids G G2, ?_, ?_, merge_inv hI hg hG2⟩
  · simp [ortholog_field, ortholog_field_body, hget, GeneVariant.as_gene, hgg, hne]
  · show (st.database.merge G.handle G2.handle).ortholog_groups = _
    rw [hm]
  · intro X hX
    have hX2 : X ∈ (st.database.merge G.handle G2.handle).ortholog_groups := hX
    rw [hm] at hX2
    simp only [List.mem_append, List.mem_filter, List.mem_singleton] at hX2
    rcases hX2 with ⟨_, h⟩ | h
    · simpa using h
    · rw [h]
      exact hne.symm
  · intro x hx
    show (st.database.merge G.handle G2.handle).gene_group x = _
    rw [hm]
    simp [hx]

theorem overlapDatabase_inv : overlapDatabase.Inv := by
  refine ⟨by simp [overlapDatabase], by simp [overlapDatabase], by simp [overlapDatabase], ?_⟩
  intro g h
  by_cases hx : g = ⟨0, "geneX"⟩
  · simp [overlapDatabase, hx, eq_comm]
  · by_cases hy : g = ⟨0, "geneY"⟩
    · simp [overlapDatabase, hy, eq_comm]
    · simp [overlapDatabase, hx, hy]

theorem add_orthologs_merges_other_group_witness :
    ∃ st2, ortholog_field xyzGenes 1 ⟨overlapDatabase, 0, []⟩ "geneY" = .ok st2
      ∧ st2.cerr = [Warning.groups_overlap 0 1]
      ∧ st2.database.ortholog_groups = [⟨1, ["G2", "G1"], [⟨0, "geneX"⟩, ⟨0, "geneY"⟩]⟩] := by
  obtain ⟨st2, h1, h2, _, h4, _⟩ := add_orthologs_merges_other_group xyzGenes
    ⟨overlapDatabase, 0, []⟩ [⟨0, ["G1"], [⟨0, "geneX"⟩, ⟨0, "geneY"⟩]⟩] ⟨1, ["G2"], []⟩
    ⟨0, ["G1"], [⟨0, "geneX"⟩, ⟨0, "geneY"⟩]⟩ "geneY" ⟨0, "geneY"⟩
    overlapDatabase_inv rfl rfl (by simp) (by simp)
  exact ⟨st2, h1, h2, h4.trans (by decide)⟩

theorem ortholog_field_last (get : String → Except Exception GeneVariant)
    {st st2 : OrthologImport} {name : String} {others : List OrthologGroup}
    {cur : OrthologGroup} (hI : st.database.Inv)
    (hg : st.database.ortholog_groups = others ++ [cur])
    (h : ortholog_field get cur.handle st name = .ok st2) :
    ∃ others2 cur2, st2.database.ortholog_groups = others2 ++ [cur2]
      ∧ cur2.handle = cur.handle ∧ st2.database.Inv
      ∧ (∀ i ∈ cur.external_ids, i ∈ cur2.external_ids) := by
  unfold ortholog_field ortholog_field_body at h
  cases hget : get name with
  | error e =>
    rw [hget] at h
    cases e with
    | not_found w =>
      simp only [Except.ok.injEq] at h
      subst h
      exact ⟨others, cur, hg, rfl, hI, fun i hi => hi⟩
    | typed t m =>
      simp only at h
      split at h
      · exact Except.noConfusion h
      · simp only [Except.ok.injEq] at h
        subst h
        exact ⟨others, cur, hg, rfl, hI, fun i hi => hi⟩
    | out_of_range => exact Except.noConfusion h
    | expectation_failure => exact Except.noConfusion h
    | bad_index i j => exact Except.noConfusion h
    | null_gene_collection => exact Except.noConfusion h
  | ok v =>
    rw [hget] at h
    cases v with
    | splice_variant g0 w =>
      simp only [GeneVariant.as_gene] at h
      split at h
      · exact Except.noConfusion h
      · simp only [Except.ok.injEq] at h
        subst h
        exact ⟨others, cur, hg, rfl, hI, fun i hi => hi⟩
    | gene g =>
      simp only [GeneVariant.as_gene] at h
      cases hgg : st.database.gene_group g with
      | none =>
        rw [hgg] at h
        simp only [Except.ok.injEq] at h
        subst h
        refine ⟨others, { cur with genes := cur.genes ++ [g] }, ?_, rfl, add_inv hI hg hgg,
          fun i hi => hi⟩
        show (st.database.add cur.handle g).ortholog_groups = _
        rw [add_eq hI hg hgg]
      | some h2 =>
        rw [hgg] at h
        simp only at h
        by_cases he : h2 = cur.handle
        · rw [if_pos he] at h
          simp only [Except.ok.injEq] at h
          subst h
          exact ⟨others, cur, hg, rfl, hI, fun i hi => hi⟩
        · rw [if_neg he] at h
          simp only [Except.ok.injEq] at h
          subst h
          obtain ⟨G2, hG2, hh2, hgG2⟩ := (hI.back_ref g h2).1 hgg
          have hG2o : G2 ∈ others := by
            rw [hg] at hG2
            rcases List.mem_append.1 hG2 with h1 | h1
            · exact h1
            · rw [List.mem_singleton] at h1
              subst h1
              exact absurd hh2.symm he
          subst hh2
          refine ⟨others.filter (fun G => decide (G.handle ≠ G2.handle)), cur.absorb G2, ?_, rfl,
            merge_inv hI hg hG2o, fun i hi => ?_⟩
          · show (st.database.merge cur.handle G2.handle).ortholog_groups = _
            rw [merge_eq hI hg hG2o]
          · simp [OrthologGroup.absorb, hi]

theorem ortholog_fields_last (get : String → Except Exception GeneVariant)
    (names : List String) :
    ∀ {st st2 : OrthologImport} {others : List OrthologGroup} {cur : OrthologGroup},
    st.database.Inv → st.database.ortholog_groups = others ++ [cur] →
    ortholog_fields get cur.handle names st = .ok st2 →
    ∃ others2 cur2, st2.database.ortholog_groups = others2 ++ [cur2]
      ∧ cur2.handle = cur.handle ∧ st2.database.Inv
      ∧ (∀ i ∈ cur.external_ids, i ∈ cur2.external_ids) := by
  induction names with
  | nil =>
    intro st st2 others cur hI hg h
    simp only [ortholog_fields, Except.ok.injEq] at h
    subst h
    exact ⟨others, cur, hg, rfl, hI, fun i hi => hi⟩
  | cons name rest ih =>
    intro st st2 others cur hI hg h
    unfold ortholog_fields at h
    cases hf : ortholog_field get cur.handle st name with
    | error e => rw [hf] at h; exact Except.noConfusion h
    | ok st1 =>
      rw [hf] at h
      simp only at h
      obtain ⟨others1, cur1, hg1, hh1, hI1, hids1⟩ := ortholog_field_last get hI hg hf
      rw [← hh1] at h
      obtain ⟨others2, cur2, hg2, hh2, hI2, hids2⟩ := ih hI1 hg1 h
      exact ⟨others2, cur2, hg2, hh2.trans hh1, hI2, fun i hi => hids2 i (hids1 i hi)⟩

/-- C22 (counterexample). The row `G2 geneZ`, a group id and a single gene name, registers
no group: after the table `G1 geneX geneY`, `G2 geneZ` the repository holds the group `G1`
only, geneZ (a known gene) has no group, and the warning about a row with 2 columns was
written. -/
theorem add_orthologs_single_gene_row_not_registered :
    groups_after (add_orthologs xyzGenes [["G1", "geneX", "geneY"], ["G2", "geneZ"]]
        emptyDatabase)
      = some [⟨0, ["G1"], [⟨0, "geneX"⟩, ⟨0, "geneY"⟩]⟩]
    ∧ gene_group_after (add_orthologs xyzGenes [["G1", "geneX", "geneY"], ["G2", "geneZ"]]
        emptyDatabase) ⟨0, "geneZ"⟩ = some none
    ∧ cerr_after (add_orthologs xyzGenes [["G1", "geneX", "geneY"], ["G2", "geneZ"]]
        emptyDatabase) = some [Warning.short_line 2]
    ∧ (⟨0, "geneZ"⟩ : Gene) ∈ line_genes xyzGenes ["geneZ"]
    ∧ ¬ ∃ st, add_orthologs xyzGenes [["G1", "geneX", "geneY"], ["G2", "geneZ"]] emptyDatabase
          = .ok st
        ∧ ∃ G ∈ st.database.ortholog_groups, "G2" ∈ G.external_ids := by
  have hg : groups_after (add_orthologs xyzGenes [["G1", "geneX", "geneY"], ["G2", "geneZ"]]
      emptyDatabase) = some [⟨0, ["G1"], [⟨0, "geneX"⟩, ⟨0, "geneY"⟩]⟩] := by decide
  refine ⟨hg, by decide, by decide, by decide, ?_⟩
  rintro ⟨st, h, G, hG, hid⟩
  rw [h] at hg
  simp only [groups_after, Option.some.injEq] at hg
  rw [hg] at hG
  simp only [List.mem_singleton] at hG
  subst hG
  simp at hid

theorem on_line_registers_group
    (get_gene_variant : String → Except Exception GeneVariant)
    (st st2 : OrthologImport) (id : String) (names : List String)
    (hI : st.database.Inv) (hlen : 3 ≤ (id :: names).length)
    (h : on_line get_gene_variant st (id :: names) = .ok st2) :
    (∃ G ∈ st2.database.ortholog_groups,
      G.handle = st.database.next_handle ∧ id ∈ G.external_ids
      ∧ (∀ G0 ∈ st.database.ortholog_groups, G0.handle ≠ G.handle ∧ id ∉ G0.external_ids)
      ∧ ∀ g ∈ line_genes get_gene_variant names,
          g ∈ G.genes ∧ st2.database.gene_group g = some G.handle) := by
  · unfold on_line at h
    rw [if_neg (by omega)] at h
    simp only at h
    cases ha : st.database.add_ortholog_group id with
    | error e => rw [ha] at h; exact Except.noConfusion h
    | ok p =>
      obtain ⟨db1, hd⟩ := p
      rw [ha] at h
      simp only at h
      obtain ⟨hI1, hg1, hh, hn1, _, hfresh⟩ := add_ortholog_group_spec hI ha
      subst hh
      obtain ⟨others2, cur2, hg2, hh2, hI2, hids2⟩ :=
        @ortholog_fields_last get_gene_variant names { st with database := db1 } st2
          st.database.ortholog_groups ⟨st.database.next_handle, [id], []⟩ hI1 hg1 h
      obtain ⟨_, ⟨cur3, hg3, _, hmem3, _⟩, _⟩ :=
        @ortholog_fields_spec get_gene_variant names { st with database := db1 } st2
          st.database.ortholog_groups ⟨st.database.next_handle, [id], []⟩ hI1 hg1 h
      have hcur : cur3 = cur2 := by
        rw [hg2] at hg3
        exact ((List.append_inj' hg3 rfl).2 ▸ rfl : [cur2] = [cur3]) |> fun e =>
          (List.cons.inj e).1.symm
      subst hcur
      have hin : cur3 ∈ st2.database.ortholog_groups := by rw [hg2]; simp
      refine ⟨cur3, hin, hh2, hids2 id (by simp), ?_, ?_⟩
      · intro G0 hG0
        refine ⟨?_, hfresh G0 hG0⟩
        rw [hh2]
        exact Nat.ne_of_lt (hI.handles_lt G0 hG0)
      · intro g hg
        have hgm : g ∈ cur3.genes := (hmem3 g).2 (Or.inr (Or.inl hg))
        exact ⟨hgm, (hI2.back_ref g cur3.handle).2 ⟨cur3, hin, rfl, hgm⟩⟩

/-- C22 (amended). Let a row have at least three fields. When the repository is consistent,
no group carries the id of the first field yet and no lookup of a gene field raises an error
other than not-found or the splice variant error, `on_line` returns, and the repository then
has a group with a new identity that carries that id (an id and an identity no group had
before) and holds every gene that a gene field of the row resolves to, each pointing back to
it. When some group carries the id already, or the lookup of some gene field raises another
error, `on_line` raises, and its exception ends the loop over the rows. A row with fewer than
three fields only adds a warning. -/
theorem add_orthologs_row_registers_group
    (get_gene_variant : String → Except Exception GeneVariant) (st : OrthologImport) :
    (∀ (id : String) (names : List String), 3 ≤ (id :: names).length →
      (st.database.Inv →
        (∀ G ∈ st.database.ortholog_groups, id ∉ G.external_ids) →
        (∀ name ∈ names, field_ok get_gene_variant name = true) →
        ∃ st2, on_line get_gene_variant st (id :: names) = .ok st2
          ∧ ∃ G ∈ st2.database.ortholog_groups,
              G.handle = st.database.next_handle ∧ id ∈ G.external_ids
              ∧ (∀ G0 ∈ st.database.ortholog_groups,
                  G0.handle ≠ G.handle ∧ id ∉ G0.external_ids)
              ∧ ∀ g ∈ line_genes get_gene_variant names,
                  g ∈ G.genes ∧ st2.database.gene_group g = some G.handle)
      ∧ ((∃ G ∈ st.database.ortholog_groups, id ∈ G.external_ids) →
          ∃ e, on_line get_gene_variant st (id :: names) = .error e)
      ∧ ((∃ name ∈ names, field_ok get_gene_variant name = false) →
          ∃ e, on_line get_gene_variant st (id :: names) = .error e)
      ∧ (∀ (rest : List (List String)) (e : Exception),
          on_line get_gene_variant st (id :: names) = .error e →
          ortholog_lines get_gene_variant ((id :: names) :: rest) st = .error e))
    ∧ (∀ line : List String, line.length < 3 →
        on_line get_gene_variant st line
          = .ok { st with cerr := st.cerr ++ [Warning.short_line line.length] }) := by
  refine ⟨fun id names hlen => ⟨?_, ?_, ?_, ?_⟩, ?_⟩
  · intro hI hfresh hok
    obtain ⟨st2, h⟩ := on_line_ok_of_fresh get_gene_variant st (id :: names)
      (fun id2 hid G hG => by
        simp only [List.head?_cons, Option.some.injEq] at hid
        subst hid
        exact hfresh G hG)
      (fun _ name hname => hok name hname)
    exact ⟨st2, h, on_line_registers_group get_gene_variant st st2 id names hI hlen h⟩
  · rintro ⟨G, hG, hid⟩
    have hany : st.database.ortholog_groups.any (fun G => decide (id ∈ G.external_ids))
        = true := by
      rw [List.any_eq_true]
      exact ⟨G, hG, by simpa using hid⟩
    refine ⟨.typed .GENERIC (.other id), ?_⟩
    unfold on_line
    rw [if_neg (by omega)]
    simp only [Database.add_ortholog_group, hany, if_true]
  · rintro ⟨name, hname, hbad⟩
    cases h : on_line get_gene_variant st (id :: names) with
    | error e => exact ⟨e, rfl⟩
    | ok st2 =>
      have := line_ok_of_on_line get_gene_variant h hlen name hname
      rw [hbad] at this
      exact absurd this (by decide)
  · intro rest e h
    simp only [ortholog_lines, h]
  · intro line hl
    unfold on_line
    rw [if_pos hl]

theorem add_orthologs_row_registers_group_witness :
    (∃ st2, on_line xyzGenes ⟨emptyDatabase, 0, []⟩ ["G1", "geneX", "nameless", "geneY"] = .ok st2
      ∧ ∃ G ∈ st2.database.ortholog_groups,
          G.handle = 0 ∧ "G1" ∈ G.external_ids
          ∧ (∀ G0 ∈ emptyDatabase.ortholog_groups, G0.handle ≠ G.handle ∧ "G1" ∉ G0.external_ids)
          ∧ ∀ g ∈ line_genes xyzGenes ["geneX", "nameless", "geneY"],
              g ∈ G.genes ∧ st2.database.gene_group g = some G.handle)
    ∧ (∃ e, on_line xyzVariants ⟨emptyDatabase, 0, []⟩ ["G1", "geneX", "broken"] = .error e)
    ∧ (∃ e, on_line xyzGenes ⟨geneADatabase, 0, []⟩ ["G1", "geneX", "geneY"] = .error e) :=
  ⟨((add_orthologs_row_registers_group xyzGenes ⟨emptyDatabase, 0, []⟩).1 "G1"
      ["geneX", "nameless", "geneY"] (by decide)).1 (emptyInv 0) (by decide) (by decide),
    ((add_orthologs_row_registers_group xyzVariants ⟨emptyDatabase, 0, []⟩).1 "G1"
      ["geneX", "broken"] (by decide)).2.2.1 (by decide),
    ((add_orthologs_row_registers_group xyzGenes ⟨geneADatabase, 0, []⟩).1 "G1"
      ["geneX", "geneY"] (by decide)).2.1 (by decide)⟩

theorem database_after_field (get : String → Except Exception GeneVariant) (group : GroupHandle)
    (st st2 : OrthologImport) (name : String) (h : st2.database = st.database) :
    database_after (ortholog_field get group st2 name)
      = database_after (ortholog_field get group st name) := by
  obtain ⟨db, u, c⟩ := st
  obtain ⟨db2, u2, c2⟩ := st2
  simp only at h
  subst h
  unfold ortholog_field ortholog_field_body
  cases hget : get name with
  | error e =>
    cases e with
    | not_found w => rfl
    | typed t m =>
      by_cases ht : t = ErrorType.SPLICE_VARIANT_INSTEAD_OF_GENE
      · simp only [ht, ne_eq, not_true_eq_false, if_false]
        rfl
      · simp only [ne_eq, ht, not_false_eq_true, if_true]
    | out_of_range => rfl
    | expectation_failure => rfl
    | bad_index i j => rfl
    | null_gene_collection => rfl
  | ok v =>
    cases v with
    | splice_variant g0 w =>
      simp only [GeneVariant.as_gene, ne_eq, not_true_eq_false, if_false]
      rfl
    | gene g =>
      simp only [GeneVariant.as_gene]
      cases hg : db2.gene_group g with
      | none => rfl
      | some h2 =>
        by_cases he : h2 = group
        · simp only [he, if_true]
          rfl
        · simp only [he, if_false]
          rfl

theorem database_after_eq_ok {r : Except Exception OrthologImport} {db : Database}
    (h : database_after r = .ok db) : ∃ st, r = .ok st ∧ st.database = db := by
  cases r with
  | error e => simp [database_after] at h
  | ok st => exact ⟨st, rfl, by simpa [database_after] using h⟩

theorem database_after_cases {r r2 : Except Exception OrthologImport}
    (h : database_after r2 = database_after r) :
    (∃ e, r = .error e ∧ r2 = .error e)
      ∨ ∃ s s2, r = .ok s ∧ r2 = .ok s2 ∧ s2.database = s.database := by
  cases r with
  | error e =>
    cases r2 with
    | error e2 =>
      simp only [database_after, Except.error.injEq] at h
      exact Or.inl ⟨e, rfl, by rw [h]⟩
    | ok s2 => simp [database_after] at h
  | ok s =>
    cases r2 with
    | error e2 => simp [database_after] at h
    | ok s2 =>
      simp only [database_after, Except.ok.injEq] at h
      exact Or.inr ⟨s, s2, rfl, rfl, h⟩

theorem database_after_fields (get : String → Except Exception GeneVariant) (group : GroupHandle)
    (names : List String) :
    ∀ st st2 : OrthologImport, st2.database = st.database →
      database_after (ortholog_fields get group names st2)
        = database_after (ortholog_fields get group names st) := by
  induction names with
  | nil => intro st st2 h; simp [ortholog_fields, database_after, h]
  | cons name rest ih =>
    intro st st2 h
    simp only [ortholog_fields]
    rcases database_after_cases (database_after_field get group st st2 name h) with
      ⟨e, h1, h2⟩ | ⟨s, s2, h1, h2, hs⟩
    · rw [h1, h2]
    · rw [h1, h2]
      exact ih s s2 hs

theorem database_after_on_line (get : String → Except Exception GeneVariant)
    (line : List String) (st st2 : OrthologImport) (h : st2.database = st.database) :
    database_after (on_line get st2 line) = database_after (on_line get st line) := by
  unfold on_line
  by_cases hlen : line.length < 3
  · simp [hlen, database_after, h]
  · simp only [hlen, if_false]
    cases line with
    | nil => simp [database_after, h]
    | cons id names =>
      simp only [h]
      cases st.database.add_ortholog_group id with
      | error e => rfl
      | ok p => exact database_after_fields get p.2 names _ _ rfl

theorem database_after_lines (get : String → Except Exception GeneVariant)
    (lines : List (List String)) :
    ∀ st st2 : OrthologImport, st2.database = st.database →
      database_after (ortholog_lines get lines st2)
        = database_after (ortholog_lines get lines st) := by
  induction lines with
  | nil => intro st st2 h; simp [ortholog_lines, database_after, h]
  | cons line rest ih =>
    intro st st2 h
    simp only [ortholog_lines]
    rcases database_after_cases (database_after_on_line get line st st2 h) with
      ⟨e, h1, h2⟩ | ⟨s, s2, h1, h2, hs⟩
    · rw [h1, h2]
    · rw [h1, h2]
      exact ih s s2 hs

theorem ortholog_field_settled (get : String → Except Exception GeneVariant)
    (group : GroupHandle) (st : OrthologImport) (name : String)
    (hok : field_ok get name = true)
    (hs : ∀ g, get name = .ok (.gene g) → st.database.gene_group g = some group) :
    ∃ st2, ortholog_field get group st name = .ok st2 ∧ st2.database = st.database := by
  unfold field_ok at hok
  unfold ortholog_field ortholog_field_body
  cases hget : get name with
  | error e =>
    rw [hget] at hok
    cases e with
    | not_found w => exact ⟨_, rfl, rfl⟩
    | typed t m =>
      have ht : t = ErrorType.SPLICE_VARIANT_INSTEAD_OF_GENE := by simpa using hok
      simp only [ht, ne_eq, not_true_eq_false, if_false]
      exact ⟨_, rfl, rfl⟩
    | out_of_range => simp at hok
    | expectation_failure => simp at hok
    | bad_index i j => simp at hok
    | null_gene_collection => simp at hok
  | ok v =>
    cases v with
    | splice_variant g0 w =>
      simp only [GeneVariant.as_gene, ne_eq, not_true_eq_false, if_false]
      exact ⟨_, rfl, rfl⟩
    | gene g =>
      simp only [GeneVariant.as_gene, hs g hget, if_true]
      exact ⟨_, rfl, rfl⟩

theorem fields_without_later (get : String → Except Exception GeneVariant) (name : String)
    (hok : field_ok get name = true) (rest : List String) :
    ∀ (st : OrthologImport) (others : List OrthologGroup) (cur : OrthologGroup),
      st.database.Inv → st.database.ortholog_groups = others ++ [cur] →
      (∀ g, get name = .ok (.gene g) → g ∈ cur.genes) →
      database_after (ortholog_fields get cur.handle rest st)
        = database_after (ortholog_fields get cur.handle
            (rest.filter (fun field => decide (field ≠ name))) st) := by
  induction rest with
  | nil => intro st others cur _ _ _; rfl
  | cons x r ih =>
    intro st others cur hI hg hs
    have hcur : cur ∈ st.database.ortholog_groups := by rw [hg]; simp
    by_cases hx : x = name
    · subst hx
      have hf : (x :: r).filter (fun field => decide (field ≠ x))
          = r.filter (fun field => decide (field ≠ x)) := by simp
      rw [hf, ← ih st others cur hI hg hs]
      obtain ⟨st1, h1, hdb⟩ := ortholog_field_settled get cur.handle st x hok
        (fun g hget => (hI.back_ref g cur.handle).2 ⟨cur, hcur, rfl, hs g hget⟩)
      simp only [ortholog_fields, h1]
      exact database_after_fields get cur.handle r st st1 hdb
    · have hf : (x :: r).filter (fun field => decide (field ≠ name))
          = x :: r.filter (fun field => decide (field ≠ name)) := by simp [hx]
      rw [hf]
      simp only [ortholog_fields]
      cases h1 : ortholog_field get cur.handle st x with
      | error e => rfl
      | ok st1 =>
        simp only
        obtain ⟨hI1, ⟨cur1, hg1, hh1, hmem1, _⟩, _⟩ := ortholog_field_spec get hI hg h1
        rw [← hh1]
        exact ih st1 _ cur1 hI1 hg1 (fun g hget => (hmem1 g).2 (Or.inl (hs g hget)))

theorem fields_without_repeats (get : String → Except Exception GeneVariant)
    (before : List String) (name : String) (after : List String)
    (st : OrthologImport) (others : List OrthologGroup) (cur : OrthologGroup)
    (hI : st.database.Inv) (hg : st.database.ortholog_groups = others ++ [cur]) :
    database_after (ortholog_fields get cur.handle (before ++ name :: after) st)
      = database_after (ortholog_fields get cur.handle (without_repeats before name after) st) := by
  unfold without_repeats
  rw [ortholog_fields_append, ortholog_fields_append]
  cases h0 : ortholog_fields get cur.handle before st with
  | error e => rfl
  | ok s0 =>
    simp only [ortholog_fields]
    obtain ⟨hI0, ⟨cur0, hg0, hh0, _, _⟩, _⟩ := ortholog_fields_spec get before hI hg h0
    cases h1 : ortholog_field get cur.handle s0 name with
    | error e => rfl
    | ok s1 =>
      simp only
      have hok : field_ok get name = true :=
        (ortholog_field_ok_iff get cur.handle s0 name).1 ⟨s1, h1⟩
      rw [← hh0] at h1 ⊢
      obtain ⟨hI1, ⟨cur1, hg1, hh1, hmem1, _⟩, _⟩ := ortholog_field_spec get hI0 hg0 h1
      rw [← hh1]
      refine fields_without_later get name hok after s1 _ cur1 hI1 hg1 ?_
      intro g hget
      refine (hmem1 g).2 (Or.inr (Or.inl ?_))
      simp [line_genes, hget]

theorem on_line_without_repeats (get : String → Except Exception GeneVariant)
    (id : String) (before : List String) (name : String) (after : List String)
    (st : OrthologImport) (hI : st.database.Inv)
    (hlen : 3 ≤ (id :: without_repeats before name after).length) :
    database_after (on_line get st (id :: (before ++ name :: after)))
      = database_after (on_line get st (id :: without_repeats before name after)) := by
  have hle : (without_repeats before name after).length ≤ (before ++ name :: after).length := by
    simp only [without_repeats, List.length_append, List.length_cons]
    have := List.length_filter_le (fun field => decide (field ≠ name)) after
    omega
  have h1 : ¬ (id :: (before ++ name :: after)).length < 3 := by
    simp only [List.length_cons] at hlen ⊢
    omega
  have h2 : ¬ (id :: without_repeats before name after).length < 3 := by omega
  unfold on_line
  rw [if_neg h1, if_neg h2]
  simp only
  cases ha : st.database.add_ortholog_group id with
  | error e => rfl
  | ok p =>
    obtain ⟨db1, group⟩ := p
    simp only
    obtain ⟨hI1, hg1, hh, _, _, _⟩ := add_ortholog_group_spec hI ha
    exact fields_without_repeats get before name after { st with database := db1 }
      st.database.ortholog_groups ⟨group, [id], []⟩ hI1 hg1

theorem ortholog_lines_append (get : String → Except Exception GeneVariant)
    (a b : List (List String)) :
    ∀ st, ortholog_lines get (a ++ b) st
      = match ortholog_lines get a st with
        | .ok st1 => ortholog_lines get b st1
        | .error e => .error e := by
  induction a with
  | nil => intro st; rfl
  | cons line rest ih =>
    intro st
    simp only [List.cons_append, ortholog_lines]
    cases on_line get st line with
    | error e => rfl
    | ok s => exact ih s

/-- C23 (counterexample). The row `G1 geneX geneX` registers the group `G1` with geneX, while
the same row without the later occurrence of geneX, `G1 geneX`, has two fields and is skipped:
the final groups differ. -/
theorem add_orthologs_repeat_in_short_row :
    groups_after (add_orthologs xyzGenes [["G1", "geneX", "geneX"]] emptyDatabase)
      = some [⟨0, ["G1"], [⟨0, "geneX"⟩]⟩]
    ∧ ("G1" :: without_repeats [] "geneX" ["geneX"]) = ["G1", "geneX"]
    ∧ groups_after (add_orthologs xyzGenes [["G1", "geneX"]] emptyDatabase) = some []
    ∧ groups_after (add_orthologs xyzGenes [["G1", "geneX", "geneX"]] emptyDatabase)
      ≠ groups_after (add_orthologs xyzGenes ["G1" :: without_repeats [] "geneX" ["geneX"]]
          emptyDatabase) := by
  decide

/-- C23 (amended). When a row still has at least three fields after the later occurrences of
one of its gene names are removed, the table with the row and the table with the shortened row
end alike: both imports return with the same repository (groups and back-references), or both
raise the same exception. -/
theorem add_orthologs_repeated_name (get_gene_variant : String → Except Exception GeneVariant)
    (db : Database) (rows_before rows_after : List (List String))
    (id : String) (before : List String) (name : String) (after : List String)
    (hI : db.Inv) (hlen : 3 ≤ (id :: without_repeats before name after).length) :
    database_after (add_orthologs get_gene_variant
        (rows_before ++ (id :: (before ++ name :: after)) :: rows_after) db)
      = database_after (add_orthologs get_gene_variant
        (rows_before ++ (id :: without_repeats before name after) :: rows_after) db) := by
  rw [add_orthologs_eq, add_orthologs_eq, ortholog_lines_append, ortholog_lines_append]
  cases h0 : ortholog_lines get_gene_variant rows_before ⟨db, 0, []⟩ with
  | error e => rfl
  | ok s0 =>
    simp only [ortholog_lines]
    have hI0 : s0.database.Inv :=
      (@ortholog_lines_spec get_gene_variant rows_before ⟨db, 0, []⟩ s0 hI h0).1
    rcases database_after_cases
      (on_line_without_repeats get_gene_variant id before name after s0 hI0 hlen).symm with
      ⟨e, h1, h2⟩ | ⟨s, s2, h1, h2, hs⟩
    · rw [h1, h2]
    · rw [h1, h2]
      exact (database_after_lines get_gene_variant rows_after s s2 hs).symm

theorem add_orthologs_repeated_name_witness :
    database_after (add_orthologs xyzGenes
        ([] ++ ("G1" :: (["geneY"] ++ "geneX" :: ["geneZ", "geneX"])) :: [["G2", "geneX"]])
        emptyDatabase)
      = database_after (add_orthologs xyzGenes
        ([] ++ ("G1" :: without_repeats ["geneY"] "geneX" ["geneZ", "geneX"])
          :: [["G2", "geneX"]]) emptyDatabase) :=
  add_orthologs_repeated_name xyzGenes emptyDatabase [] [["G2", "geneX"]] "G1" ["geneY"] "geneX"
    ["geneZ", "geneX"] (emptyInv 0) (by decide)

/-! ## Theorems: `infimum` -/

theorem infimum_eq_getLast {K V : Type} [LinearOrder K] (map_ : List (K × V)) (value : K) :
    infimum map_ value = (map_.takeWhile (fun entry => decide (entry.1 ≤ value))).getLast? := by
  unfold infimum upper_bound
  have hsplit := List.takeWhile_append_dropWhile (fun entry : K × V => decide (entry.1 ≤ value)) map_
  generalize hT : map_.takeWhile (fun entry => decide (entry.1 ≤ value)) = T at hsplit
  simp only
  by_cases h0 : T.length = 0
  · have : T = [] := List.length_eq_zero.1 h0
    subst this
    simp
  · rw [if_neg h0]
    have hlt : T.length - 1 < T.length := by omega
    rw [← hsplit, List.get?_eq_getElem?, List.getElem?_append_left hlt,
      List.getLast?_eq_getElem?]

theorem infimum_spec {K V : Type} [LinearOrder K] (map_ : List (K × V)) (value : K)
    (hsorted : map_.Pairwise (fun a b => a.1 < b.1)) :
    (∀ entry, infimum map_ value = some entry →
      entry ∈ map_ ∧ entry.1 ≤ value ∧ ∀ other ∈ map_, other.1 ≤ value → other.1 ≤ entry.1)
    ∧ ((∃ other ∈ map_, other.1 ≤ value) → ∃ entry, infimum map_ value = some entry) := by
  have hsplit := List.takeWhile_append_dropWhile (fun entry : K × V => decide (entry.1 ≤ value)) map_
  have hT : ∀ x ∈ map_.takeWhile (fun entry => decide (entry.1 ≤ value)), x.1 ≤ value := by
    intro x hx
    simpa using List.mem_takeWhile_imp hx
  have hD : ∀ x ∈ map_.dropWhile (fun entry => decide (entry.1 ≤ value)), value < x.1 := by
    intro x hx
    cases hd : map_.dropWhile (fun entry => decide (entry.1 ≤ value)) with
    | nil => rw [hd] at hx; simp at hx
    | cons y rest =>
      have hy : ¬ y.1 ≤ value := by
        have := List.head_dropWhile_not (fun entry : K × V => decide (entry.1 ≤ value)) map_
          (by rw [hd]; simp)
        simpa [hd] using this
      have hs : (y :: rest).Pairwise (fun a b => a.1 < b.1) := by
        rw [← hd]
        exact hsorted.sublist (List.dropWhile_sublist _)
      rw [hd] at hx
      rcases List.mem_cons.1 hx with e | e
      · rw [e]; exact not_le.1 hy
      · exact lt_trans (not_le.1 hy) (List.rel_of_pairwise_cons hs e)
  rw [infimum_eq_getLast]
  constructor
  · intro entry he
    have hmemT : entry ∈ map_.takeWhile (fun entry => decide (entry.1 ≤ value)) :=
      List.mem_of_getLast?_eq_some he
    refine ⟨(List.takeWhile_sublist _).subset hmemT, hT entry hmemT, ?_⟩
    intro other ho hle
    have hoT : other ∈ map_.takeWhile (fun entry => decide (entry.1 ≤ value)) := by
      rw [← hsplit] at ho
      rcases List.mem_append.1 ho with h | h
      · exact h
      · exact absurd hle (not_le.2 (hD other h))
    have hsT : (map_.takeWhile (fun entry => decide (entry.1 ≤ value))).Pairwise
        (fun a b => a.1 < b.1) := hsorted.sublist (List.takeWhile_sublist _)
    obtain ⟨init, hinit⟩ : ∃ init, map_.takeWhile (fun entry => decide (entry.1 ≤ value))
        = init ++ [entry] := by
      rw [List.getLast?_eq_some_iff] at he
      exact he
    rw [hinit] at hoT hsT
    rcases List.mem_append.1 hoT with h | h
    · exact le_of_lt ((List.pairwise_append.1 hsT).2.2 other h entry (by simp))
    · rw [List.mem_singleton.1 h]
  · rintro ⟨other, ho, hle⟩
    have hoT : other ∈ map_.takeWhile (fun entry => decide (entry.1 ≤ value)) := by
      rw [← hsplit] at ho
      rcases List.mem_append.1 ho with h | h
      · exact h
      · exact absurd hle (not_le.2 (hD other h))
    cases hl : (map_.takeWhile (fun entry => decide (entry.1 ≤ value))).getLast? with
    | none =>
      rw [List.getLast?_eq_none_iff] at hl
      rw [hl] at hoT
      simp at hoT
    | some e => exact ⟨e, rfl⟩

theorem eq_of_key_eq {K V : Type} [LinearOrder K] (map_ : List (K × V))
    (hsorted : map_.Pairwise (fun a b => a.1 < b.1)) (a b : K × V)
    (ha : a ∈ map_) (hb : b ∈ map_) (h : a.1 = b.1) : a = b := by
  induction map_ with
  | nil => simp at ha
  | cons x rest ih =>
    rw [List.pairwise_cons] at hsorted
    rcases List.mem_cons.1 ha with ea | ea
    · rcases List.mem_cons.1 hb with eb | eb
      · rw [ea, eb]
      · have := hsorted.1 b eb
        rw [← ea, h] at this
        exact absurd this (lt_irrefl _)
    · rcases List.mem_cons.1 hb with eb | eb
      · have := hsorted.1 a ea
        rw [← eb, h] at this
        exact absurd this (lt_irrefl _)
      · exact ih hsorted.2 ea eb

/-- C24. The `infimum` returns the entry with the greatest key that is smaller than or equal to
the given key, not the greatest key strictly smaller: in the map `1 -> a, 3 -> b` the key 3
gives the entry of 3 although the entry of 1 is the one with the greatest smaller key, and in
every map a key that is present gives its own entry. -/
theorem infimum_returns_present_key :
    infimum [((1 : Nat), "a"), (3, "b")] 3 = some (3, "b")
    ∧ (((1 : Nat), "a") ∈ [((1 : Nat), "a"), (3, "b")] ∧ (1 : Nat) < 3
        ∧ ∀ other ∈ [((1 : Nat), "a"), (3, "b")], other.1 < 3 → other.1 ≤ 1)
    ∧ (∀ (K V : Type) [LinearOrder K] (map_ : List (K × V)),
        map_.Pairwise (fun a b => a.1 < b.1) →
        ∀ entry ∈ map_, infimum map_ entry.1 = some entry)
    ∧ (∀ (K V : Type) [LinearOrder K] (map_ : List (K × V)) (value : K),
        map_.Pairwise (fun a b => a.1 < b.1) →
        ∀ entry, infimum map_ value = some entry →
          entry ∈ map_ ∧ entry.1 ≤ value
            ∧ ∀ other ∈ map_, other.1 ≤ value → other.1 ≤ entry.1) := by
  refine ⟨by decide, ⟨by decide, by decide, by decide⟩, ?_, ?_⟩
  · intro K V _ map_ hsorted entry he
    obtain ⟨h1, h2⟩ := infimum_spec map_ entry.1 hsorted
    obtain ⟨found, hf⟩ := h2 ⟨entry, he, le_refl _⟩
    obtain ⟨hm, hle, hmax⟩ := h1 found hf
    rw [hf, eq_of_key_eq map_ hsorted found entry hm he (le_antisymm hle (hmax entry he (le_refl _)))]
  · intro K V _ map_ value hsorted
    exact (infimum_spec map_ value hsorted).1

/-! ## Theorems: rows wider than the matrix -/

theorem matrix_values_overflow (vs : List Double) :
    ∀ (st : MatrixImport) (n : Nat), st.skip_line = false → 0 ≤ st.i →
      st.i < st.gem.size1 → st.j = (n : Int) - 1 → n ≤ st.gem.size2 →
      st.gem.size2 < n + vs.length →
      matrix_values vs st = .error (.bad_index st.i st.gem.size2) := by
  induction vs with
  | nil => intro st n _ _ _ _ h1 h2; simp at h2; omega
  | cons v rest ih =>
    intro st n hs hi0 hi hj hn hlen
    simp only [List.length_cons] at hlen
    unfold matrix_values on_gene_value
    simp only [hs, Bool.false_eq_true, if_false]
    by_cases hlt : n < st.gem.size2
    · have hcond : 0 ≤ st.i ∧ st.i < st.gem.size1 ∧ 0 ≤ st.j + 1 ∧ st.j + 1 < st.gem.size2 := by
        rw [hj]
        refine ⟨hi0, hi, by omega, ?_⟩
        have : (n : Int) < st.gem.size2 := by exact_mod_cast hlt
        omega
      simp only [hcond, and_self, if_true]
      exact ih _ (n + 1) rfl hi0 hi (by simp only [hj]; push_cast; ring) (by simp only; omega)
        (by simp only; omega)
    · have heq : n = st.gem.size2 := by omega
      have hcond : ¬ (0 ≤ st.i ∧ st.i < st.gem.size1 ∧ 0 ≤ st.j + 1 ∧ st.j + 1 < st.gem.size2) := by
        rw [hj]
        intro h
        have : ((n : Int) - 1 + 1) < st.gem.size2 := h.2.2.2
        have h2 : (n : Int) = st.gem.size2 := by exact_mod_cast heq
        omega
      rw [if_neg hcond]
      have : st.j + 1 = (st.gem.size2 : Int) := by
        rw [hj]
        have h2 : (n : Int) = st.gem.size2 := by exact_mod_cast heq
        omega
      rw [this]

/-- C25. A data row with more values than the header has columns is not rejected before the
store: for the file with the header `id s1 s2` and the row `geneA 1 2 3` the matrix has one row
and two columns, and the call ends in the element access at row 0, column 2. In general the
values of a resolving row are stored one after the other until the access at column `size2`,
one past the last column, is made; no test of the column index precedes it. -/
theorem add_gene_expression_matrix_wide_row :
    error_of (add_gene_expression_matrix abcGenes "m" wideRowFile [])
      = some (.bad_index 0 2)
    ∧ wideRowFile.columns = 2 ∧ wideRowFile.line_count - 1 = 1
    ∧ ∀ (st : MatrixImport) (values : List Double), st.skip_line = false → 0 ≤ st.i →
        st.i < st.gem.size1 → st.j = -1 → st.gem.size2 < values.length →
        matrix_values values st = .error (.bad_index st.i st.gem.size2) := by
  refine ⟨by decide, by decide, by decide, ?_⟩
  intro st values hs hi0 hi hj hlen
  exact matrix_values_overflow values st 0 hs hi0 hi (by rw [hj]; simp) (Nat.zero_le _)
    (by omega)

/-! ## Theorems: `Ranking::rank_genes` -/

theorem prod_row_ones {D : Type} (A : DoubleArithmetic D) (hone : ∀ x, A.mul x A.one = x)
    (row : List D) :
    prod_row A row (List.replicate row.length A.one) = row.foldl A.add A.zero := by
  unfold prod_row
  generalize A.zero = t
  induction row generalizing t with
  | nil => rfl
  | cons x rest ih =>
    simp only [List.length_cons, List.replicate_succ, List.zip_cons_cons, List.foldl_cons, hone]
    exact ih _

theorem project_assign_apply {D : Type} (values : Nat → D) (candidates : List Nat) :
    ∀ (rankings : Nat → D) (gene : Nat),
      project_assign values candidates rankings gene
        = if gene ∈ candidates then values gene else rankings gene := by
  induction candidates with
  | nil => intro rankings gene; simp [project_assign]
  | cons c rest ih =>
    intro rankings gene
    simp only [project_assign, ih, List.mem_cons]
    by_cases h1 : gene ∈ rest
    · simp [h1]
    · by_cases h2 : gene = c
      · simp [h1, h2]
      · simp [h1, h2]

theorem rank_cluster_spec {D : Type} (A : DoubleArithmetic D) (inp : RankingInput D)
    (hone : ∀ x, A.mul x A.one = x) (rankings : Nat → D) (cluster : List Nat)
    (hin : ∀ g ∈ cluster, g < inp.size1 ∧ g < inp.size2) :
    ∃ rankings2, rank_cluster A inp rankings cluster = some rankings2
      ∧ (∀ c, ((∃ g ∈ inp.genes_of_interest, g ∈ cluster) ∧ c ∈ cluster
            ∧ c ∉ inp.genes_of_interest) →
          rankings2 c = mean A ((inp.genes_of_interest.filter
              (fun g => decide (g ∈ cluster))).map (fun g => inp.gene_correlations c g)))
      ∧ (∀ c, ¬ ((∃ g ∈ inp.genes_of_interest, g ∈ cluster) ∧ c ∈ cluster
            ∧ c ∉ inp.genes_of_interest) → rankings2 c = rankings c) := by
  unfold rank_cluster
  simp only [contains]
  by_cases h1 : (inp.genes_of_interest.filter (fun g => decide (g ∈ cluster))).length = 0
  · rw [if_pos h1]
    have hnone : ¬ ∃ g ∈ inp.genes_of_interest, g ∈ cluster := by
      rintro ⟨g, hg, hgc⟩
      have : g ∈ inp.genes_of_interest.filter (fun g => decide (g ∈ cluster)) := by
        simp [List.mem_filter, hg, hgc]
      rw [List.length_eq_zero.1 h1] at this
      simp at this
    exact ⟨rankings, rfl, fun c hc => absurd hc.1 hnone, fun _ _ => rfl⟩
  · rw [if_neg h1]
    have hsome : ∃ g ∈ inp.genes_of_interest, g ∈ cluster := by
      obtain ⟨g, hg⟩ := List.exists_mem_of_length_pos (Nat.pos_of_ne_zero h1)
      simp only [List.mem_filter, decide_eq_true_eq] at hg
      exact ⟨g, hg.1, hg.2⟩
    by_cases h2 : (cluster.filter
        (fun gene => !decide (gene ∈ inp.genes_of_interest))).length = 0
    · rw [if_pos h2]
      refine ⟨rankings, rfl, ?_, fun _ _ => rfl⟩
      rintro c ⟨_, hc, hn⟩
      have : c ∈ cluster.filter (fun gene => !decide (gene ∈ inp.genes_of_interest)) := by
        simp [List.mem_filter, hc, hn]
      rw [List.length_eq_zero.1 h2] at this
      simp at this
    · rw [if_neg h2]
      have hchk : ((cluster.filter (fun gene => !decide (gene ∈ inp.genes_of_interest))).all
            (fun gene => decide (gene < inp.size1))
          && (inp.genes_of_interest.filter (fun g => decide (g ∈ cluster))).all
            (fun gene => decide (gene < inp.size2))) = true := by
        simp only [Bool.and_eq_true, List.all_eq_true, List.mem_filter, decide_eq_true_eq]
        exact ⟨fun g hg => (hin g hg.1).1, fun g hg => (hin g hg.2).2⟩
      rw [if_pos hchk]
      refine ⟨_, rfl, ?_, ?_⟩
      · rintro c ⟨_, hc, hn⟩
        rw [project_assign_apply]
        have : c ∈ cluster.filter (fun gene => !decide (gene ∈ inp.genes_of_interest)) := by
          simp [List.mem_filter, hc, hn]
        rw [if_pos this]
        unfold mean
        have hl : (inp.genes_of_interest.filter (fun g => decide (g ∈ cluster))).length
            = ((inp.genes_of_interest.filter (fun g => decide (g ∈ cluster))).map
                (fun g => inp.gene_correlations c g)).length := by simp
        rw [hl, prod_row_ones A hone]
      · intro c hc
        rw [project_assign_apply]
        have : c ∉ cluster.filter (fun gene => !decide (gene ∈ inp.genes_of_interest)) := by
          intro hmem
          simp only [List.mem_filter, Bool.not_eq_true', decide_eq_false_iff_not] at hmem
          exact hc ⟨hsome, hmem.1, hmem.2⟩
        rw [if_neg this]

theorem rank_clusters_spec {D : Type} (A : DoubleArithmetic D) (inp : RankingInput D)
    (hone : ∀ x, A.mul x A.one = x) (clusters : List (List Nat)) :
    ∀ (rankings : Nat → D),
      clusters.Pairwise (fun a b => ∀ g ∈ a, g ∉ b) →
      (∀ cluster ∈ clusters, ∀ g ∈ cluster, g < inp.size1 ∧ g < inp.size2) →
      ∃ rankings2, rank_clusters A inp clusters rankings = some rankings2
        ∧ (∀ cluster ∈ clusters, (∃ g ∈ inp.genes_of_interest, g ∈ cluster) →
            ∀ c ∈ cluster, c ∉ inp.genes_of_interest →
              rankings2 c = mean A ((inp.genes_of_interest.filter
                (fun g => decide (g ∈ cluster))).map (fun g => inp.gene_correlations c g)))
        ∧ (∀ c, (∀ cluster ∈ clusters, c ∈ cluster →
              c ∈ inp.genes_of_interest ∨ ∀ g ∈ inp.genes_of_interest, g ∉ cluster) →
            rankings2 c = rankings c) := by
  induction clusters with
  | nil =>
    intro rankings _ _
    exact ⟨rankings, rfl, by simp, fun _ _ => rfl⟩
  | cons K rest ih =>
    intro rankings hp hin
    rw [List.pairwise_cons] at hp
    obtain ⟨r1, h1, hset, hkeep⟩ := rank_cluster_spec A inp hone rankings K
      (hin K (List.mem_cons_self _ _))
    obtain ⟨r2, h2, hset2, hkeep2⟩ := ih r1 hp.2
      (fun cluster hc => hin cluster (List.mem_cons_of_mem _ hc))
    refine ⟨r2, by simp only [rank_clusters, h1, h2], ?_, ?_⟩
    · intro cluster hc hgoi c hcc hn
      rcases List.mem_cons.1 hc with e | e
      · subst e
        rw [hkeep2 c (fun other ho hco => absurd hco (hp.1 other ho c hcc))]
        exact hset c ⟨hgoi, hcc, hn⟩
      · exact hset2 cluster e hgoi c hcc hn
    · intro c hc
      rw [hkeep2 c (fun cluster hcl => hc cluster (List.mem_cons_of_mem _ hcl))]
      apply hkeep
      rintro ⟨⟨g, hg, hgK⟩, hcK, hn⟩
      rcases hc K (List.mem_cons_self _ _) hcK with h | h
      · exact hn h
      · exact h g hg hgK

/-- C26. For pairwise disjoint clusters whose genes are indices of the correlation matrix, and
a matrix of at least three rows, `rank_genes` returns and: in every cluster that holds a gene of
interest, each member `c` that is not a gene of interest has `rankings(c)` equal to the mean of
`gene_correlations(c, g)` over the genes of interest `g` in that cluster; every gene of
interest, and every gene none of whose clusters holds a gene of interest, keeps -99. Of the
arithmetic of `double` only `x * 1 = x` is used. -/
theorem rank_genes_cluster_means {D : Type} (A : DoubleArithmetic D) (inp : RankingInput D)
    (hone : ∀ x, A.mul x A.one = x)
    (hdisjoint : inp.clusters.Pairwise (fun a b => ∀ g ∈ a, g ∉ b))
    (hin : ∀ cluster ∈ inp.clusters, ∀ g ∈ cluster, g < inp.size1 ∧ g < inp.size2)
    (hsize : 3 ≤ inp.size1) :
    ∃ rankings, Ranking A inp = some rankings
      ∧ (∀ cluster ∈ inp.clusters, (∃ g ∈ inp.genes_of_interest, g ∈ cluster) →
          ∀ c ∈ cluster, c ∉ inp.genes_of_interest →
            rankings c = mean A ((inp.genes_of_interest.filter
              (fun g => decide (g ∈ cluster))).map (fun g => inp.gene_correlations c g)))
      ∧ (∀ g ∈ inp.genes_of_interest, rankings g = A.minus_99)
      ∧ (∀ c, (∀ cluster ∈ inp.clusters, c ∈ cluster →
            ∀ g ∈ inp.genes_of_interest, g ∉ cluster) → rankings c = A.minus_99) := by
  obtain ⟨r, h, hset, hkeep⟩ := rank_clusters_spec A inp hone inp.clusters
    (fun _ => A.minus_99) hdisjoint hin
  refine ⟨r, by simp only [Ranking, rank_genes, h, hsize, if_true], hset, ?_, ?_⟩
  · intro g hg
    exact hkeep g (fun _ _ _ => Or.inl hg)
  · intro c hc
    exact hkeep c (fun cluster hcl hcc => Or.inr (hc cluster hcl hcc))

theorem rank_genes_cluster_means_witness :
    ∃ rankings, Ranking exactArithmetic exampleRanking = some rankings
      ∧ rankings 2 = mean exactArithmetic [2, 4] ∧ mean exactArithmetic [2, 4] = 3
      ∧ rankings 0 = -99 ∧ rankings 1 = -99 ∧ rankings 3 = -99 ∧ rankings 4 = -99 := by
  obtain ⟨rankings, h, hset, hgoi, hkeep⟩ := rank_genes_cluster_means exactArithmetic
    exampleRanking (fun x => mul_one x) (by decide) (by decide) (by decide)
  have h2 := hset [0, 1, 2] (by decide) ⟨0, by decide, by decide⟩ 2 (by decide) (by decide)
  refine ⟨rankings, h, ?_, ?_, hgoi 0 (by decide), hgoi 1 (by decide),
    hkeep 3 ?_, hkeep 4 ?_⟩
  · rw [h2]
    simp [exampleRanking]
    norm_num
  · norm_num [mean, exactArithmetic]
  · decide
  · decide

/-! ## Theorems: genes in several matrices -/

theorem matrix_rows_keys_nodup (lookup : String → Option GeneVariant)
    (rows : List (String × List Double)) :
    ∀ st st2, matrix_rows lookup rows st = .ok st2 →
      (st.gem.gene_to_row.map Prod.fst).Nodup → (st2.gem.gene_to_row.map Prod.fst).Nodup := by
  induction rows with
  | nil =>
    intro st st2 h hnd
    simp only [matrix_rows, Except.ok.injEq] at h
    subst h
    exact hnd
  | cons row rest ih =>
    intro st st2 h hnd
    unfold matrix_rows at h
    cases h1 : matrix_row lookup st row with
    | error e => rw [h1] at h; exact Except.noConfusion h
    | ok st1 =>
      rw [h1] at h
      apply ih st1 st2 h
      obtain ⟨hk, hfresh⟩ := matrix_row_keys lookup h1
      rw [hk]
      obtain ⟨name, values⟩ := row
      cases hl : lookup name with
      | none => rw [resolved_rows_none lookup name values hl]; simpa using hnd
      | some v =>
        rw [resolved_rows_some lookup name values v hl]
        simp only [List.map_cons, List.map_nil]
        rw [List.nodup_append]
        refine ⟨hnd, List.nodup_singleton _, ?_⟩
        intro a ha hb
        rw [List.mem_singleton] at hb
        subst hb
        exact hfresh v hl ha

theorem add_gene_expression_matrix_keys (lookup : String → Option GeneVariant)
    (name : String) (file : MatrixFile) (matrices registered : List GeneExpressionMatrix)
    (h : add_gene_expression_matrix lookup name file matrices = .ok registered) :
    ∃ gem : GeneExpressionMatrix, registered = matrices ++ [gem] ∧ gem.get_genes.Nodup := by
  unfold add_gene_expression_matrix at h
  cases hr : read_gene_expression_matrix lookup name file with
  | error e => rw [hr] at h; exact Except.noConfusion h
  | ok st =>
    rw [hr] at h
    simp only at h
    cases hc : st.gem.gene_collection with
    | none => rw [hc] at h; exact Except.noConfusion h
    | some c =>
      rw [hc] at h
      simp only [Except.ok.injEq] at h
      refine ⟨st.gem, h.symm, ?_⟩
      unfold read_gene_expression_matrix at hr
      split at hr
      · exact Except.noConfusion hr
      · cases hm : matrix_rows lookup file.rows
            ⟨{ name := name, gene_collection := none, size1 := file.line_count - 1,
               size2 := file.columns, expression_matrix := fun _ _ => none,
               gene_to_row := [], row_to_gene := [] }, -1, -1, false, []⟩ with
        | error e => simp only [hm] at hr; exact Except.noConfusion hr
        | ok st1 =>
          simp only [hm] at hr
          split at hr
          · exact Except.noConfusion hr
          · simp only [Except.ok.injEq] at hr
            subst hr
            exact matrix_rows_keys_nodup lookup file.rows _ _ hm (by simp)

theorem read_yaml_matrices_keys (lookup : String → Option GeneVariant)
    (files : List (String × MatrixFile)) :
    ∀ (registered expression_matrices registered2 loaded : List GeneExpressionMatrix),
      read_yaml_matrices lookup files registered expression_matrices = .ok (registered2, loaded) →
      (∀ m ∈ expression_matrices, m.get_genes.Nodup) → ∀ m ∈ loaded, m.get_genes.Nodup := by
  induction files with
  | nil =>
    intro registered ems registered2 loaded h hnd
    simp only [read_yaml_matrices, Except.ok.injEq, Prod.mk.injEq] at h
    rw [← h.2]
    exact hnd
  | cons f rest ih =>
    intro registered ems registered2 loaded h hnd
    obtain ⟨path, file⟩ := f
    simp only [read_yaml_matrices] at h
    cases ha : add_gene_expression_matrix lookup path file registered with
    | error e => rw [ha] at h; exact Except.noConfusion h
    | ok reg1 =>
      rw [ha] at h
      simp only at h
      obtain ⟨gem, hreg, hgem⟩ := add_gene_expression_matrix_keys lookup path file registered reg1 ha
      apply ih _ _ _ _ h
      intro m hm
      rw [hreg, List.drop_left] at hm
      rcases List.mem_append.1 hm with h1 | h1
      · exact hnd m h1
      · rw [List.mem_singleton.1 h1]
        exact hgem

theorem read_yaml_imports_keys (lookup : String → Option GeneVariant)
    (read_orthologs_yaml : Database → Except Exception Database) (job : Job) (db db1 : Database)
    (registered registered1 loaded : List GeneExpressionMatrix)
    (h : read_yaml_imports lookup read_orthologs_yaml job db registered
      = .ok (db1, registered1, loaded)) : ∀ m ∈ loaded, m.get_genes.Nodup := by
  unfold read_yaml_imports at h
  cases hm : read_yaml_matrices lookup job.expression_matrices registered [] with
  | error e => rw [hm] at h; exact Except.noConfusion h
  | ok p =>
    obtain ⟨reg2, ems⟩ := p
    rw [hm] at h
    simp only at h
    cases ho : read_yaml_orthologs read_orthologs_yaml job db with
    | error e => rw [ho] at h; exact Except.noConfusion h
    | ok db2 =>
      rw [ho] at h
      simp only [Except.ok.injEq, Prod.mk.injEq] at h
      rw [← h.2.2]
      exact read_yaml_matrices_keys lookup _ _ _ _ _ hm (by simp)

theorem emplace_genes_error (gs : List Gene) :
    ∀ (genes : List Gene) (e : Exception), gs.Nodup → emplace_genes gs genes = .error e →
      ∃ g ∈ gs, g ∈ genes
        ∧ e = .typed .GENERIC (.other ("Gene " ++ g.name ++ " present in multiple matrices")) := by
  induction gs with
  | nil => intro genes e _ h; simp [emplace_genes] at h
  | cons g rest ih =>
    intro genes e hnd h
    rw [List.nodup_cons] at hnd
    unfold emplace_genes at h
    by_cases hg : g ∈ genes
    · simp only [hg, not_true_eq_false, decide_False, ensure, Bool.false_eq_true, if_false,
        Except.error.injEq] at h
      exact ⟨g, List.mem_cons_self _ _, hg, h.symm⟩
    · simp only [hg, not_false_eq_true, decide_True, ensure, if_true] at h
      obtain ⟨g2, hg2, hin, he⟩ := ih _ e hnd.2 h
      refine ⟨g2, List.mem_cons_of_mem _ hg2, ?_, he⟩
      rcases List.mem_append.1 hin with h1 | h1
      · exact h1
      · rw [List.mem_singleton] at h1
        subst h1
        exact absurd hg2 hnd.1

theorem all_genes_error (ms : List GeneExpressionMatrix) :
    ∀ (genes : List Gene) (e : Exception), (∀ m ∈ ms, m.get_genes.Nodup) → genes.Nodup →
      all_genes ms genes = .error e →
      ∃ g, e = .typed .GENERIC (.other ("Gene " ++ g.name ++ " present in multiple matrices"))
        ∧ ((∃ m ∈ ms, g ∈ m.get_genes ∧ g ∈ genes)
          ∨ ∃ before a between b after, ms = before ++ a :: (between ++ b :: after)
              ∧ g ∈ a.get_genes ∧ g ∈ b.get_genes) := by
  induction ms with
  | nil => intro genes e _ _ h; simp [all_genes] at h
  | cons m rest ih =>
    intro genes e hms hnd h
    unfold all_genes at h
    cases he : emplace_genes m.get_genes genes with
    | error e2 =>
      rw [he] at h
      simp only [Except.error.injEq] at h
      subst h
      obtain ⟨g, hg, hin, hmsg⟩ := emplace_genes_error _ _ _ (hms m (List.mem_cons_self _ _)) he
      exact ⟨g, hmsg, Or.inl ⟨m, List.mem_cons_self _ _, hg, hin⟩⟩
    | ok genes2 =>
      rw [he] at h
      simp only at h
      obtain ⟨h1, h2⟩ := emplace_genes_spec _ _ _ he hnd
      obtain ⟨g, hmsg, hcase⟩ := ih genes2 e
        (fun m2 hm2 => hms m2 (List.mem_cons_of_mem _ hm2)) h2 h
      refine ⟨g, hmsg, ?_⟩
      rcases hcase with ⟨m2, hm2, hg2, hin⟩ | ⟨before, a, between, b, after, hsplit, ha, hb⟩
      · rw [h1] at hin
        rcases List.mem_append.1 hin with h3 | h3
        · exact Or.inl ⟨m2, List.mem_cons_of_mem _ hm2, hg2, h3⟩
        · obtain ⟨s, t, hst⟩ := List.append_of_mem hm2
          exact Or.inr ⟨[], m, s, m2, t, by rw [hst]; rfl, h3, hg2⟩
      · exact Or.inr ⟨m :: before, a, between, b, after, by rw [hsplit]; rfl, ha, hb⟩

theorem all_genes_pairwise (ms : List GeneExpressionMatrix) (genes : List Gene)
    (h : all_genes ms [] = .ok genes) :
    ms.Pairwise (fun a b => ∀ g ∈ a.get_genes, g ∉ b.get_genes) := by
  obtain ⟨h1, h2⟩ := all_genes_spec ms [] genes h List.nodup_nil
  rw [h1, List.nil_append, List.nodup_flatten] at h2
  have hp := List.pairwise_map.1 h2.2
  exact hp.imp (fun hd g ha hb => hd ha hb)

/-- C27. Once the thresholds are accepted and the matrices and ortholog files are read, the
test of lines 80-88 fails exactly when some gene is a row of two of the loaded matrices; then
`read_yaml` ends with the error `Gene <name> present in multiple matrices` for such a gene.
When `read_yaml` returns, the gene sets of the loaded matrices are pairwise disjoint. -/
theorem read_yaml_present_in_multiple_matrices
    (try_get_gene_variant : String → Option GeneVariant)
    (read_orthologs_yaml : Database → Except Exception Database)
    (family_id : String → String → GeneFamilyId)
    (job : Job) (db db1 : Database)
    (registered registered1 expression_matrices : List GeneExpressionMatrix)
    (hc : check_tresholds job = .ok ())
    (himports : read_yaml_imports try_get_gene_variant read_orthologs_yaml job db registered
      = .ok (db1, registered1, expression_matrices)) :
    ((∃ e, all_genes expression_matrices [] = .error e) ↔
      ∃ gene before a between b after,
        expression_matrices = before ++ a :: (between ++ b :: after)
        ∧ gene ∈ a.get_genes ∧ gene ∈ b.get_genes)
    ∧ (∀ e, all_genes expression_matrices [] = .error e →
        read_yaml try_get_gene_variant read_orthologs_yaml family_id job db registered = .error e
        ∧ ∃ gene,
            e = .typed .GENERIC (.other ("Gene " ++ gene.name ++ " present in multiple matrices"))
            ∧ ∃ before a between b after,
                expression_matrices = before ++ a :: (between ++ b :: after)
                ∧ gene ∈ a.get_genes ∧ gene ∈ b.get_genes)
    ∧ (∀ out, read_yaml try_get_gene_variant read_orthologs_yaml family_id job db registered
          = .ok out →
        out.expression_matrices = expression_matrices
        ∧ expression_matrices.Pairwise (fun a b => ∀ g ∈ a.get_genes, g ∉ b.get_genes)) := by
  have hkeys := read_yaml_imports_keys try_get_gene_variant read_orthologs_yaml job db db1
    registered registered1 expression_matrices himports
  have herr : ∀ e, all_genes expression_matrices [] = .error e →
      ∃ gene,
        e = .typed .GENERIC (.other ("Gene " ++ gene.name ++ " present in multiple matrices"))
        ∧ ∃ before a between b after,
            expression_matrices = before ++ a :: (between ++ b :: after)
            ∧ gene ∈ a.get_genes ∧ gene ∈ b.get_genes := by
    intro e he
    obtain ⟨g, hmsg, hcase⟩ := all_genes_error expression_matrices [] e hkeys List.nodup_nil he
    rcases hcase with ⟨m, _, _, hin⟩ | hsplit
    · simp at hin
    · exact ⟨g, hmsg, hsplit⟩
  refine ⟨⟨?_, ?_⟩, ?_, ?_⟩
  · rintro ⟨e, he⟩
    obtain ⟨g, _, hsplit⟩ := herr e he
    exact ⟨g, hsplit⟩
  · rintro ⟨g, before, a, between, b, after, hsplit, ha, hb⟩
    cases hall : all_genes expression_matrices [] with
    | error e => exact ⟨e, rfl⟩
    | ok genes =>
      exfalso
      have hp := all_genes_pairwise expression_matrices genes hall
      rw [hsplit] at hp
      have hp2 := (List.pairwise_append.1 hp).2.1
      rw [List.pairwise_cons] at hp2
      exact hp2.1 b (by simp) g ha hb
  · intro e he
    refine ⟨?_, herr e he⟩
    rw [read_yaml_eq_data _ _ _ _ _ _ hc]
    unfold read_yaml_data
    rw [himports]
    simp only [read_yaml_singletons, he]
  · intro out hout
    have hd := read_yaml_data_of_ok _ _ _ _ _ _ _ hout
    unfold read_yaml_data at hd
    rw [himports] at hd
    simp only at hd
    cases hs : read_yaml_singletons family_id expression_matrices db1 with
    | error e => rw [hs] at hd; exact Except.noConfusion hd
    | ok db3 =>
      rw [hs] at hd
      simp only [Except.ok.injEq] at hd
      subst hd
      refine ⟨rfl, ?_⟩
      unfold read_yaml_singletons at hs
      cases hg : all_genes expression_matrices [] with
      | error e => rw [hg] at hs; exact Except.noConfusion hs
      | ok genes => exact all_genes_pairwise expression_matrices genes hg

theorem read_yaml_present_in_multiple_matrices_witness :
    read_yaml abcGenes (fun d => .ok d) example_family_id twoMatrixJob emptyDatabase []
      = .error (.typed .GENERIC (.other "Gene geneA present in multiple matrices")) := by
  have hc := check_tresholds_ok twoMatrixJob (-1) 1 rfl rfl
    (by norm_num [treshold_bound]) (by norm_num [treshold_bound])
  obtain ⟨registered1, matrices, himports, hall⟩ : ∃ registered1 matrices,
      read_yaml_imports abcGenes (fun d => .ok d) twoMatrixJob emptyDatabase []
        = .ok (emptyDatabase, registered1, matrices)
      ∧ all_genes matrices []
        = .error (.typed .GENERIC (.other "Gene geneA present in multiple matrices")) :=
    ⟨_, _, rfl, rfl⟩
  exact ((read_yaml_present_in_multiple_matrices abcGenes (fun d => .ok d) example_family_id
    twoMatrixJob emptyDatabase emptyDatabase [] registered1 matrices hc himports).2.1 _ hall).1


end DeepBlueGenome

